import Mathlib

/-!
# zebra: the row-to-column append engine (`csrc/zebra_append.c`)

A shallow embedding of `zebra_append.c` and a verification of its specification.

Modelling conventions.

* An `int64_t` is an `Int`, a `uint8_t` a `Nat`, a `bool64_t` a `Bool`.  Row counts and
  indices are bounded by the storage they index.  The offsets of an Array column are not:
  the two additions of the Array loop (lines 77-78) are computed as the machine computes
  them, modulo `2^64` (`wrap64`), and every statement about the exact sums carries the
  hypothesis that they fit an `int64_t`.
* The header `zebra_data.h` with the struct declarations is not part of the sources; the
  data model follows the specification and the fields that `zebra_append.c` uses.
* A C array is a `List`.  A read or a write outside the list is undefined behaviour in
  C; the embedding makes every function return `none` in that case, so a result of the
  form `some (err, out)` means: the call returned `err`, touched only storage it owns,
  and left the destination in state `out`.
* The destination is mutated in place and never rolled back, so each function returns
  the final state of its destination together with the error code, on failure too.
* Source and destination are distinct objects (no aliasing).
* `double` values are only ever copied, so a `double` is its 64-bit pattern, a `Nat`.
-/

namespace Zebra

/-! ## Data model -/


/-- Modelled from the spec: the result codes of `error_t` that `zebra_append.c` returns
(the enumeration itself is declared in an absent header). -/
inductive error_t where
  | ZEBRA_SUCCESS
  | ZEBRA_MERGE_DIFFERENT_COLUMN_TYPES
  | ZEBRA_INVALID_COLUMN_TYPE
  | ZEBRA_APPEND_DIFFERENT_ATTRIBUTE_COUNT
  deriving DecidableEq, Repr

/-- Modelled from the spec: the type tag of a column (declared in the absent
`zebra_data.h`); `unrecognised` stands for any value outside the enumeration, the
`default:` branch of the switch. -/
inductive zebra_type_t where
  | ZEBRA_BYTE
  | ZEBRA_INT
  | ZEBRA_DOUBLE
  | ZEBRA_ARRAY
  | unrecognised (tag : Nat)
  deriving DecidableEq, Repr

mutual
/-- Modelled from the spec: the tagged union `zebra_column_t` of the absent
`zebra_data.h`.  The constructor is the `type` tag, its arguments the member of `data`
that the tag selects (`data.b`, `data.i`, `data.d`, `data.a`). -/
inductive zebra_column_t where
  | b (data : List Nat)
  | i (data : List Int)
  | d (data : List Nat)
  | a (n : List Int) (s : List Int) (s_offset : Int) (table : zebra_table_t)
  | unrecognised (tag : Nat)
/-- Modelled from the spec: struct `zebra_table_t` of the absent `zebra_data.h`, with the
fields `row_count`, `column_count`, `columns`. -/
inductive zebra_table_t where
  | mk (row_count : Int) (column_count : Int) (columns : List zebra_column_t)
end

/-- Field `type` of a column. -/
def zebra_column_t.type : zebra_column_t → zebra_type_t
  | .b _ => .ZEBRA_BYTE
  | .i _ => .ZEBRA_INT
  | .d _ => .ZEBRA_DOUBLE
  | .a _ _ _ _ => .ZEBRA_ARRAY
  | .unrecognised t => .unrecognised t

def zebra_table_t.row_count : zebra_table_t → Int
  | .mk r _ _ => r

def zebra_table_t.column_count : zebra_table_t → Int
  | .mk _ c _ => c

def zebra_table_t.columns : zebra_table_t → List zebra_column_t
  | .mk _ _ cs => cs

instance : Inhabited zebra_table_t := ⟨.mk 0 0 []⟩

/-- Modelled from the spec: struct `zebra_attribute_t` of the absent `zebra_data.h`. -/
structure zebra_attribute_t where
  table : zebra_table_t
  times : List Int
  priorities : List Int
  tombstones : List Bool
  deriving Inhabited

/-- Modelled from the spec: struct `zebra_entity_t` of the absent `zebra_data.h`. -/
structure zebra_entity_t where
  hash : Nat
  id_length : Int
  id_bytes : List Nat
  attribute_count : Int
  attributes : List zebra_attribute_t

/-- Modelled from the spec: struct `zebra_block_entity_t` of the absent `zebra_data.h`. -/
structure zebra_block_entity_t where
  hash : Nat
  id_length : Int
  id_bytes : List Nat
  attribute_count : Int
  attribute_ids : List Int
  attribute_row_counts : List Int
  deriving Inhabited

/-- Modelled from the spec: struct `zebra_block_t` of the absent `zebra_data.h`; `tables`
is a nullable pointer, `none` being `NULL`. -/
structure zebra_block_t where
  entity_count : Int
  entities : List zebra_block_entity_t
  row_count : Int
  times : List Int
  priorities : List Int
  tombstones : List Bool
  table_count : Int
  tables : Option (List zebra_table_t)
  deriving Inhabited

/-! ## Memory accesses -/

/-- Read `buf[ix]`; `none` when `ix` is outside the buffer. -/
def load {α : Type} (buf : List α) (ix : Int) : Option α :=
  if 0 ≤ ix then buf[ix.toNat]? else none

/-- Write `buf[ix] = v`; `none` when `ix` is outside the buffer. -/
def store {α : Type} (buf : List α) (ix : Int) (v : α) : Option (List α) :=
  if 0 ≤ ix ∧ ix.toNat < buf.length then some (buf.set ix.toNat v) else none

/-! ## External collaborators -/

/-- Modelled from the spec: the growth manager's `grow_array` on one buffer, "returns a
buffer guaranteed to hold `new_len` elements, contents preserved"; the code of
`zebra_grow.h` is not part of the sources.  A buffer that is already long enough is
returned as it is, new slots hold the default value. -/
def grow_buffer {α : Type} [Inhabited α] (buf : List α) (new_len : Int) : List α :=
  buf ++ List.replicate (new_len.toNat - buf.length) default

/-- Modelled from the spec: the growth manager applied to one column, the per-row
storage of the column (the scalar data, or `n` and `s` of an Array column) is made to
accommodate `row_count` rows.  The nested table of an Array column has its own
`row_count` and is grown by its own append. -/
def zebra_grow_column (row_count : Int) : zebra_column_t → zebra_column_t
  | .b data => .b (grow_buffer data row_count)
  | .i data => .i (grow_buffer data row_count)
  | .d data => .d (grow_buffer data row_count)
  | .a n s s_offset table => .a (grow_buffer n row_count) (grow_buffer s row_count) s_offset table
  | .unrecognised t => .unrecognised t

/-- Modelled from the spec: `zebra_grow_table` (`ensure_table_capacity`) of the absent
`zebra_grow.h`, after it "every column's physical storage accommodates at least
`row_count` rows"; nothing else of the table changes.  Arena allocation does not fail. -/
def zebra_grow_table (table : zebra_table_t) : error_t × zebra_table_t :=
  (.ZEBRA_SUCCESS,
    .mk table.row_count table.column_count (table.columns.map (zebra_grow_column table.row_count)))

/-- Modelled from the spec: `zebra_grow_attribute` (`ensure_attribute_capacity`) of the
absent `zebra_grow.h`: the attribute's `times`, `priorities` and `tombstones` and the
storage of its table are made to accommodate `table.row_count` rows, contents preserved.
Arena allocation does not fail. -/
def zebra_grow_attribute (attr : zebra_attribute_t) : error_t × zebra_attribute_t :=
  let grown := zebra_grow_table attr.table
  (grown.1,
    { table := grown.2
      times := grow_buffer attr.times attr.table.row_count
      priorities := grow_buffer attr.priorities attr.table.row_count
      tombstones := grow_buffer attr.tombstones attr.table.row_count })

/-- Modelled from the spec: macro `ZEBRA_GROW_ARRAY (pool, array, old_len, new_len)` of
the absent `zebra_grow.h`, "returns a buffer guaranteed to hold `new_len` elements,
contents for indices `< old_len` preserved".  New slots hold the default value. -/
def ZEBRA_GROW_ARRAY {α : Type} [Inhabited α] (array : List α) (old_len new_len : Int) :
    List α :=
  array.take old_len.toNat ++
    List.replicate (new_len.toNat - (array.take old_len.toNat).length) default

/-- Modelled from the spec: macro `ZEBRA_CLONE_ARRAY (pool, array, length)` of the absent
`zebra_clone.h`, a copy of the first `length` elements of `array` in arena storage. -/
def ZEBRA_CLONE_ARRAY {α : Type} (array : List α) (length : Int) : Option (List α) :=
  if 0 ≤ length ∧ length.toNat ≤ array.length then some (array.take length.toNat) else none

/-- Modelled from the spec: `zebra_deep_clone_table` of the absent `zebra_clone.h`,
"produces an independent table with identical schema and contents". -/
def zebra_deep_clone_table (table : zebra_table_t) : error_t × zebra_table_t :=
  (.ZEBRA_SUCCESS, table)

/-- Modelled from the spec: the arena's `allocate`, called as
`anemone_mempool_alloc (pool, sizeof (elem) * count)`: a fresh buffer of `count`
elements. -/
def anemone_mempool_alloc {α : Type} [Inhabited α] (count : Int) : List α :=
  List.replicate count.toNat default

/-- Modelled from the spec: the arena's `allocate_zeroed`, called as
`anemone_mempool_calloc (pool, count, sizeof (elem))`: a fresh zeroed buffer of `count`
elements. -/
def anemone_mempool_calloc {α : Type} [Inhabited α] (count : Int) : List α :=
  List.replicate count.toNat default

/-- Library call `memcpy (dst + offset, src, count * sizeof (elem))`.  A negative `count`
becomes a huge `size_t`, and a range outside either buffer is a fault. -/
def memcpy {α : Type} (dst : List α) (offset : Int) (src : List α) (count : Int) :
    Option (List α) :=
  if 0 ≤ count ∧ 0 ≤ offset ∧ count.toNat ≤ src.length ∧ offset.toNat + count.toNat ≤ dst.length
  then some (dst.take offset.toNat ++ src.take count.toNat ++ dst.drop (offset.toNat + count.toNat))
  else none

/-! ## `zebra_append_column` and `zebra_append_table` -/

/-- The scalar loops of `zebra_append_column` (lines 42-44, 48-50, 54-56), started at
`ix` with `remaining` iterations to go: `out[out_ix + ix] = in[in_ix + ix]`. -/
def copy_loop {α : Type} (src : List α) (in_ix out_ix : Int) :
    Nat → Int → List α → Option (List α)
  | 0, _, dst => some dst
  | remaining + 1, ix, dst =>
    match load src (in_ix + ix) with
    | none => none
    | some v =>
      match store dst (out_ix + ix) v with
      | none => none
      | some dst1 => copy_loop src in_ix out_ix remaining (ix + 1) dst1

/-- Loop `for (ix = 0; ix != out_count; ++ix)` over a scalar buffer.  With a negative
`out_count` the counter never meets its bound and the loop runs off the buffers. -/
def copy_rows {α : Type} (src : List α) (in_ix : Int) (dst : List α)
    (out_ix out_count : Int) : Option (List α) :=
  if out_count < 0 then none else copy_loop src in_ix out_ix out_count.toNat 0 dst

/-- The least `int64_t`. -/
def INT64_MIN : Int := -9223372036854775808

/-- The greatest `int64_t`. -/
def INT64_MAX : Int := 9223372036854775807

/-- The `int64_t` that an `int64_t` addition leaves for the exact sum `x`: `x` itself when
it fits, and `x` reduced modulo `2^64` into the range of `int64_t` otherwise. -/
def wrap64 (x : Int) : Int :=
  (x - INT64_MIN) % 18446744073709551616 + INT64_MIN

/-- The value `x` fits an `int64_t`. -/
def int64_range (x : Int) : Prop :=
  INT64_MIN ≤ x ∧ x ≤ INT64_MAX

/-- State of the Array loop: the destination's `n`, its `s`, and `nested_count`. -/
structure array_state where
  n : List Int
  s : List Int
  nested_count : Int

/-- The Array loop of `zebra_append_column` (lines 74-79), started at `ix` with `remaining`
iterations to go.  `nested_count += n` (line 77) and `s + nested_count` (line 78) are
`int64_t` additions. -/
def array_loop (in_n : List Int) (in_ix out_ix s : Int) :
    Nat → Int → array_state → Option array_state
  | 0, _, st => some st
  | remaining + 1, ix, st =>
    match load in_n (in_ix + ix) with
    | none => none
    | some n =>
      match store st.n (out_ix + ix) n with
      | none => none
      | some out_n =>
        let nested_count := wrap64 (st.nested_count + n)
        match store st.s (out_ix + ix) (wrap64 (s + nested_count)) with
        | none => none
        | some out_s => array_loop in_n in_ix out_ix s remaining (ix + 1) ⟨out_n, out_s, nested_count⟩

/-- Loop `for (ix = 0; ix != out_count; ++ix)` of the Array case. -/
def array_rows (in_n : List Int) (in_ix : Int) (out_n out_s : List Int)
    (out_ix s out_count : Int) : Option array_state :=
  if out_count < 0 then none
  else array_loop in_n in_ix out_ix s out_count.toNat 0 ⟨out_n, out_s, 0⟩

/-- Line 62-65: `value_in_ix`. -/
def value_in_ix (in_s : List Int) (in_s_offset in_ix : Int) : Option Int :=
  if in_ix > 0 then
    match load in_s (in_ix - 1) with
    | none => none
    | some v => some (v - in_s_offset)
  else some 0

/-- Line 67-72: the destination's running offset base `s`. -/
def out_base (out_s : List Int) (out_s_offset out_ix : Int) : Option Int :=
  if out_ix > 0 then load out_s (out_ix - 1) else some out_s_offset

mutual
/-- Function `zebra_append_column` (lines 35-87). -/
def zebra_append_column (in_ : zebra_column_t) (in_ix : Int) (out_into : zebra_column_t)
    (out_ix out_count : Int) : Option (error_t × zebra_column_t) :=
  if in_.type ≠ out_into.type then some (.ZEBRA_MERGE_DIFFERENT_COLUMN_TYPES, out_into)
  else if out_count = 0 then some (.ZEBRA_SUCCESS, out_into)
  else
    match in_, out_into with
    | .b src, .b dst =>
      match copy_rows src in_ix dst out_ix out_count with
      | none => none
      | some dst1 => some (.ZEBRA_SUCCESS, .b dst1)
    | .i src, .i dst =>
      match copy_rows src in_ix dst out_ix out_count with
      | none => none
      | some dst1 => some (.ZEBRA_SUCCESS, .i dst1)
    | .d src, .d dst =>
      match copy_rows src in_ix dst out_ix out_count with
      | none => none
      | some dst1 => some (.ZEBRA_SUCCESS, .d dst1)
    | .a in_n in_s in_s_offset in_table, .a out_n out_s out_s_offset out_table =>
      match value_in_ix in_s in_s_offset in_ix with
      | none => none
      | some v_ix =>
        match out_base out_s out_s_offset out_ix with
        | none => none
        | some s =>
          match array_rows in_n in_ix out_n out_s out_ix s out_count with
          | none => none
          | some st =>
            match zebra_append_table in_table v_ix out_table st.nested_count with
            | none => none
            | some (err, table1) => some (err, .a st.n st.s out_s_offset table1)
    | _, _ => some (.ZEBRA_INVALID_COLUMN_TYPE, out_into)
/-- Function `zebra_append_table` (lines 89-104). -/
def zebra_append_table (in_ : zebra_table_t) (in_ix : Int) (out_into : zebra_table_t)
    (count : Int) : Option (error_t × zebra_table_t) :=
  match in_ with
  | .mk _ in_column_count in_columns =>
    let out_ix := out_into.row_count
    let grown := zebra_grow_table
      (.mk (out_into.row_count + count) out_into.column_count out_into.columns)
    if grown.1 ≠ .ZEBRA_SUCCESS then some (grown.1, grown.2)
    else
      match append_columns in_columns in_ix grown.2.columns out_ix count in_column_count.toNat with
      | none => none
      | some (err, columns1) => some (err, .mk grown.2.row_count grown.2.column_count columns1)
/-- The column loop of `zebra_append_table` (lines 98-101) with `remaining` iterations to go,
on what is left of `in->columns + c` and `out_into->columns + c`.  The columns that the
loop has not reached when it stops stay as they are. -/
def append_columns (in_columns : List zebra_column_t) (in_ix : Int)
    (out_columns : List zebra_column_t) (out_ix count : Int) :
    Nat → Option (error_t × List zebra_column_t)
  | 0 => some (.ZEBRA_SUCCESS, out_columns)
  | remaining + 1 =>
    match in_columns, out_columns with
    | in_c :: in_rest, out_c :: out_rest =>
      match zebra_append_column in_c in_ix out_c out_ix count with
      | none => none
      | some (err, out_c1) =>
        if err ≠ .ZEBRA_SUCCESS then some (err, out_c1 :: out_rest)
        else
          match append_columns in_rest in_ix out_rest out_ix count remaining with
          | none => none
          | some (err1, out_rest1) => some (err1, out_c1 :: out_rest1)
    | _, _ => none
end

/-! ## `zebra_append_attribute` -/

/-- Function `zebra_append_attribute` (lines 11-32).  The result is the error code and
the final state of `*out_into`. -/
def zebra_append_attribute (in_ : zebra_attribute_t) (ix : Int) (out_into : zebra_attribute_t) :
    Option (error_t × zebra_attribute_t) :=
  let out_ix := out_into.table.row_count
  let grown := zebra_grow_attribute
    { out_into with
      table := .mk (out_into.table.row_count + 1) out_into.table.column_count
        out_into.table.columns }
  if grown.1 ≠ .ZEBRA_SUCCESS then some (grown.1, grown.2)
  else
    let out1 : zebra_attribute_t :=
      { grown.2 with
        table := .mk (grown.2.table.row_count - 1) grown.2.table.column_count
          grown.2.table.columns }
    match zebra_append_table in_.table ix out1.table 1 with
    | none => none
    | some (err, table1) =>
      let out2 : zebra_attribute_t := { out1 with table := table1 }
      if err ≠ .ZEBRA_SUCCESS then some (err, out2)
      else
        match load in_.times ix with
        | none => none
        | some time =>
          match store out2.times out_ix time with
          | none => none
          | some times =>
            match load in_.priorities ix with
            | none => none
            | some priority =>
              match store out2.priorities out_ix priority with
              | none => none
              | some priorities =>
                match load in_.tombstones ix with
                | none => none
                | some tombstone =>
                  match store out2.tombstones out_ix tombstone with
                  | none => none
                  | some tombstones =>
                    some (.ZEBRA_SUCCESS,
                      { out2 with
                        times := times, priorities := priorities, tombstones := tombstones })

/-! ## `zebra_fill_block_entity` -/

/-- First loop of `zebra_fill_block_entity` (lines 114-117), at attribute `c` with `remaining`
iterations to go; the result is `nonzeros`. -/
def nonzeros_loop (attributes : List zebra_attribute_t) : Nat → Int → Int → Option Int
  | 0, _, nonzeros => some nonzeros
  | remaining + 1, c, nonzeros =>
    match load attributes c with
    | none => none
    | some attr =>
      nonzeros_loop attributes remaining (c + 1)
        (if attr.table.row_count > 0 then nonzeros + 1 else nonzeros)

/-- State of the second loop: `attribute_ids`, `attribute_row_counts`, `sparse_ix`. -/
structure sparse_state where
  attribute_ids : List Int
  attribute_row_counts : List Int
  sparse_ix : Int

/-- Second loop of `zebra_fill_block_entity` (lines 124-131). -/
def sparse_loop (attributes : List zebra_attribute_t) : Nat → Int → sparse_state → Option sparse_state
  | 0, _, st => some st
  | remaining + 1, c, st =>
    match load attributes c with
    | none => none
    | some attr =>
      let row_count := attr.table.row_count
      if row_count > 0 then
        match store st.attribute_ids st.sparse_ix c with
        | none => none
        | some ids =>
          match store st.attribute_row_counts st.sparse_ix row_count with
          | none => none
          | some counts => sparse_loop attributes remaining (c + 1) ⟨ids, counts, st.sparse_ix + 1⟩
      else sparse_loop attributes remaining (c + 1) st

/-- Function `zebra_fill_block_entity` (lines 106-134); the result is the record written
to `*block_entity`.  A negative `attribute_count` is never met by the loop counters. -/
def zebra_fill_block_entity (entity : zebra_entity_t) : Option (error_t × zebra_block_entity_t) :=
  match ZEBRA_CLONE_ARRAY entity.id_bytes entity.id_length with
  | none => none
  | some id_bytes =>
    if entity.attribute_count < 0 then none
    else
      match nonzeros_loop entity.attributes entity.attribute_count.toNat 0 0 with
      | none => none
      | some nonzeros =>
        match sparse_loop entity.attributes entity.attribute_count.toNat 0
            ⟨anemone_mempool_alloc nonzeros, anemone_mempool_alloc nonzeros, 0⟩ with
        | none => none
        | some st =>
          some (.ZEBRA_SUCCESS,
            { hash := entity.hash
              id_length := entity.id_length
              id_bytes := id_bytes
              attribute_count := nonzeros
              attribute_ids := st.attribute_ids
              attribute_row_counts := st.attribute_row_counts })

/-! ## `zebra_append_block_entity` -/

/-- Loop of lines 154-156, the result is `new_row_count`. -/
def new_row_count_loop (attributes : List zebra_attribute_t) : Nat → Int → Int → Option Int
  | 0, _, new_row_count => some new_row_count
  | remaining + 1, c, new_row_count =>
    match load attributes c with
    | none => none
    | some attr =>
      new_row_count_loop attributes remaining (c + 1) (new_row_count + attr.table.row_count)

/-- State of the loop of lines 165-174: the block's three metadata arrays and
`cur_row_count`. -/
structure meta_state where
  times : List Int
  priorities : List Int
  tombstones : List Bool
  cur_row_count : Int

/-- Loop of lines 165-174. -/
def meta_loop (attributes : List zebra_attribute_t) : Nat → Int → meta_state → Option meta_state
  | 0, _, st => some st
  | remaining + 1, c, st =>
    match load attributes c with
    | none => none
    | some attr =>
      let row_count := attr.table.row_count
      match memcpy st.times st.cur_row_count attr.times row_count with
      | none => none
      | some times =>
        match memcpy st.priorities st.cur_row_count attr.priorities row_count with
        | none => none
        | some priorities =>
          match memcpy st.tombstones st.cur_row_count attr.tombstones row_count with
          | none => none
          | some tombstones =>
            meta_loop attributes remaining (c + 1)
              ⟨times, priorities, tombstones, st.cur_row_count + row_count⟩

/-- Loop of lines 177-182: table-append every attribute's table onto the block's. -/
def append_tables_loop (attributes : List zebra_attribute_t) :
    Nat → Int → List zebra_table_t → Option (error_t × List zebra_table_t)
  | 0, _, tables => some (.ZEBRA_SUCCESS, tables)
  | remaining + 1, c, tables =>
    match load attributes c, load tables c with
    | some attr, some block_table =>
      match zebra_append_table attr.table 0 block_table attr.table.row_count with
      | none => none
      | some (err, block_table1) =>
        if err ≠ .ZEBRA_SUCCESS then some (err, tables.set c.toNat block_table1)
        else append_tables_loop attributes remaining (c + 1) (tables.set c.toNat block_table1)
    | _, _ => none

/-- Loop of lines 186-189: deep-clone every attribute's table into the block's. -/
def clone_tables_loop (attributes : List zebra_attribute_t) :
    Nat → Int → List zebra_table_t → Option (error_t × List zebra_table_t)
  | 0, _, tables => some (.ZEBRA_SUCCESS, tables)
  | remaining + 1, c, tables =>
    match load attributes c with
    | none => none
    | some attr =>
      let cloned := zebra_deep_clone_table attr.table
      match store tables c cloned.2 with
      | none => none
      | some tables1 =>
        if cloned.1 ≠ .ZEBRA_SUCCESS then some (cloned.1, tables1)
        else clone_tables_loop attributes remaining (c + 1) tables1

/-- Lines 147-190 of `zebra_append_block_entity`, on the block that line 139-145 selected.
The result is the error code and the final state of that block. -/
def append_block_entity_body (entity : zebra_entity_t) (block : zebra_block_t) :
    Option (error_t × zebra_block_t) :=
  let entities := ZEBRA_GROW_ARRAY block.entities block.entity_count (block.entity_count + 1)
  match zebra_fill_block_entity entity with
  | none => none
  | some (err, block_entity) =>
    match store entities block.entity_count block_entity with
    | none => none
    | some entities1 =>
      let block1 := { block with entities := entities1 }
      if err ≠ .ZEBRA_SUCCESS then some (err, block1)
      else
        let block2 := { block1 with entity_count := block1.entity_count + 1 }
        let old_row_count := block2.row_count
        match new_row_count_loop entity.attributes entity.attribute_count.toNat 0 block2.row_count with
        | none => none
        | some new_row_count =>
          let times := ZEBRA_GROW_ARRAY block2.times block2.row_count new_row_count
          let priorities := ZEBRA_GROW_ARRAY block2.priorities block2.row_count new_row_count
          let tombstones := ZEBRA_GROW_ARRAY block2.tombstones block2.row_count new_row_count
          match meta_loop entity.attributes entity.attribute_count.toNat 0
              ⟨times, priorities, tombstones, old_row_count⟩ with
          | none => none
          | some st =>
            let block3 := { block2 with
              times := st.times, priorities := st.priorities, tombstones := st.tombstones,
              row_count := new_row_count }
            match block3.tables with
            | some tables =>
              match append_tables_loop entity.attributes block3.table_count.toNat 0 tables with
              | none => none
              | some (err1, tables1) => some (err1, { block3 with tables := some tables1 })
            | none =>
              let table_count := entity.attribute_count
              match clone_tables_loop entity.attributes table_count.toNat 0
                  (anemone_mempool_calloc table_count) with
              | none => none
              | some (err1, tables1) =>
                some (err1, { block3 with table_count := table_count, tables := some tables1 })

/-- Function `zebra_append_block_entity` (lines 136-194).  The argument is the block that
`*inout_block` designates (`none` for `NULL`); the result is the error code and the
block that `*inout_block` designates on return, in its final state: on success the
block written back at line 192, on failure the caller's block as the call left it. -/
def zebra_append_block_entity (entity : zebra_entity_t) (inout_block : Option zebra_block_t) :
    Option (error_t × Option zebra_block_t) :=
  match inout_block with
  | none =>
    match append_block_entity_body entity (default : zebra_block_t) with
    | none => none
    | some (err, block) =>
      if err ≠ .ZEBRA_SUCCESS then some (err, none) else some (.ZEBRA_SUCCESS, some block)
  | some block =>
    if entity.attribute_count ≠ block.table_count then
      some (.ZEBRA_APPEND_DIFFERENT_ATTRIBUTE_COUNT, some block)
    else
      match append_block_entity_body entity block with
      | none => none
      | some (err, block1) => some (err, some block1)


/-! ## Observations on columns used by the specification -/

/-- A scalar value of one of the three scalar column types. -/
inductive scalar_t where
  | byte (v : Nat)
  | int (v : Int)
  | double (v : Nat)
  deriving DecidableEq, Repr

/-- The column is of a scalar type (Byte, Int or Double). -/
def zebra_column_t.is_scalar (c : zebra_column_t) : Prop :=
  c.type = .ZEBRA_BYTE ∨ c.type = .ZEBRA_INT ∨ c.type = .ZEBRA_DOUBLE

/-- Number of rows that the per-row storage of a column accommodates. -/
def zebra_column_t.capacity : zebra_column_t → Nat
  | .b data => data.length
  | .i data => data.length
  | .d data => data.length
  | .a n s _ _ => min n.length s.length
  | .unrecognised _ => 0

/-- Element `k` of a scalar column. -/
def zebra_column_t.scalar_at : zebra_column_t → Nat → Option scalar_t
  | .b data, k => data[k]?.map .byte
  | .i data, k => data[k]?.map .int
  | .d data, k => data[k]?.map .double
  | _, _ => none

/-- Row count of attribute `c` of an attribute array (0 past its end). -/
def row_count_at (attributes : List zebra_attribute_t) (c : Nat) : Int :=
  match attributes[c]? with
  | some attr => attr.table.row_count
  | none => 0

/-- The positions `c` in `[first, first + len)` whose attribute has `row_count > 0`, in
ascending order. -/
def nonzero_ids (attributes : List zebra_attribute_t) (first len : Nat) : List Nat :=
  (List.range' first len).filter (fun c => 0 < row_count_at attributes c)

/-- The error codes that the column and table appenders can return. -/
def append_error (e : error_t) : Prop :=
  e = .ZEBRA_SUCCESS ∨ e = .ZEBRA_MERGE_DIFFERENT_COLUMN_TYPES ∨ e = .ZEBRA_INVALID_COLUMN_TYPE

/-! ## Concrete entities of the specification's scenarios -/

/-- An attribute whose table has one Int column holding `values`, with the given times,
priority 0 and no tombstone on every row. -/
def attribute_of (values times : List Int) : zebra_attribute_t :=
  ⟨.mk values.length 1 [.i values], times, times.map (fun _ => 0), times.map (fun _ => false)⟩

/-- An entity over the given attributes. -/
def example_entity (hash : Nat) (attributes : List zebra_attribute_t) : zebra_entity_t :=
  ⟨hash, 0, [], attributes.length, attributes⟩

/-- Entity E1 of the end-to-end scenario: attr0 empty, attr1 with two rows at times 10, 20. -/
def scenario_E1 : zebra_entity_t :=
  example_entity 1 [attribute_of [] [], attribute_of [100, 200] [10, 20]]

/-- Entity E2 of the end-to-end scenario: attr0 with one row at time 5, attr1 with one row
at time 30. -/
def scenario_E2 : zebra_entity_t :=
  example_entity 2 [attribute_of [7] [5], attribute_of [300] [30]]

/-- An entity with four attributes. -/
def entity_4 : zebra_entity_t :=
  example_entity 4 [attribute_of [1] [1], attribute_of [] [],
    attribute_of [2, 3] [2, 3], attribute_of [] []]

/-- An entity with three attributes. -/
def entity_3 : zebra_entity_t :=
  example_entity 3 [attribute_of [1] [1], attribute_of [] [],
    attribute_of [2, 3] [2, 3]]

/-- An entity with five attributes. -/
def entity_5 : zebra_entity_t :=
  example_entity 5 [attribute_of [] [], attribute_of [] [],
    attribute_of [] [], attribute_of [] [], attribute_of [9] [9]]

/-- The block that a first append of `entity_4` builds. -/
def block_4 : zebra_block_t :=
  { entity_count := 1
    entities := [⟨4, 0, [], 2, [0, 2], [1, 2]⟩]
    row_count := 3
    times := [1, 2, 3]
    priorities := [0, 0, 0]
    tombstones := [false, false, false]
    table_count := 4
    tables := some [.mk 1 1 [.i [1]], .mk 0 1 [.i []], .mk 2 1 [.i [2, 3]], .mk 0 1 [.i []]] }

/-! ## Block metadata: what the specification says an entity contributes -/

/-- Rows that a sequence of attributes contributes to one of the block's metadata arrays:
for each attribute in order, the first `row_count` entries of its own array. -/
def attribute_rows {α : Type} (field : zebra_attribute_t → List α)
    (attributes : List zebra_attribute_t) : List α :=
  (attributes.map (fun attr => (field attr).take attr.table.row_count.toNat)).flatten

/-- Sum of the row counts of a sequence of attributes. -/
def total_row_count (attributes : List zebra_attribute_t) : Int :=
  (attributes.map (fun attr => attr.table.row_count)).sum

/-- The block of the end-to-end scenario after E1. -/
def scenario_block_1 : zebra_block_t :=
  { entity_count := 1
    entities := [⟨1, 0, [], 1, [1], [2]⟩]
    row_count := 2
    times := [10, 20]
    priorities := [0, 0]
    tombstones := [false, false]
    table_count := 2
    tables := some [.mk 0 1 [.i []], .mk 2 1 [.i [100, 200]]] }

/-- The block of the end-to-end scenario after E1 and E2. -/
def scenario_block_2 : zebra_block_t :=
  { entity_count := 2
    entities := [⟨1, 0, [], 1, [1], [2]⟩, ⟨2, 0, [], 2, [0, 1], [1, 1]⟩]
    row_count := 4
    times := [10, 20, 5, 30]
    priorities := [0, 0, 0, 0]
    tombstones := [false, false, false, false]
    table_count := 2
    tables := some [.mk 1 1 [.i [7]], .mk 3 1 [.i [100, 200, 300]]] }

/-! ## Rows of a column -/

/-- Sum of `len` entries of `l` starting at `first`. -/
def range_sum (l : List Int) (first len : Nat) : Int :=
  ((l.drop first).take len).sum

/-- What row `k` of a column stores in the column's own per-row storage: the scalar, or
the pair `n[k]`, `s[k]` of an Array column. -/
inductive cell_t where
  | scalar (v : scalar_t)
  | array (n s : Int)
  deriving DecidableEq, Repr

/-- Row `k` of the per-row storage of a column. -/
def zebra_column_t.cell_at : zebra_column_t → Nat → Option cell_t
  | .b data, k => data[k]?.map (fun v => .scalar (.byte v))
  | .i data, k => data[k]?.map (fun v => .scalar (.int v))
  | .d data, k => data[k]?.map (fun v => .scalar (.double v))
  | .a n s _ _, k =>
    match n[k]?, s[k]? with
    | some nk, some sk => some (.array nk sk)
    | _, _ => none
  | .unrecognised _, _ => none

/-- The type tag is one of Byte, Int, Double, Array. -/
def zebra_column_t.recognised : zebra_column_t → Prop
  | .unrecognised _ => False
  | _ => True

/-- Column `c1` has the type of column `c` and its rows below `rows` are those of `c`. -/
def keeps_rows (rows : Nat) (c c1 : zebra_column_t) : Prop :=
  c1.type = c.type ∧ ∀ i, i < rows → c1.cell_at i = c.cell_at i

/-! ## Concrete tables -/

def zebra_column_t.n : zebra_column_t → List Int
  | .a n _ _ _ => n
  | _ => []

def zebra_column_t.s : zebra_column_t → List Int
  | .a _ s _ _ => s
  | _ => []

def zebra_column_t.s_offset : zebra_column_t → Int
  | .a _ _ s_offset _ => s_offset
  | _ => 0

def zebra_column_t.table : zebra_column_t → zebra_table_t
  | .a _ _ _ table => table
  | _ => default

/-- The offset invariant on the first `rows` rows of `n` and `s`: both hold `rows` rows,
`s[0] = s_offset + n[0]` and `s[i] = s[i-1] + n[i]` for `0 < i < rows`. -/
def offsets_well_formed (n s : List Int) (s_offset : Int) (rows : Nat) : Prop :=
  rows ≤ n.length ∧ rows ≤ s.length ∧
  (0 < rows → s.getD 0 0 = s_offset + n.getD 0 0) ∧
  ∀ i, 0 < i → i < rows → s.getD i 0 = s.getD (i - 1) 0 + n.getD i 0

/-- An Array column that is well-formed for its first `rows` rows: the offset invariant
holds and the nested table's `row_count` is `s[rows-1] - s_offset`, or 0 when `rows = 0`. -/
def array_well_formed (rows : Nat) : zebra_column_t → Prop
  | .a n s s_offset table =>
    offsets_well_formed n s s_offset rows ∧
    table.row_count = if rows = 0 then 0 else s.getD (rows - 1) 0 - s_offset
  | _ => False

/-! ## Decoded rows -/

/-- The logical value of one row of a column: a scalar, or for an Array column the
sequence of its nested-table rows, each nested row being one value per nested column.
`missing` stands for a row outside the column's storage. -/
inductive zebra_value_t where
  | scalar (v : scalar_t)
  | array (elements : List (List zebra_value_t))
  | missing

mutual
/-- The decoded value of row `i` of a column.  Row `i` of an Array column is the `n[i]`
nested-table rows that end at relative position `s[i] - s_offset`, decoded in turn. -/
def decode_column : zebra_column_t → Nat → zebra_value_t
  | .b data, i =>
    match data[i]? with
    | some v => .scalar (.byte v)
    | none => .missing
  | .i data, i =>
    match data[i]? with
    | some v => .scalar (.int v)
    | none => .missing
  | .d data, i =>
    match data[i]? with
    | some v => .scalar (.double v)
    | none => .missing
  | .a n s s_offset table, i =>
    match n[i]?, s[i]? with
    | some ni, some si =>
      .array ((List.range ni.toNat).map
        (fun k => decode_table table ((si - s_offset - ni).toNat + k)))
    | _, _ => .missing
  | .unrecognised _, _ => .missing
/-- Row `j` of a table: the decoded row `j` of each of its columns. -/
def decode_table : zebra_table_t → Nat → List zebra_value_t
  | .mk _ _ columns, j => decode_columns columns j
/-- Row `j` of a list of columns. -/
def decode_columns : List zebra_column_t → Nat → List zebra_value_t
  | [], _ => []
  | c :: cs, j => decode_column c j :: decode_columns cs j
end

mutual
/-- A column that is well-formed for its first `rows` rows, at every nesting depth: the
storage holds `rows` rows; for an Array column the element counts are not negative, the
offset invariant holds, the nested table has `s[rows-1] - s_offset` rows and is
well-formed itself. -/
def column_well_formed : zebra_column_t → Nat → Prop
  | .b data, rows => rows ≤ data.length
  | .i data, rows => rows ≤ data.length
  | .d data, rows => rows ≤ data.length
  | .a n s s_offset table, rows =>
    offsets_well_formed n s s_offset rows ∧
    (∀ i, i < rows → 0 ≤ n.getD i 0) ∧
    (table.row_count = if rows = 0 then 0 else s.getD (rows - 1) 0 - s_offset) ∧
    table_well_formed table
  | .unrecognised _, _ => False
/-- A well-formed table: `row_count` is a non-negative `int64_t`, and there are
`column_count` columns, each well-formed for `row_count` rows. -/
def table_well_formed : zebra_table_t → Prop
  | .mk row_count column_count columns =>
    0 ≤ row_count ∧ column_count = columns.length ∧
    columns_well_formed columns row_count.toNat ∧ row_count ≤ INT64_MAX
/-- Every column of the list is well-formed for `rows` rows. -/
def columns_well_formed : List zebra_column_t → Nat → Prop
  | [], _ => True
  | c :: cs, rows => column_well_formed c rows ∧ columns_well_formed cs rows
end

mutual
/-- Two columns have the same schema: the same type, and for Array columns nested tables
of the same schema. -/
def same_schema : zebra_column_t → zebra_column_t → Prop
  | .b _, .b _ => True
  | .i _, .i _ => True
  | .d _, .d _ => True
  | .a _ _ _ table1, .a _ _ _ table2 => same_schema_table table1 table2
  | _, _ => False
/-- Two tables have the same schema: the same number of columns, pairwise of the same
schema. -/
def same_schema_table : zebra_table_t → zebra_table_t → Prop
  | .mk _ column_count1 columns1, .mk _ column_count2 columns2 =>
    column_count1 = column_count2 ∧ same_schema_columns columns1 columns2
/-- Two column lists have the same length and pairwise the same schema. -/
def same_schema_columns : List zebra_column_t → List zebra_column_t → Prop
  | [], [] => True
  | c1 :: cs1, c2 :: cs2 => same_schema c1 c2 ∧ same_schema_columns cs1 cs2
  | _, _ => False
end

mutual
/-- The offsets that appending rows `in_ix .. in_ix + count - 1` of the source onto the
destination writes fit an `int64_t`, at every nesting depth: for Array columns, the
destination's base `s_offset + table.row_count` is not below `INT64_MIN`, the base plus
the element counts of the appended rows is not above `INT64_MAX`, and the same holds for
the nested rows that are appended to the nested table. -/
def column_append_fits : zebra_column_t → Nat → zebra_column_t → Nat → Prop
  | .a in_n _ _ in_table, in_ix, .a _ _ out_s_offset out_table, count =>
    INT64_MIN ≤ out_s_offset + out_table.row_count ∧
    out_s_offset + out_table.row_count + range_sum in_n in_ix count ≤ INT64_MAX ∧
    table_append_fits in_table (range_sum in_n 0 in_ix).toNat out_table
      (range_sum in_n in_ix count).toNat
  | _, _, _, _ => True
/-- The offsets written by a table append fit an `int64_t`, column by column. -/
def table_append_fits : zebra_table_t → Nat → zebra_table_t → Nat → Prop
  | .mk _ _ in_columns, in_ix, .mk _ _ out_columns, count =>
    columns_append_fit in_columns in_ix out_columns count
/-- The offsets written by the appends of a list of column pairs fit an `int64_t`. -/
def columns_append_fit : List zebra_column_t → Nat → List zebra_column_t → Nat → Prop
  | c :: cs, in_ix, o :: os, count =>
    column_append_fits c in_ix o count ∧ columns_append_fit cs in_ix os count
  | _, _, _, _ => True
end

/-- The decoded-rows property of `zebra_append_column` for the source column `in_`: after
a successful append of rows `in_ix .. in_ix + count - 1` of the well-formed source onto a
well-formed destination of the same schema holding `out_ix` rows, the offsets written
fitting an `int64_t`, the destination decodes to its old rows followed by the source
rows. -/
def column_append_decodes (in_ : zebra_column_t) : Prop :=
  ∀ (out out1 : zebra_column_t) (in_rows in_ix out_ix count : Nat),
    column_well_formed in_ in_rows → column_well_formed out out_ix → same_schema in_ out →
    in_ix + count ≤ in_rows → column_append_fits in_ in_ix out count →
    zebra_append_column in_ (in_ix : Int) out (out_ix : Int) (count : Int) =
      some (.ZEBRA_SUCCESS, out1) →
    (∀ i, i < out_ix → decode_column out1 i = decode_column out i) ∧
    (∀ k, k < count → decode_column out1 (out_ix + k) = decode_column in_ (in_ix + k))

/-- The decoded-rows property of `zebra_append_table` for the source table `in_`. -/
def table_append_decodes (in_ : zebra_table_t) : Prop :=
  ∀ (out out1 : zebra_table_t) (in_ix count : Nat),
    table_well_formed in_ → table_well_formed out → same_schema_table in_ out →
    in_ix + count ≤ in_.row_count.toNat → table_append_fits in_ in_ix out count →
    zebra_append_table in_ (in_ix : Int) out (count : Int) = some (.ZEBRA_SUCCESS, out1) →
    (∀ j, j < out.row_count.toNat → decode_table out1 j = decode_table out j) ∧
    (∀ k, k < count →
      decode_table out1 (out.row_count.toNat + k) = decode_table in_ (in_ix + k))

/-! ## Concrete nested columns -/

/-- A source Array column of three rows with `s_offset = 5`, whose nested table has an
Int column and an Array column of Byte sequences. -/
def nested_source : zebra_column_t :=
  .a [2, 1, 2] [7, 8, 10] 5
    (.mk 5 2 [.i [10, 20, 30, 40, 50],
      .a [1, 0, 2, 1, 1] [1, 1, 3, 4, 5] 0 (.mk 5 1 [.b [1, 2, 3, 4, 5]])])

/-- A destination Array column of the same schema holding one row, with `s_offset = 100`
and room for three rows. -/
def nested_destination : zebra_column_t :=
  .a [1, 0, 0] [101, 0, 0] 100
    (.mk 1 2 [.i [99], .a [2] [2] 0 (.mk 2 1 [.b [8, 9]])])

/-- The destination after rows 1 and 2 of `nested_source` were appended. -/
def nested_result : zebra_column_t :=
  .a [1, 1, 2] [101, 102, 104] 100
    (.mk 4 2 [.i [99, 30, 40, 50],
      .a [2, 2, 1, 1] [2, 4, 5, 6] 0 (.mk 6 1 [.b [8, 9, 2, 3, 4, 5]])])

/-! ## Blocks built by successive appends -/

/-- The blocks reached from the absent block: `reached entities handle` says that the
successful calls of `zebra_append_block_entity` on `entities`, in this order, starting
from the absent block, leave the caller's handle at `handle`. -/
inductive reached : List zebra_entity_t → Option zebra_block_t → Prop where
  | absent : reached [] none
  | append (entities : List zebra_entity_t) (handle : Option zebra_block_t)
      (entity : zebra_entity_t) (block1 : zebra_block_t) :
      reached entities handle →
      zebra_append_block_entity entity handle = some (.ZEBRA_SUCCESS, some block1) →
      reached (entities ++ [entity]) (some block1)

/-- Total number of rows across all attributes of all the entities. -/
def appended_row_count (entities : List zebra_entity_t) : Int :=
  (entities.map (fun entity =>
    total_row_count (entity.attributes.take entity.attribute_count.toNat))).sum

/-- Sum over the entity records of the sum of each record's `attribute_row_counts`. -/
def recorded_row_count (block : zebra_block_t) : Int :=
  ((block.entities.take block.entity_count.toNat).map
    (fun record => record.attribute_row_counts.sum)).sum

/-- Sum over `c < table_count` of `tables[c].row_count` (0 without tables). -/
def tables_row_count (block : zebra_block_t) : Int :=
  match block.tables with
  | none => 0
  | some tables => ((tables.take block.table_count.toNat).map (fun t => t.row_count)).sum

/-- Consistency of a block's counters, kept by every successful append: `entities` holds
`entity_count` records, the tables are absent or `table_count` many, and `row_count` is
not negative and agrees with the records and with the tables. -/
def block_consistent (block : zebra_block_t) : Prop :=
  0 ≤ block.entity_count ∧ block.entities.length = block.entity_count.toNat ∧
  0 ≤ block.row_count ∧
  recorded_row_count block = block.row_count ∧
  tables_row_count block = block.row_count ∧
  ∀ tables, block.tables = some tables → tables.length = block.table_count.toNat

/-- An entity whose attribute 1 carries a Byte column, against the Int column of the
scenario's block. -/
def entity_byte : zebra_entity_t :=
  example_entity 9 [attribute_of [7] [5], ⟨.mk 1 1 [.b [1]], [6], [0], [false]⟩]

/-! ## Concrete attributes -/

/-- A source attribute of three rows over the nested column `nested_source`. -/
def attribute_source : zebra_attribute_t :=
  ⟨.mk 3 1 [nested_source], [10, 20, 30], [1, 2, 3], [false, true, true]⟩

/-- A destination attribute of one row over `nested_destination`. -/
def attribute_destination : zebra_attribute_t :=
  ⟨.mk 1 1 [nested_destination], [7], [0], [false]⟩

/-- The destination attribute after row 2 of `attribute_source` was appended. -/
def attribute_result : zebra_attribute_t :=
  ⟨.mk 2 1 [.a [1, 2, 0] [101, 103, 0] 100
      (.mk 3 2 [.i [99, 40, 50],
        .a [2, 1, 1] [2, 3, 4] 0 (.mk 4 1 [.b [8, 9, 4, 5]])])],
    [7, 30], [0, 3], [false, true]⟩

/-! ## Appending a range in two pieces -/

/-- The split property of `zebra_append_column` for the source column `in_`: onto a
well-formed destination of the same schema holding `out_ix` rows, with room for
`m + k` more, appending `m` rows and then the next `k` rows succeeds and gives the column
that appending the `m + k` rows at once gives. -/
def column_append_splits (in_ : zebra_column_t) : Prop :=
  ∀ (out : zebra_column_t) (in_rows : Nat) (in_ix out_ix m k : Int),
    0 ≤ in_ix → 0 ≤ out_ix → 0 ≤ m → 0 ≤ k →
    column_well_formed in_ in_rows → column_well_formed out out_ix.toNat →
    same_schema in_ out → in_ix + m + k ≤ in_rows →
    (out_ix + m + k).toNat ≤ out.capacity →
    ∃ out1 out2,
      zebra_append_column in_ in_ix out out_ix m = some (.ZEBRA_SUCCESS, out1) ∧
      zebra_append_column in_ (in_ix + m) out1 (out_ix + m) k = some (.ZEBRA_SUCCESS, out2) ∧
      zebra_append_column in_ in_ix out out_ix (m + k) = some (.ZEBRA_SUCCESS, out2)

/-- The split property of `zebra_append_table` for the source table `in_`. -/
def table_append_splits (in_ : zebra_table_t) : Prop :=
  ∀ (out : zebra_table_t) (in_ix m k : Int), 0 ≤ in_ix → 0 ≤ m → 0 ≤ k →
    table_well_formed in_ → table_well_formed out → same_schema_table in_ out →
    in_ix + m + k ≤ in_.row_count →
    ∃ out1 out2,
      zebra_append_table in_ in_ix out m = some (.ZEBRA_SUCCESS, out1) ∧
      zebra_append_table in_ (in_ix + m) out1 k = some (.ZEBRA_SUCCESS, out2) ∧
      zebra_append_table in_ in_ix out (m + k) = some (.ZEBRA_SUCCESS, out2)

/-! ## Columns at the upper end of `int64_t` -/

/-- A well-formed destination Array column of one row whose offsets are based at
`INT64_MAX - 1`: `s[0] = INT64_MAX`.  It has room for two rows. -/
def overflow_destination : zebra_column_t :=
  .a [1, 0] [9223372036854775807, 0] 9223372036854775806 (.mk 1 1 [.i [50]])

/-- A well-formed source Array column of one row with one element. -/
def overflow_source : zebra_column_t :=
  .a [1] [1] 0 (.mk 1 1 [.i [70]])

/-- The destination after the row of `overflow_source` was appended to
`overflow_destination`: the offset `INT64_MAX + 1` of the new row has wrapped around to
`INT64_MIN`. -/
def overflow_result : zebra_column_t :=
  .a [1, 1] [9223372036854775807, -9223372036854775808] 9223372036854775806
    (.mk 2 1 [.i [50, 70]])

/-- A source attribute of one row over `overflow_source`. -/
def overflow_attribute_source : zebra_attribute_t :=
  ⟨.mk 1 1 [overflow_source], [10], [1], [true]⟩

/-- A destination attribute of one row over `overflow_destination`. -/
def overflow_attribute_destination : zebra_attribute_t :=
  ⟨.mk 1 1 [overflow_destination], [7], [0], [false]⟩

/-- The destination attribute after the row of `overflow_attribute_source` was appended. -/
def overflow_attribute_result : zebra_attribute_t :=
  ⟨.mk 2 1 [overflow_result], [7, 10], [0, 1], [false, true]⟩
/-! ## Memory accesses: basic facts -/

theorem load_natCast {α : Type} (buf : List α) (k : Nat) : load buf (k : Int) = buf[k]? := by
  simp [load]

theorem load_eq_some {α : Type} {buf : List α} {ix : Int} {v : α} (h : load buf ix = some v) :
    0 ≤ ix ∧ buf[ix.toNat]? = some v := by
  unfold load at h
  split at h
  · exact ⟨by assumption, h⟩
  · cases h

theorem store_natCast {α : Type} (buf : List α) (k : Nat) (v : α) :
    store buf (k : Int) v = if k < buf.length then some (buf.set k v) else none := by
  simp [store]

theorem store_eq_some {α : Type} {buf buf1 : List α} {ix : Int} {v : α}
    (h : store buf ix v = some buf1) :
    0 ≤ ix ∧ ix.toNat < buf.length ∧ buf1 = buf.set ix.toNat v := by
  unfold store at h
  split at h
  · rename_i hc
    exact ⟨hc.1, hc.2, by cases h; rfl⟩
  · cases h

/-! ## The scalar loop -/

theorem copy_loop_spec {α : Type} (src : List α) (a b : Nat) :
    ∀ (remaining ix : Nat) (dst dst1 : List α),
      copy_loop src (a : Int) (b : Int) remaining (ix : Int) dst = some dst1 →
      (0 < remaining → a + ix + remaining ≤ src.length ∧ b + ix + remaining ≤ dst.length) ∧
      dst1.length = dst.length ∧
      ∀ j : Nat, dst1[j]? =
        if b + ix ≤ j ∧ j < b + ix + remaining then src[a + (j - b)]? else dst[j]? := by
  intro remaining
  induction remaining with
  | zero =>
    intro ix dst dst1 h
    simp [copy_loop] at h
    subst h
    refine ⟨fun h0 => absurd h0 (by omega), rfl, fun j => ?_⟩
    rw [if_neg (by omega)]
  | succ remaining ih =>
    intro ix dst dst1 h
    have e1 : (a : Int) + (ix : Int) = ((a + ix : Nat) : Int) := by push_cast; rfl
    have e2 : (b : Int) + (ix : Int) = ((b + ix : Nat) : Int) := by push_cast; rfl
    have e3 : (ix : Int) + 1 = ((ix + 1 : Nat) : Int) := by push_cast; rfl
    rw [copy_loop, e1, e2, e3, load_natCast] at h
    cases hl : src[a + ix]? with
    | none => rw [hl] at h; cases h
    | some v =>
      rw [hl] at h
      simp only [store_natCast] at h
      by_cases hb : b + ix < dst.length
      · simp only [hb, if_true] at h
        obtain ⟨h1, h2, h3⟩ := ih (ix + 1) _ dst1 h
        have hs : a + ix < src.length := by
          rcases List.getElem?_eq_some.1 hl with ⟨w, _⟩
          exact w
        refine ⟨fun _ => ?_, ?_, ?_⟩
        · rcases Nat.eq_zero_or_pos remaining with h0 | h0
          · subst h0; omega
          · have := h1 h0
            simp only [List.length_set] at this
            omega
        · simpa using h2
        · intro j
          rw [h3 j]
          by_cases c1 : j = b + ix
          · subst c1
            have : ¬ (b + (ix + 1) ≤ b + ix ∧ b + ix < b + (ix + 1) + remaining) := by omega
            rw [if_neg this]
            have : (b + ix ≤ b + ix ∧ b + ix < b + ix + (remaining + 1)) := by omega
            rw [if_pos this]
            have : a + (b + ix - b) = a + ix := by omega
            rw [this, hl]
            simp [hb]
          · rw [List.getElem?_set_ne (by omega)]
            by_cases c2 : b + (ix + 1) ≤ j ∧ j < b + (ix + 1) + remaining
            · rw [if_pos c2, if_pos (by omega)]
            · rw [if_neg c2, if_neg (by omega)]
      · simp only [hb, if_false] at h
        cases h

theorem copy_loop_ok {α : Type} (src : List α) (a b : Nat) :
    ∀ (remaining ix : Nat) (dst : List α),
      a + ix + remaining ≤ src.length → b + ix + remaining ≤ dst.length →
      ∃ dst1, copy_loop src (a : Int) (b : Int) remaining (ix : Int) dst = some dst1 := by
  intro remaining
  induction remaining with
  | zero => intro ix dst _ _; exact ⟨dst, rfl⟩
  | succ remaining ih =>
    intro ix dst h1 h2
    have e1 : (a : Int) + (ix : Int) = ((a + ix : Nat) : Int) := by push_cast; rfl
    have e2 : (b : Int) + (ix : Int) = ((b + ix : Nat) : Int) := by push_cast; rfl
    have e3 : (ix : Int) + 1 = ((ix + 1 : Nat) : Int) := by push_cast; rfl
    rw [copy_loop, e1, e2, e3, load_natCast]
    have hs : a + ix < src.length := by omega
    rw [List.getElem?_eq_getElem hs]
    simp only [store_natCast]
    rw [if_pos (by omega)]
    exact ih (ix + 1) _ (by omega) (by simp only [List.length_set]; omega)

theorem copy_rows_spec {α : Type} (src dst dst1 : List α) (a b count : Nat)
    (h : copy_rows src (a : Int) dst (b : Int) (count : Int) = some dst1) :
    (0 < count → a + count ≤ src.length ∧ b + count ≤ dst.length) ∧
    dst1.length = dst.length ∧
    ∀ j : Nat, dst1[j]? = if b ≤ j ∧ j < b + count then src[a + (j - b)]? else dst[j]? := by
  unfold copy_rows at h
  have hc : ¬ ((count : Int) < 0) := by omega
  rw [if_neg hc] at h
  have := copy_loop_spec src a b count 0 dst dst1 (by simpa using h)
  simpa using this

theorem copy_rows_ok {α : Type} (src dst : List α) (a b count : Nat)
    (h1 : a + count ≤ src.length) (h2 : b + count ≤ dst.length) :
    ∃ dst1, copy_rows src (a : Int) dst (b : Int) (count : Int) = some dst1 := by
  unfold copy_rows
  have hc : ¬ ((count : Int) < 0) := by omega
  rw [if_neg hc]
  have := copy_loop_ok src a b count 0 dst (by omega) (by omega)
  simpa using this
theorem zebra_append_column_b (src dst : List Nat) (in_ix out_ix count : Int) (hc : count ≠ 0) :
    zebra_append_column (.b src) in_ix (.b dst) out_ix count =
      (copy_rows src in_ix dst out_ix count).map (fun dst1 => (error_t.ZEBRA_SUCCESS, zebra_column_t.b dst1)) := by
  rw [zebra_append_column]
  simp [zebra_column_t.type, hc]
  cases copy_rows src in_ix dst out_ix count <;> rfl

theorem zebra_append_column_i (src dst : List Int) (in_ix out_ix count : Int) (hc : count ≠ 0) :
    zebra_append_column (.i src) in_ix (.i dst) out_ix count =
      (copy_rows src in_ix dst out_ix count).map (fun dst1 => (error_t.ZEBRA_SUCCESS, zebra_column_t.i dst1)) := by
  rw [zebra_append_column]
  simp [zebra_column_t.type, hc]
  cases copy_rows src in_ix dst out_ix count <;> rfl

theorem zebra_append_column_d (src dst : List Nat) (in_ix out_ix count : Int) (hc : count ≠ 0) :
    zebra_append_column (.d src) in_ix (.d dst) out_ix count =
      (copy_rows src in_ix dst out_ix count).map (fun dst1 => (error_t.ZEBRA_SUCCESS, zebra_column_t.d dst1)) := by
  rw [zebra_append_column]
  simp [zebra_column_t.type, hc]
  cases copy_rows src in_ix dst out_ix count <;> rfl

theorem zebra_append_column_a (in_n in_s : List Int) (in_so : Int) (in_t : zebra_table_t)
    (out_n out_s : List Int) (out_so : Int) (out_t : zebra_table_t)
    (in_ix out_ix count : Int) (hc : count ≠ 0) :
    zebra_append_column (.a in_n in_s in_so in_t) in_ix (.a out_n out_s out_so out_t) out_ix count =
      match value_in_ix in_s in_so in_ix with
      | none => none
      | some v_ix =>
        match out_base out_s out_so out_ix with
        | none => none
        | some s =>
          match array_rows in_n in_ix out_n out_s out_ix s count with
          | none => none
          | some st =>
            match zebra_append_table in_t v_ix out_t st.nested_count with
            | none => none
            | some (err, table1) => some (err, .a st.n st.s out_so table1) := by
  rw [zebra_append_column]
  simp [zebra_column_t.type, hc]

theorem zebra_append_column_type_ne (in_ out_into : zebra_column_t) (in_ix out_ix count : Int)
    (h : in_.type ≠ out_into.type) :
    zebra_append_column in_ in_ix out_into out_ix count =
      some (.ZEBRA_MERGE_DIFFERENT_COLUMN_TYPES, out_into) := by
  unfold zebra_append_column
  simp [h]

theorem zebra_append_column_zero (in_ out_into : zebra_column_t) (in_ix out_ix : Int)
    (h : in_.type = out_into.type) :
    zebra_append_column in_ in_ix out_into out_ix 0 = some (.ZEBRA_SUCCESS, out_into) := by
  unfold zebra_append_column
  simp [h]

theorem zebra_append_table_eq (in_ out_into : zebra_table_t) (in_ix count : Int) :
    zebra_append_table in_ in_ix out_into count =
      match append_columns in_.columns in_ix
          (out_into.columns.map (zebra_grow_column (out_into.row_count + count)))
          out_into.row_count count in_.column_count.toNat with
      | none => none
      | some (err, columns1) =>
        some (err, .mk (out_into.row_count + count) out_into.column_count columns1) := by
  cases in_ with
  | mk r c cs =>
    rw [zebra_append_table]
    simp [zebra_grow_table, zebra_table_t.columns, zebra_table_t.row_count, zebra_table_t.column_count]

/-! ## Scalar columns -/

theorem scalar_copy_aux {α : Type} (src dst : List α) (in_ix out_ix count : Nat)
    (h_in : in_ix + count ≤ src.length) (h_out : out_ix + count ≤ dst.length) :
    ∃ dst1, copy_rows src (in_ix : Int) dst (out_ix : Int) (count : Int) = some dst1 ∧
      dst1.length = dst.length ∧
      (∀ k, k < count → dst1[out_ix + k]? = src[in_ix + k]?) ∧
      (∀ j, (j < out_ix ∨ out_ix + count ≤ j) → dst1[j]? = dst[j]?) := by
  obtain ⟨dst1, h⟩ := copy_rows_ok src dst in_ix out_ix count h_in h_out
  obtain ⟨_, h2, h3⟩ := copy_rows_spec src dst dst1 in_ix out_ix count h
  refine ⟨dst1, h, h2, fun k hk => ?_, fun j hj => ?_⟩
  · rw [h3, if_pos (by omega)]
    congr 1
    omega
  · rw [h3, if_neg (by omega)]

/-- C3: scalar copy and round-trip.  For two columns of the same scalar type (Byte, Int
or Double) and a range of `count` rows inside both buffers, `zebra_append_column`
returns success, the destination holds `out[out_ix + k] = in[in_ix + k]` for every
`k < count`, and every element outside `[out_ix, out_ix + count)` keeps its value. -/
theorem zebra_append_column_scalar_copy (in_ out_into : zebra_column_t)
    (in_ix out_ix count : Nat)
    (h_scalar : in_.is_scalar) (h_type : in_.type = out_into.type)
    (h_in : in_ix + count ≤ in_.capacity) (h_out : out_ix + count ≤ out_into.capacity) :
    ∃ out1, zebra_append_column in_ (in_ix : Int) out_into (out_ix : Int) (count : Int) =
        some (.ZEBRA_SUCCESS, out1) ∧
      out1.type = out_into.type ∧ out1.capacity = out_into.capacity ∧
      (∀ k, k < count → out1.scalar_at (out_ix + k) = in_.scalar_at (in_ix + k)) ∧
      (∀ j, (j < out_ix ∨ out_ix + count ≤ j) → out1.scalar_at j = out_into.scalar_at j) := by
  rcases Nat.eq_zero_or_pos count with h0 | h0
  · subst h0
    refine ⟨out_into, ?_, rfl, rfl, fun k hk => absurd hk (by omega), fun _ _ => rfl⟩
    exact zebra_append_column_zero in_ out_into _ _ h_type
  · have hc : (count : Int) ≠ 0 := by omega
    cases in_ with
    | b src =>
      cases out_into with
      | b dst =>
        obtain ⟨dst1, e, h2, h3, h4⟩ := scalar_copy_aux src dst in_ix out_ix count h_in h_out
        refine ⟨.b dst1, ?_, rfl, h2, fun k hk => ?_, fun j hj => ?_⟩
        · rw [zebra_append_column_b _ _ _ _ _ hc, e]; rfl
        · simp only [zebra_column_t.scalar_at, h3 k hk]
        · simp only [zebra_column_t.scalar_at, h4 j hj]
      | _ => simp [zebra_column_t.type] at h_type
    | i src =>
      cases out_into with
      | i dst =>
        obtain ⟨dst1, e, h2, h3, h4⟩ := scalar_copy_aux src dst in_ix out_ix count h_in h_out
        refine ⟨.i dst1, ?_, rfl, h2, fun k hk => ?_, fun j hj => ?_⟩
        · rw [zebra_append_column_i _ _ _ _ _ hc, e]; rfl
        · simp only [zebra_column_t.scalar_at, h3 k hk]
        · simp only [zebra_column_t.scalar_at, h4 j hj]
      | _ => simp [zebra_column_t.type] at h_type
    | d src =>
      cases out_into with
      | d dst =>
        obtain ⟨dst1, e, h2, h3, h4⟩ := scalar_copy_aux src dst in_ix out_ix count h_in h_out
        refine ⟨.d dst1, ?_, rfl, h2, fun k hk => ?_, fun j hj => ?_⟩
        · rw [zebra_append_column_d _ _ _ _ _ hc, e]; rfl
        · simp only [zebra_column_t.scalar_at, h3 k hk]
        · simp only [zebra_column_t.scalar_at, h4 j hj]
      | _ => simp [zebra_column_t.type] at h_type
    | a n s so t => simp [zebra_column_t.is_scalar, zebra_column_t.type] at h_scalar
    | unrecognised t => simp [zebra_column_t.is_scalar, zebra_column_t.type] at h_scalar

/-- Scalar round-trip at a concrete input: appending row 1 of the Int column `[7, 8, 9]`
onto an empty destination with room for one row gives a destination whose single value
is 8. -/
theorem zebra_append_column_scalar_copy_witness :
    ∃ out1, zebra_append_column (.i [7, 8, 9]) 1 (.i [0]) 0 1 = some (.ZEBRA_SUCCESS, out1) ∧
      out1.type = .ZEBRA_INT ∧ out1.capacity = 1 ∧
      (∀ k, k < 1 → out1.scalar_at (0 + k) = some (.int ([7, 8, 9].getD (1 + k) 0))) ∧
      (∀ j, (j < 0 ∨ 0 + 1 ≤ j) → out1.scalar_at j = none) := by
  obtain ⟨out1, h1, h2, h3, h4, h5⟩ :=
    zebra_append_column_scalar_copy (.i [7, 8, 9]) (.i [0]) 1 0 1 (Or.inr (Or.inl rfl)) rfl
      (by decide) (by decide)
  refine ⟨out1, h1, h2, h3, fun k hk => ?_, fun j hj => ?_⟩
  · rw [h4 k hk]
    have : k = 0 := by omega
    subst this
    rfl
  · rw [h5 j hj]
    have : 1 ≤ j := by omega
    simp [zebra_column_t.scalar_at]
    omega

/-! ## Type mismatch -/

/-- C5: type-mismatch rejection at the column level.  When the type tags of source and
destination differ, `zebra_append_column` returns `DifferentColumnTypes` whatever
`in_ix`, `out_ix` and `count` are, and the destination column is exactly as it was. -/
theorem zebra_append_column_different_types (in_ out_into : zebra_column_t)
    (in_ix out_ix count : Int) (h : in_.type ≠ out_into.type) :
    zebra_append_column in_ in_ix out_into out_ix count =
      some (.ZEBRA_MERGE_DIFFERENT_COLUMN_TYPES, out_into) :=
  zebra_append_column_type_ne in_ out_into in_ix out_ix count h

/-- Appending a Byte column onto an Int column is rejected and writes nothing. -/
theorem zebra_append_column_different_types_witness :
    zebra_column_t.type (.b [1, 2]) ≠ zebra_column_t.type (.i [5, 6]) ∧
    zebra_append_column (.b [1, 2]) 0 (.i [5, 6]) 0 2 =
      some (.ZEBRA_MERGE_DIFFERENT_COLUMN_TYPES, .i [5, 6]) :=
  ⟨by decide, zebra_append_column_different_types (.b [1, 2]) (.i [5, 6]) 0 0 2 (by decide)⟩

/-! ## The block-entity packer -/

theorem take_succ_set {α : Type} (l : List α) (k : Nat) (v : α) (h : k < l.length) :
    (l.set k v).take (k + 1) = l.take k ++ [v] := by
  apply List.ext_getElem?
  intro j
  rw [List.getElem?_take, List.getElem?_append, List.getElem?_take, List.getElem?_set]
  simp only [List.length_take, Nat.min_eq_left (Nat.le_of_lt h)]
  by_cases h1 : j < k
  · have h2 : ¬ k = j := by omega
    simp [h1, h2, Nat.lt_succ_of_lt h1]
  · by_cases h2 : j = k
    · subst h2; simp [h]
    · have h3 : ¬ j < k + 1 := by omega
      have h4 : ¬ k = j := by omega
      have h5 : j - k ≠ 0 := by omega
      simp [h1, h3, h4]
      cases hjk : j - k with
      | zero => omega
      | succ n => simp

theorem nonzero_ids_succ (attributes : List zebra_attribute_t) (c remaining : Nat) :
    nonzero_ids attributes c (remaining + 1) =
      (if 0 < row_count_at attributes c then [c] else []) ++ nonzero_ids attributes (c + 1) remaining := by
  unfold nonzero_ids
  rw [List.range'_succ, List.filter_cons]
  split <;> simp_all

theorem nonzeros_loop_spec (attributes : List zebra_attribute_t) :
    ∀ (remaining c : Nat) (nonzeros : Int), c + remaining ≤ attributes.length →
      nonzeros_loop attributes remaining (c : Int) nonzeros =
        some (nonzeros + ((nonzero_ids attributes c remaining).length : Int)) := by
  intro remaining
  induction remaining with
  | zero => intro c nz _; simp [nonzeros_loop, nonzero_ids]
  | succ remaining ih =>
    intro c nz h
    have e3 : (c : Int) + 1 = ((c + 1 : Nat) : Int) := by push_cast; rfl
    have hc : c < attributes.length := by omega
    rw [nonzeros_loop, load_natCast, List.getElem?_eq_getElem hc]
    simp only
    rw [e3, ih (c + 1) _ (by omega), nonzero_ids_succ]
    have hr : row_count_at attributes c = attributes[c].table.row_count := by
      simp [row_count_at, List.getElem?_eq_getElem hc]
    rw [hr]
    by_cases hp : 0 < attributes[c].table.row_count
    · simp [hp]; omega
    · simp [hp]

theorem sparse_loop_spec (attributes : List zebra_attribute_t) :
    ∀ (remaining c k : Nat) (st : sparse_state), c + remaining ≤ attributes.length →
      st.sparse_ix = (k : Int) →
      k + (nonzero_ids attributes c remaining).length ≤ st.attribute_ids.length →
      k + (nonzero_ids attributes c remaining).length ≤ st.attribute_row_counts.length →
      ∃ st1, sparse_loop attributes remaining (c : Int) st = some st1 ∧
        st1.attribute_ids.length = st.attribute_ids.length ∧
        st1.attribute_row_counts.length = st.attribute_row_counts.length ∧
        st1.attribute_ids.take (k + (nonzero_ids attributes c remaining).length) =
          st.attribute_ids.take k ++ (nonzero_ids attributes c remaining).map Int.ofNat ∧
        st1.attribute_row_counts.take (k + (nonzero_ids attributes c remaining).length) =
          st.attribute_row_counts.take k ++
            (nonzero_ids attributes c remaining).map (row_count_at attributes) := by
  intro remaining
  induction remaining with
  | zero =>
    intro c k st _ _ _ _
    exact ⟨st, rfl, rfl, rfl, by simp [nonzero_ids], by simp [nonzero_ids]⟩
  | succ remaining ih =>
    intro c k st h hk h1 h2
    have e3 : (c : Int) + 1 = ((c + 1 : Nat) : Int) := by push_cast; rfl
    have hc : c < attributes.length := by omega
    have hr : row_count_at attributes c = attributes[c].table.row_count := by
      simp [row_count_at, List.getElem?_eq_getElem hc]
    rw [sparse_loop, load_natCast, List.getElem?_eq_getElem hc]
    simp only
    rw [nonzero_ids_succ] at h1 h2 ⊢
    rw [← hr, e3, hk]
    by_cases hp : 0 < row_count_at attributes c
    · simp only [hp, if_true, List.length_append, List.length_singleton, gt_iff_lt] at h1 h2 ⊢
      have hk1 : k < st.attribute_ids.length := by omega
      have hk2 : k < st.attribute_row_counts.length := by omega
      rw [store_natCast, if_pos hk1]
      simp only
      rw [store_natCast, if_pos hk2]
      simp only
      obtain ⟨st1, e, l1, l2, t1, t2⟩ := ih (c + 1) (k + 1)
        ⟨st.attribute_ids.set k c, st.attribute_row_counts.set k (row_count_at attributes c),
          (k : Int) + 1⟩ (by omega) (by push_cast; rfl)
        (by simp only [List.length_set]; omega) (by simp only [List.length_set]; omega)
      refine ⟨st1, e, by simpa using l1, by simpa using l2, ?_, ?_⟩
      · have : k + (1 + (nonzero_ids attributes (c + 1) remaining).length) =
            k + 1 + (nonzero_ids attributes (c + 1) remaining).length := by omega
        rw [this, t1]
        simp only
        rw [take_succ_set _ _ _ hk1]
        simp
      · have : k + (1 + (nonzero_ids attributes (c + 1) remaining).length) =
            k + 1 + (nonzero_ids attributes (c + 1) remaining).length := by omega
        rw [this, t2]
        simp only
        rw [take_succ_set _ _ _ hk2]
        simp
    · simp only [hp, if_false, List.nil_append, gt_iff_lt] at h1 h2 ⊢
      exact ih (c + 1) k st (by omega) hk h1 h2

theorem nonzero_ids_pairwise (attributes : List zebra_attribute_t) (first len : Nat) :
    (nonzero_ids attributes first len).Pairwise (· < ·) := by
  unfold nonzero_ids
  apply List.Pairwise.filter
  exact List.pairwise_lt_range' first len

theorem mem_nonzero_ids (attributes : List zebra_attribute_t) (len c : Nat) :
    c ∈ nonzero_ids attributes 0 len ↔ c < len ∧ 0 < row_count_at attributes c := by
  simp [nonzero_ids, List.mem_range']

/-- C7: sparse packing of `zebra_fill_block_entity`.  For an entity with `m` attributes
of row counts `r[0..m)`, the packed record has `attribute_count` = the number of `c` with
`r[c] > 0`, `attribute_ids` = the strictly ascending list of exactly those `c`,
`attribute_row_counts[j] = r[attribute_ids[j]]`, the entity's `hash` and `id_length`, and
an equal copy of its `id_length` id bytes. -/
theorem zebra_fill_block_entity_sparse_packing (entity : zebra_entity_t) (m : Nat)
    (h_id : 0 ≤ entity.id_length ∧ entity.id_length.toNat ≤ entity.id_bytes.length)
    (h_count : entity.attribute_count = (m : Int)) (h_attrs : m ≤ entity.attributes.length) :
    ∃ record, zebra_fill_block_entity entity = some (.ZEBRA_SUCCESS, record) ∧
      record.hash = entity.hash ∧ record.id_length = entity.id_length ∧
      record.id_bytes = entity.id_bytes.take entity.id_length.toNat ∧
      record.attribute_count = (record.attribute_ids.length : Int) ∧
      record.attribute_ids.length =
        ((List.range m).filter (fun c => 0 < row_count_at entity.attributes c)).length ∧
      record.attribute_ids.Pairwise (· < ·) ∧
      (∀ c : Nat, (c : Int) ∈ record.attribute_ids ↔
        c < m ∧ 0 < row_count_at entity.attributes c) ∧
      (∀ c : Int, c ∈ record.attribute_ids → 0 ≤ c) ∧
      record.attribute_row_counts =
        record.attribute_ids.map (fun c => row_count_at entity.attributes c.toNat) := by
  obtain ⟨st1, e, l1, l2, t1, t2⟩ := sparse_loop_spec entity.attributes m 0 0
    ⟨anemone_mempool_alloc ((0 : Int) + ((nonzero_ids entity.attributes 0 m).length : Int)),
      anemone_mempool_alloc ((0 : Int) + ((nonzero_ids entity.attributes 0 m).length : Int)), 0⟩
    (by omega) rfl (by simp [anemone_mempool_alloc]) (by simp [anemone_mempool_alloc])
  simp only [anemone_mempool_alloc, List.length_replicate, Int.zero_add, Int.toNat_ofNat,
    Nat.zero_add, List.take_zero, List.nil_append] at l1 l2 t1 t2
  rw [← l1, List.take_length] at t1
  rw [← l2, List.take_length] at t2
  have hneg : ¬ entity.attribute_count < 0 := by
    rw [h_count]
    exact Int.not_lt.2 (Int.ofNat_nonneg m)
  refine ⟨⟨entity.hash, entity.id_length, entity.id_bytes.take entity.id_length.toNat,
    ((nonzero_ids entity.attributes 0 m).length : Int), st1.attribute_ids,
    st1.attribute_row_counts⟩, ?_, rfl, rfl, rfl, ?_, ?_, ?_, ?_, ?_, ?_⟩
  · unfold zebra_fill_block_entity
    simp only [ZEBRA_CLONE_ARRAY, h_id, and_self, if_true, hneg, if_false]
    rw [h_count]
    simp only [Int.toNat_ofNat]
    have hz : nonzeros_loop entity.attributes m 0 0 =
        some ((0 : Int) + ((nonzero_ids entity.attributes 0 m).length : Int)) :=
      nonzeros_loop_spec entity.attributes m 0 0 (by omega)
    rw [hz]
    simp only
    have e1 : sparse_loop entity.attributes m 0
        ⟨anemone_mempool_alloc ((0 : Int) + ((nonzero_ids entity.attributes 0 m).length : Int)),
         anemone_mempool_alloc ((0 : Int) + ((nonzero_ids entity.attributes 0 m).length : Int)),
         0⟩ = some st1 := e
    rw [e1]
    simp
  · simp only [t1, List.length_map]
  · simp only [t1, List.length_map, nonzero_ids, List.range_eq_range']
  · rw [t1]
    apply List.Pairwise.map _ _ (nonzero_ids_pairwise entity.attributes 0 m)
    intro a b hab
    exact Int.ofNat_lt.2 hab
  · intro c
    rw [t1, ← mem_nonzero_ids]
    simp
  · intro c hc
    rw [t1] at hc
    simp at hc
    obtain ⟨a, _, rfl⟩ := hc
    omega
  · rw [t2, t1]
    simp [List.map_map, Function.comp_def]

/-- Attributes with the given row counts: attribute `c` has an empty table of
`row_count = r[c]` and no metadata (the packer reads nothing else). -/
theorem zebra_fill_block_entity_sparse_packing_witness :
    ∃ record,
      zebra_fill_block_entity
        ⟨7, 2, [65, 66], 4,
          [⟨.mk 0 0 [], [], [], []⟩, ⟨.mk 3 0 [], [], [], []⟩,
           ⟨.mk 0 0 [], [], [], []⟩, ⟨.mk 5 0 [], [], [], []⟩]⟩ =
        some (.ZEBRA_SUCCESS, record) ∧
      record.attribute_count = 2 ∧ record.attribute_ids = [1, 3] ∧
      record.attribute_row_counts = [3, 5] ∧
      record.hash = 7 ∧ record.id_length = 2 ∧ record.id_bytes = [65, 66] := by
  obtain ⟨record, h, _⟩ := zebra_fill_block_entity_sparse_packing
    ⟨7, 2, [65, 66], 4,
      [⟨.mk 0 0 [], [], [], []⟩, ⟨.mk 3 0 [], [], [], []⟩,
       ⟨.mk 0 0 [], [], [], []⟩, ⟨.mk 5 0 [], [], [], []⟩]⟩ 4
    (by decide) rfl (by decide)
  refine ⟨record, h, ?_⟩
  have h2 : zebra_fill_block_entity
        ⟨7, 2, [65, 66], 4,
          [⟨.mk 0 0 [], [], [], []⟩, ⟨.mk 3 0 [], [], [], []⟩,
           ⟨.mk 0 0 [], [], [], []⟩, ⟨.mk 5 0 [], [], [], []⟩]⟩ =
        some (.ZEBRA_SUCCESS, ⟨7, 2, [65, 66], 2, [1, 3], [3, 5]⟩) := rfl
  rw [h2] at h
  cases h
  exact ⟨rfl, rfl, rfl, rfl, rfl, rfl⟩

/-! ## Induction over nested columns and tables -/

theorem column_table_induction {P : zebra_column_t → Prop} {Q : zebra_table_t → Prop}
    (hb : ∀ data, P (.b data)) (hi : ∀ data, P (.i data)) (hd : ∀ data, P (.d data))
    (ha : ∀ n s s_offset table, Q table → P (.a n s s_offset table))
    (hu : ∀ tag, P (.unrecognised tag))
    (ht : ∀ row_count column_count columns, (∀ x ∈ columns, P x) →
      Q (.mk row_count column_count columns)) :
    (∀ c, P c) ∧ (∀ t, Q t) := by
  constructor
  · intro c
    exact zebra_column_t.rec (motive_1 := P) (motive_2 := Q) (motive_3 := fun l => ∀ x ∈ l, P x)
      hb hi hd (fun n s so t ih => ha n s so t ih) hu
      (fun r c cols ih => ht r c cols ih)
      (by intro x hx; cases hx)
      (fun head tail ih1 ih2 x hx => by
        rcases List.mem_cons.1 hx with h | h
        · exact h ▸ ih1
        · exact ih2 x h) c
  · intro t
    exact zebra_table_t.rec (motive_1 := P) (motive_2 := Q) (motive_3 := fun l => ∀ x ∈ l, P x)
      hb hi hd (fun n s so t ih => ha n s so t ih) hu
      (fun r c cols ih => ht r c cols ih)
      (by intro x hx; cases hx)
      (fun head tail ih1 ih2 x hx => by
        rcases List.mem_cons.1 hx with h | h
        · exact h ▸ ih1
        · exact ih2 x h) t

theorem append_columns_succ (in_c : zebra_column_t) (in_rest : List zebra_column_t)
    (out_c : zebra_column_t) (out_rest : List zebra_column_t) (in_ix out_ix count : Int)
    (remaining : Nat) :
    append_columns (in_c :: in_rest) in_ix (out_c :: out_rest) out_ix count (remaining + 1) =
      match zebra_append_column in_c in_ix out_c out_ix count with
      | none => none
      | some (err, out_c1) =>
        if err ≠ .ZEBRA_SUCCESS then some (err, out_c1 :: out_rest)
        else
          match append_columns in_rest in_ix out_rest out_ix count remaining with
          | none => none
          | some (err1, out_rest1) => some (err1, out_c1 :: out_rest1) := by
  rw [append_columns]

theorem append_columns_zero (ins outs : List zebra_column_t) (in_ix out_ix count : Int) :
    append_columns ins in_ix outs out_ix count 0 = some (.ZEBRA_SUCCESS, outs) := by
  cases ins <;> rw [append_columns]

theorem append_columns_nil_left (outs : List zebra_column_t) (in_ix out_ix count : Int)
    (remaining : Nat) : append_columns [] in_ix outs out_ix count (remaining + 1) = none := by
  rw [append_columns]
  intro _ _ _ _ h
  cases h

theorem append_columns_nil_right (ins : List zebra_column_t) (in_ix out_ix count : Int)
    (remaining : Nat) : append_columns ins in_ix [] out_ix count (remaining + 1) = none := by
  cases ins <;> rw [append_columns] <;> intro _ _ _ _ _ h <;> cases h

/-! ## Error codes of the appenders -/

theorem append_columns_error (P : error_t → Prop) (hs : P .ZEBRA_SUCCESS) :
    ∀ (ins : List zebra_column_t),
      (∀ x ∈ ins, ∀ in_ix out out_ix count e o,
        zebra_append_column x in_ix out out_ix count = some (e, o) → P e) →
      ∀ (outs : List zebra_column_t) (in_ix out_ix count : Int) (remaining : Nat) e os,
        append_columns ins in_ix outs out_ix count remaining = some (e, os) → P e := by
  intro ins
  induction ins with
  | nil =>
    intro _ outs in_ix out_ix count remaining e os h
    cases remaining with
    | zero => rw [append_columns_zero] at h; cases h; exact hs
    | succ remaining => rw [append_columns_nil_left] at h; cases h
  | cons in_c in_rest ih =>
    intro hP outs in_ix out_ix count remaining e os h
    cases remaining with
    | zero => rw [append_columns_zero] at h; cases h; exact hs
    | succ remaining =>
      cases outs with
      | nil => rw [append_columns_nil_right] at h; cases h
      | cons out_c out_rest =>
        rw [append_columns_succ] at h
        cases hc : zebra_append_column in_c in_ix out_c out_ix count with
        | none => rw [hc] at h; cases h
        | some r =>
          obtain ⟨e1, o1⟩ := r
          rw [hc] at h
          simp only at h
          have h1 := hP in_c (List.mem_cons_self _ _) _ _ _ _ _ _ hc
          by_cases he : e1 = .ZEBRA_SUCCESS
          · rw [if_neg (by simpa using he)] at h
            cases hr : append_columns in_rest in_ix out_rest out_ix count remaining with
            | none => rw [hr] at h; cases h
            | some r2 =>
              obtain ⟨e2, o2⟩ := r2
              rw [hr] at h
              cases h
              exact ih (fun x hx => hP x (List.mem_cons_of_mem _ hx)) _ _ _ _ _ _ _ hr
          · rw [if_pos he] at h
            cases h
            exact h1

theorem zebra_append_column_unrecognised (tag : Nat) (in_ix out_ix count : Int) (hc : count ≠ 0) :
    zebra_append_column (.unrecognised tag) in_ix (.unrecognised tag) out_ix count =
      some (.ZEBRA_INVALID_COLUMN_TYPE, .unrecognised tag) := by
  unfold zebra_append_column
  simp [zebra_column_t.type, hc]

/-- Inversion of `zebra_append_column`: the paths on which the call returns. -/
theorem zebra_append_column_cases {in_ out : zebra_column_t} {in_ix out_ix count : Int}
    {r : error_t × zebra_column_t}
    (h : zebra_append_column in_ in_ix out out_ix count = some r) :
    (in_.type ≠ out.type ∧ r = (.ZEBRA_MERGE_DIFFERENT_COLUMN_TYPES, out)) ∨
    (in_.type = out.type ∧ count = 0 ∧ r = (.ZEBRA_SUCCESS, out)) ∨
    (count ≠ 0 ∧ ∃ src dst dst1, in_ = .b src ∧ out = .b dst ∧
      copy_rows src in_ix dst out_ix count = some dst1 ∧ r = (.ZEBRA_SUCCESS, .b dst1)) ∨
    (count ≠ 0 ∧ ∃ src dst dst1, in_ = .i src ∧ out = .i dst ∧
      copy_rows src in_ix dst out_ix count = some dst1 ∧ r = (.ZEBRA_SUCCESS, .i dst1)) ∨
    (count ≠ 0 ∧ ∃ src dst dst1, in_ = .d src ∧ out = .d dst ∧
      copy_rows src in_ix dst out_ix count = some dst1 ∧ r = (.ZEBRA_SUCCESS, .d dst1)) ∨
    (count ≠ 0 ∧ ∃ in_n in_s in_so in_t out_n out_s out_so out_t v_ix s st e t1,
      in_ = .a in_n in_s in_so in_t ∧ out = .a out_n out_s out_so out_t ∧
      value_in_ix in_s in_so in_ix = some v_ix ∧ out_base out_s out_so out_ix = some s ∧
      array_rows in_n in_ix out_n out_s out_ix s count = some st ∧
      zebra_append_table in_t v_ix out_t st.nested_count = some (e, t1) ∧
      r = (e, .a st.n st.s out_so t1)) ∨
    (count ≠ 0 ∧ ∃ tag, in_ = .unrecognised tag ∧ out = .unrecognised tag ∧
      r = (.ZEBRA_INVALID_COLUMN_TYPE, out)) := by
  by_cases ht : in_.type = out.type
  swap
  · rw [zebra_append_column_type_ne _ _ _ _ _ ht] at h
    exact Or.inl ⟨ht, (Option.some.inj h).symm⟩
  right
  by_cases hc : count = 0
  · subst hc
    rw [zebra_append_column_zero _ _ _ _ ht] at h
    exact Or.inl ⟨ht, rfl, (Option.some.inj h).symm⟩
  right
  cases in_ with
  | b src =>
    cases out with
    | b dst =>
      rw [zebra_append_column_b _ _ _ _ _ hc] at h
      cases hr : copy_rows src in_ix dst out_ix count with
      | none => rw [hr] at h; cases h
      | some dst1 =>
        rw [hr] at h
        exact Or.inl ⟨hc, src, dst, dst1, rfl, rfl, hr, (Option.some.inj h).symm⟩
    | _ => simp [zebra_column_t.type] at ht
  | i src =>
    cases out with
    | i dst =>
      rw [zebra_append_column_i _ _ _ _ _ hc] at h
      cases hr : copy_rows src in_ix dst out_ix count with
      | none => rw [hr] at h; cases h
      | some dst1 =>
        rw [hr] at h
        exact Or.inr (Or.inl ⟨hc, src, dst, dst1, rfl, rfl, hr, (Option.some.inj h).symm⟩)
    | _ => simp [zebra_column_t.type] at ht
  | d src =>
    cases out with
    | d dst =>
      rw [zebra_append_column_d _ _ _ _ _ hc] at h
      cases hr : copy_rows src in_ix dst out_ix count with
      | none => rw [hr] at h; cases h
      | some dst1 =>
        rw [hr] at h
        exact Or.inr (Or.inr (Or.inl
          ⟨hc, src, dst, dst1, rfl, rfl, hr, (Option.some.inj h).symm⟩))
    | _ => simp [zebra_column_t.type] at ht
  | a in_n in_s in_so in_t =>
    cases out with
    | a out_n out_s out_so out_t =>
      rw [zebra_append_column_a _ _ _ _ _ _ _ _ _ _ _ hc] at h
      cases h1 : value_in_ix in_s in_so in_ix with
      | none => rw [h1] at h; cases h
      | some v_ix =>
        rw [h1] at h
        simp only at h
        cases h2 : out_base out_s out_so out_ix with
        | none => rw [h2] at h; cases h
        | some s =>
          rw [h2] at h
          simp only at h
          cases h3 : array_rows in_n in_ix out_n out_s out_ix s count with
          | none => rw [h3] at h; cases h
          | some st =>
            rw [h3] at h
            simp only at h
            cases h4 : zebra_append_table in_t v_ix out_t st.nested_count with
            | none => rw [h4] at h; cases h
            | some r4 =>
              obtain ⟨e, t1⟩ := r4
              rw [h4] at h
              exact Or.inr (Or.inr (Or.inr (Or.inl
                ⟨hc, in_n, in_s, in_so, in_t, out_n, out_s, out_so, out_t, v_ix, s, st, e, t1,
                  rfl, rfl, h1, h2, h3, h4, (Option.some.inj h).symm⟩)))
    | _ => simp [zebra_column_t.type] at ht
  | unrecognised tag =>
    cases out with
    | unrecognised tag1 =>
      have : tag = tag1 := by simpa [zebra_column_t.type] using ht
      subst this
      rw [zebra_append_column_unrecognised _ _ _ _ hc] at h
      exact Or.inr (Or.inr (Or.inr (Or.inr
        ⟨hc, tag, rfl, rfl, (Option.some.inj h).symm⟩)))
    | _ => simp [zebra_column_t.type] at ht

/-- Inversion of `zebra_append_table`. -/
theorem zebra_append_table_cases {in_ out : zebra_table_t} {in_ix count : Int}
    {r : error_t × zebra_table_t} (h : zebra_append_table in_ in_ix out count = some r) :
    ∃ columns1, append_columns in_.columns in_ix
        (out.columns.map (zebra_grow_column (out.row_count + count)))
        out.row_count count in_.column_count.toNat = some (r.1, columns1) ∧
      r.2 = .mk (out.row_count + count) out.column_count columns1 := by
  rw [zebra_append_table_eq] at h
  cases hr : append_columns in_.columns in_ix
      (out.columns.map (zebra_grow_column (out.row_count + count)))
      out.row_count count in_.column_count.toNat with
  | none => rw [hr] at h; cases h
  | some r1 =>
    obtain ⟨e, cs⟩ := r1
    rw [hr] at h
    cases h
    exact ⟨cs, rfl, rfl⟩

theorem append_error_both :
    (∀ (in_ : zebra_column_t) in_ix out out_ix count e o,
      zebra_append_column in_ in_ix out out_ix count = some (e, o) → append_error e) ∧
    (∀ (in_ : zebra_table_t) in_ix out count e o,
      zebra_append_table in_ in_ix out count = some (e, o) → append_error e) := by
  have scalar : ∀ (in_ : zebra_column_t), (∀ n s so t, in_ ≠ .a n s so t) →
      ∀ in_ix out out_ix count e o,
      zebra_append_column in_ in_ix out out_ix count = some (e, o) → append_error e := by
    intro in_ hna in_ix out out_ix count e o h
    rcases zebra_append_column_cases h with h | h | h | h | h | h | h
    · rw [Prod.mk.injEq] at h; exact Or.inr (Or.inl h.2.1)
    · rw [Prod.mk.injEq] at h; exact Or.inl h.2.2.1
    · obtain ⟨_, _, _, _, _, _, _, h⟩ := h; rw [Prod.mk.injEq] at h; exact Or.inl h.1
    · obtain ⟨_, _, _, _, _, _, _, h⟩ := h; rw [Prod.mk.injEq] at h; exact Or.inl h.1
    · obtain ⟨_, _, _, _, _, _, _, h⟩ := h; rw [Prod.mk.injEq] at h; exact Or.inl h.1
    · obtain ⟨_, in_n, in_s, in_so, in_t, _, _, _, _, _, _, _, _, _, h, _⟩ := h
      exact absurd h (hna _ _ _ _)
    · obtain ⟨_, _, _, _, h⟩ := h; rw [Prod.mk.injEq] at h; exact Or.inr (Or.inr h.1)
  apply column_table_induction
  · intro data; exact scalar _ (by intro _ _ _ _ h; cases h)
  · intro data; exact scalar _ (by intro _ _ _ _ h; cases h)
  · intro data; exact scalar _ (by intro _ _ _ _ h; cases h)
  · intro n s so t ih in_ix out out_ix count e o h
    rcases zebra_append_column_cases h with h | h | h | h | h | h | h
    · rw [Prod.mk.injEq] at h; exact Or.inr (Or.inl h.2.1)
    · rw [Prod.mk.injEq] at h; exact Or.inl h.2.2.1
    · obtain ⟨_, _, _, _, h, _⟩ := h; cases h
    · obtain ⟨_, _, _, _, h, _⟩ := h; cases h
    · obtain ⟨_, _, _, _, h, _⟩ := h; cases h
    · obtain ⟨_, in_n, in_s, in_so, in_t, _, _, _, _, _, _, _, e1, _, h, _, _, _, _, h4, h5⟩ := h
      cases h
      rw [Prod.mk.injEq] at h5
      rw [h5.1]
      exact ih _ _ _ _ _ h4
    · obtain ⟨_, _, h, _⟩ := h; cases h
  · intro tag; exact scalar _ (by intro _ _ _ _ h; cases h)
  · intro r c cols ih in_ix out count e o h
    obtain ⟨cs, h1, _⟩ := zebra_append_table_cases h
    exact append_columns_error append_error (Or.inl rfl) cols ih _ _ _ _ _ _ _ h1

/-! ## The block appender -/

theorem zebra_fill_block_entity_success {entity : zebra_entity_t} {e : error_t}
    {record : zebra_block_entity_t} (h : zebra_fill_block_entity entity = some (e, record)) :
    e = .ZEBRA_SUCCESS := by
  unfold zebra_fill_block_entity at h
  split at h
  · cases h
  · split at h
    · cases h
    · split at h
      · cases h
      · split at h
        · cases h
        · cases h; rfl

theorem clone_tables_loop_success (attributes : List zebra_attribute_t) :
    ∀ (remaining : Nat) (c : Int) (tables : List zebra_table_t) e tables1,
      clone_tables_loop attributes remaining c tables = some (e, tables1) → e = .ZEBRA_SUCCESS := by
  intro remaining
  induction remaining with
  | zero => intro c tables e tables1 h; rw [clone_tables_loop] at h; cases h; rfl
  | succ remaining ih =>
    intro c tables e tables1 h
    rw [clone_tables_loop] at h
    split at h
    · cases h
    · simp only [zebra_deep_clone_table] at h
      split at h
      · cases h
      · simp only [ne_eq, not_true_eq_false, if_false] at h
        exact ih _ _ _ _ h

theorem append_tables_loop_error (attributes : List zebra_attribute_t) :
    ∀ (remaining : Nat) (c : Int) (tables : List zebra_table_t) e tables1,
      append_tables_loop attributes remaining c tables = some (e, tables1) → append_error e := by
  intro remaining
  induction remaining with
  | zero => intro c tables e tables1 h; rw [append_tables_loop] at h; cases h; exact Or.inl rfl
  | succ remaining ih =>
    intro c tables e tables1 h
    rw [append_tables_loop] at h
    split at h
    · rename_i attr block_table _ _
      split at h
      · cases h
      · rename_i err bt1 hr
        split at h
        · cases h
          exact append_error_both.2 _ _ _ _ _ _ hr
        · exact ih _ _ _ _ h
    · cases h

/-- Inversion of `append_block_entity_body`: the steps of a call that returns. -/
theorem append_block_entity_body_cases {entity : zebra_entity_t} {block : zebra_block_t}
    {e : error_t} {b1 : zebra_block_t}
    (h : append_block_entity_body entity block = some (e, b1)) :
    ∃ record entities1 new_row_count st tables1,
      zebra_fill_block_entity entity = some (.ZEBRA_SUCCESS, record) ∧
      store (ZEBRA_GROW_ARRAY block.entities block.entity_count (block.entity_count + 1))
        block.entity_count record = some entities1 ∧
      new_row_count_loop entity.attributes entity.attribute_count.toNat 0 block.row_count =
        some new_row_count ∧
      meta_loop entity.attributes entity.attribute_count.toNat 0
        ⟨ZEBRA_GROW_ARRAY block.times block.row_count new_row_count,
         ZEBRA_GROW_ARRAY block.priorities block.row_count new_row_count,
         ZEBRA_GROW_ARRAY block.tombstones block.row_count new_row_count,
         block.row_count⟩ = some st ∧
      ((∃ tables, block.tables = some tables ∧
          append_tables_loop entity.attributes block.table_count.toNat 0 tables =
            some (e, tables1) ∧
          b1 = ⟨block.entity_count + 1, entities1, new_row_count, st.times, st.priorities,
            st.tombstones, block.table_count, some tables1⟩) ∨
       (block.tables = none ∧
          clone_tables_loop entity.attributes entity.attribute_count.toNat 0
            (anemone_mempool_calloc entity.attribute_count) = some (e, tables1) ∧
          b1 = ⟨block.entity_count + 1, entities1, new_row_count, st.times, st.priorities,
            st.tombstones, entity.attribute_count, some tables1⟩)) := by
  unfold append_block_entity_body at h
  simp only at h
  split at h
  · cases h
  · rename_i err record hf
    have := zebra_fill_block_entity_success hf
    subst this
    split at h
    · cases h
    · rename_i entities1 hs
      simp only [ne_eq, not_true_eq_false, if_false] at h
      split at h
      · cases h
      · rename_i new_row_count hn
        split at h
        · cases h
        · rename_i st hm
          split at h
          · rename_i tables ht
            split at h
            · cases h
            · rename_i err1 tables1 ha
              cases h
              exact ⟨record, entities1, new_row_count, st, tables1, hf, hs, hn, hm,
                Or.inl ⟨tables, ht, ha, rfl⟩⟩
          · rename_i ht
            split at h
            · cases h
            · rename_i err1 tables1 ha
              cases h
              exact ⟨record, entities1, new_row_count, st, tables1, hf, hs, hn, hm,
                Or.inr ⟨ht, ha, rfl⟩⟩

theorem append_block_entity_body_error {entity : zebra_entity_t} {block : zebra_block_t}
    {e : error_t} {b1 : zebra_block_t}
    (h : append_block_entity_body entity block = some (e, b1)) : append_error e := by
  obtain ⟨_, _, _, _, _, _, _, _, _, h | h⟩ := append_block_entity_body_cases h
  · obtain ⟨_, _, h, _⟩ := h
    exact append_tables_loop_error _ _ _ _ _ _ h
  · exact Or.inl (clone_tables_loop_success _ _ _ _ _ _ h.2.1)

theorem append_block_entity_body_table_count {entity : zebra_entity_t} {block : zebra_block_t}
    {e : error_t} {b1 : zebra_block_t}
    (h : append_block_entity_body entity block = some (e, b1)) :
    b1.table_count = block.table_count ∨
      (block.tables = none ∧ b1.table_count = entity.attribute_count) := by
  obtain ⟨_, _, _, _, _, _, _, _, _, h | h⟩ := append_block_entity_body_cases h
  · obtain ⟨_, _, _, h⟩ := h
    subst h
    exact Or.inl rfl
  · obtain ⟨h0, _, h⟩ := h
    subst h
    exact Or.inr ⟨h0, rfl⟩

theorem zebra_append_block_entity_some (entity : zebra_entity_t) (block : zebra_block_t)
    (h : entity.attribute_count = block.table_count) :
    zebra_append_block_entity entity (some block) =
      match append_block_entity_body entity block with
      | none => none
      | some (err, block1) => some (err, some block1) := by
  unfold zebra_append_block_entity
  simp [h]

theorem zebra_append_block_entity_mismatch (entity : zebra_entity_t) (block : zebra_block_t)
    (h : entity.attribute_count ≠ block.table_count) :
    zebra_append_block_entity entity (some block) =
      some (.ZEBRA_APPEND_DIFFERENT_ATTRIBUTE_COUNT, some block) := by
  unfold zebra_append_block_entity
  simp [h]

theorem zebra_append_block_entity_none (entity : zebra_entity_t) :
    zebra_append_block_entity entity none =
      match append_block_entity_body entity (default : zebra_block_t) with
      | none => none
      | some (err, block) =>
        if err ≠ .ZEBRA_SUCCESS then some (err, none) else some (.ZEBRA_SUCCESS, some block) := by
  unfold zebra_append_block_entity
  rfl

/-- C8: schema lock-in.  On an existing block `zebra_append_block_entity` returns
`AppendDifferentAttributeCount` if and only if `entity.attribute_count` differs from
`block.table_count`, whatever the row counts, and then the block and the caller's handle
are unchanged; after a successful first append from an absent block `table_count` is the
entity's `attribute_count`, and no successful append on an existing block changes
`table_count`. -/
theorem zebra_append_block_entity_schema_lock_in (entity : zebra_entity_t)
    (block : zebra_block_t) :
    ((∃ handle, zebra_append_block_entity entity (some block) =
        some (.ZEBRA_APPEND_DIFFERENT_ATTRIBUTE_COUNT, handle)) ↔
      entity.attribute_count ≠ block.table_count) ∧
    (entity.attribute_count ≠ block.table_count →
      zebra_append_block_entity entity (some block) =
        some (.ZEBRA_APPEND_DIFFERENT_ATTRIBUTE_COUNT, some block)) ∧
    (∀ block1, zebra_append_block_entity entity none = some (.ZEBRA_SUCCESS, some block1) →
      block1.table_count = entity.attribute_count) ∧
    (∀ block1, zebra_append_block_entity entity (some block) =
        some (.ZEBRA_SUCCESS, some block1) →
      block1.table_count = block.table_count) := by
  refine ⟨⟨?_, fun h => ⟨_, zebra_append_block_entity_mismatch entity block h⟩⟩,
    zebra_append_block_entity_mismatch entity block, ?_, ?_⟩
  · rintro ⟨handle, h⟩ heq
    rw [zebra_append_block_entity_some entity block heq] at h
    cases hb : append_block_entity_body entity block with
    | none => rw [hb] at h; cases h
    | some r =>
      obtain ⟨e, b1⟩ := r
      rw [hb] at h
      cases h
      rcases append_block_entity_body_error hb with h | h | h <;> cases h
  · intro block1 h
    rw [zebra_append_block_entity_none] at h
    cases hb : append_block_entity_body entity default with
    | none => rw [hb] at h; cases h
    | some r =>
      obtain ⟨e, b1⟩ := r
      rw [hb] at h
      simp only at h
      split at h
      · cases h
      · cases h
        rcases append_block_entity_body_table_count hb with h | h
        · obtain ⟨_, _, _, _, _, _, _, _, _, h2 | h2⟩ := append_block_entity_body_cases hb
          · obtain ⟨_, h2, _⟩ := h2
            cases h2
          · exact h2.2.2 ▸ rfl
        · exact h.2
  · intro block1 h
    by_cases heq : entity.attribute_count = block.table_count
    · rw [zebra_append_block_entity_some entity block heq] at h
      cases hb : append_block_entity_body entity block with
      | none => rw [hb] at h; cases h
      | some r =>
        obtain ⟨e, b1⟩ := r
        rw [hb] at h
        cases h
        rcases append_block_entity_body_table_count hb with h | h
        · exact h
        · rw [h.2, heq]
    · rw [zebra_append_block_entity_mismatch entity block heq] at h
      cases h

/-- A block first built from the 4-attribute entity `entity_4` has `table_count = 4` and
rejects `entity_3` and `entity_5`, unchanged. -/
theorem zebra_append_block_entity_schema_lock_in_witness :
    ∃ block, zebra_append_block_entity entity_4 none = some (.ZEBRA_SUCCESS, some block) ∧
      block.table_count = 4 ∧
      zebra_append_block_entity entity_3 (some block) =
        some (.ZEBRA_APPEND_DIFFERENT_ATTRIBUTE_COUNT, some block) ∧
      zebra_append_block_entity entity_5 (some block) =
        some (.ZEBRA_APPEND_DIFFERENT_ATTRIBUTE_COUNT, some block) := by
  have h3 := (zebra_append_block_entity_schema_lock_in entity_3 block_4).2.1 (by decide)
  have h5 := (zebra_append_block_entity_schema_lock_in entity_5 block_4).2.1 (by decide)
  exact ⟨block_4, rfl, rfl, h3, h5⟩

/-! ## Block metadata arrays -/

theorem memcpy_spec {α : Type} {dst src dst1 : List α} {offset count : Int}
    (h : memcpy dst offset src count = some dst1) :
    0 ≤ count ∧ 0 ≤ offset ∧ count.toNat ≤ src.length ∧
      offset.toNat + count.toNat ≤ dst.length ∧
      dst1 = dst.take offset.toNat ++ src.take count.toNat ++
        dst.drop (offset.toNat + count.toNat) := by
  unfold memcpy at h
  split at h
  · rename_i hc
    cases h
    exact ⟨hc.1, hc.2.1, hc.2.2.1, hc.2.2.2, rfl⟩
  · cases h

theorem splice_splice {α : Type} (dst seg1 seg2 : List α) (k n2 : Nat)
    (hk : k + seg1.length ≤ dst.length) :
    (dst.take k ++ seg1 ++ dst.drop (k + seg1.length)).take (k + seg1.length) ++ seg2 ++
        (dst.take k ++ seg1 ++ dst.drop (k + seg1.length)).drop (k + seg1.length + n2) =
      dst.take k ++ (seg1 ++ seg2) ++ dst.drop (k + (seg1.length + n2)) := by
  have hl : (dst.take k ++ seg1).length = k + seg1.length := by
    simp [List.length_take]; omega
  rw [List.take_left' hl, ← List.drop_drop n2 (k + seg1.length), List.drop_left' hl,
    List.drop_drop]
  simp [List.append_assoc, Nat.add_assoc]

theorem attribute_rows_cons {α : Type} (field : zebra_attribute_t → List α)
    (attr : zebra_attribute_t) (rest : List zebra_attribute_t) :
    attribute_rows field (attr :: rest) =
      (field attr).take attr.table.row_count.toNat ++ attribute_rows field rest := by
  simp [attribute_rows]

theorem drop_take_succ {α : Type} (l : List α) (c remaining : Nat) (h : c < l.length) :
    (l.drop c).take (remaining + 1) = l[c] :: (l.drop (c + 1)).take remaining := by
  rw [List.drop_eq_getElem_cons h, List.take_succ_cons]

theorem new_row_count_loop_spec (attributes : List zebra_attribute_t) :
    ∀ (remaining c : Nat) (init r : Int),
      new_row_count_loop attributes remaining (c : Int) init = some r →
      (0 < remaining → c + remaining ≤ attributes.length) ∧
      r = init + total_row_count ((attributes.drop c).take remaining) := by
  intro remaining
  induction remaining with
  | zero =>
    intro c init r h
    rw [new_row_count_loop] at h
    cases h
    exact ⟨fun h => absurd h (by omega), by simp [total_row_count]⟩
  | succ remaining ih =>
    intro c init r h
    have e3 : (c : Int) + 1 = ((c + 1 : Nat) : Int) := by push_cast; rfl
    rw [new_row_count_loop, load_natCast] at h
    cases hl : attributes[c]? with
    | none => rw [hl] at h; cases h
    | some attr =>
      rw [hl] at h
      simp only at h
      rw [e3] at h
      obtain ⟨hc, hv⟩ := List.getElem?_eq_some.1 hl
      obtain ⟨h1, h2⟩ := ih _ _ _ h
      refine ⟨fun _ => ?_, ?_⟩
      · rcases Nat.eq_zero_or_pos remaining with h0 | h0
        · omega
        · have := h1 h0; omega
      · rw [h2, drop_take_succ _ _ _ hc, hv]
        simp [total_row_count]
        omega

theorem meta_loop_spec (attributes : List zebra_attribute_t) :
    ∀ (remaining c k : Nat) (st st1 : meta_state),
      meta_loop attributes remaining (c : Int) st = some st1 → st.cur_row_count = (k : Int) →
      (0 < remaining → c + remaining ≤ attributes.length) ∧
      (∀ attr ∈ (attributes.drop c).take remaining, 0 ≤ attr.table.row_count) ∧
      st1.cur_row_count = (k : Int) + total_row_count ((attributes.drop c).take remaining) ∧
      st1.times = st.times.take k ++
        attribute_rows (fun attr => attr.times) ((attributes.drop c).take remaining) ++
        st.times.drop (k + (total_row_count ((attributes.drop c).take remaining)).toNat) ∧
      st1.priorities = st.priorities.take k ++
        attribute_rows (fun attr => attr.priorities) ((attributes.drop c).take remaining) ++
        st.priorities.drop (k + (total_row_count ((attributes.drop c).take remaining)).toNat) ∧
      st1.tombstones = st.tombstones.take k ++
        attribute_rows (fun attr => attr.tombstones) ((attributes.drop c).take remaining) ++
        st.tombstones.drop (k + (total_row_count ((attributes.drop c).take remaining)).toNat) := by
  intro remaining
  induction remaining with
  | zero =>
    intro c k st st1 h hk
    rw [meta_loop] at h
    cases h
    refine ⟨fun h => absurd h (by omega), by simp, by simp [total_row_count, hk], ?_, ?_, ?_⟩ <;>
      simp [attribute_rows, total_row_count]
  | succ remaining ih =>
    intro c k st st1 h hk
    have e3 : (c : Int) + 1 = ((c + 1 : Nat) : Int) := by push_cast; rfl
    rw [meta_loop, load_natCast] at h
    cases hl : attributes[c]? with
    | none => rw [hl] at h; cases h
    | some attr =>
      rw [hl] at h
      simp only at h
      obtain ⟨hc, hv⟩ := List.getElem?_eq_some.1 hl
      cases m1 : memcpy st.times st.cur_row_count attr.times attr.table.row_count with
      | none => rw [m1] at h; cases h
      | some times =>
        rw [m1] at h
        simp only at h
        cases m2 : memcpy st.priorities st.cur_row_count attr.priorities attr.table.row_count with
        | none => rw [m2] at h; cases h
        | some priorities =>
          rw [m2] at h
          simp only at h
          cases m3 : memcpy st.tombstones st.cur_row_count attr.tombstones attr.table.row_count with
          | none => rw [m3] at h; cases h
          | some tombstones =>
            rw [m3] at h
            simp only at h
            rw [e3] at h
            rw [hk] at m1 m2 m3 h
            obtain ⟨r0, _, s1, d1, q1⟩ := memcpy_spec m1
            obtain ⟨_, _, s2, d2, q2⟩ := memcpy_spec m2
            obtain ⟨_, _, s3, d3, q3⟩ := memcpy_spec m3
            simp only [Int.toNat_ofNat] at d1 d2 d3 q1 q2 q3
            have hk1 : (k : Int) + attr.table.row_count =
                ((k + attr.table.row_count.toNat : Nat) : Int) := by
              push_cast
              rw [Int.toNat_of_nonneg r0]
            rw [hk1] at h
            obtain ⟨i1, i2, i3, i4, i5, i6⟩ := ih (c + 1) (k + attr.table.row_count.toNat)
              ⟨times, priorities, tombstones, ((k + attr.table.row_count.toNat : Nat) : Int)⟩
              st1 h rfl
            have hseg : (attributes.drop c).take (remaining + 1) =
                attr :: (attributes.drop (c + 1)).take remaining := by
              rw [drop_take_succ _ _ _ hc, hv]
            have htot : total_row_count (attr :: (attributes.drop (c + 1)).take remaining) =
                attr.table.row_count +
                  total_row_count ((attributes.drop (c + 1)).take remaining) := by
              simp [total_row_count]
            have hnn : ∀ a ∈ (attributes.drop (c + 1)).take remaining, 0 ≤ a.table.row_count := i2
            have htot0 : 0 ≤ total_row_count ((attributes.drop (c + 1)).take remaining) := by
              unfold total_row_count
              apply List.sum_nonneg
              intro x hx
              obtain ⟨a, ha, rfl⟩ := List.mem_map.1 hx
              exact hnn a ha
            have hnat : (attr.table.row_count +
                  total_row_count ((attributes.drop (c + 1)).take remaining)).toNat =
                attr.table.row_count.toNat +
                  (total_row_count ((attributes.drop (c + 1)).take remaining)).toNat :=
              Int.toNat_add r0 htot0
            rw [hseg, htot, hnat]
            refine ⟨fun _ => ?_, ?_, ?_, ?_, ?_, ?_⟩
            · rcases Nat.eq_zero_or_pos remaining with h0 | h0
              · omega
              · have := i1 h0; omega
            · intro a ha
              rcases List.mem_cons.1 ha with h1 | h1
              · rw [h1]; exact r0
              · exact hnn a h1
            · rw [i3]; push_cast; rw [Int.toNat_of_nonneg r0]; ring
            · rw [i4, attribute_rows_cons]
              simp only
              have hlen : (attr.times.take attr.table.row_count.toNat).length =
                  attr.table.row_count.toNat := by
                rw [List.length_take]; omega
              rw [q1]
              have := splice_splice st.times (attr.times.take attr.table.row_count.toNat)
                (attribute_rows (fun attr => attr.times) ((attributes.drop (c + 1)).take remaining))
                k (total_row_count ((attributes.drop (c + 1)).take remaining)).toNat
                (by rw [hlen]; exact d1)
              rw [hlen] at this
              exact this
            · rw [i5, attribute_rows_cons]
              simp only
              have hlen : (attr.priorities.take attr.table.row_count.toNat).length =
                  attr.table.row_count.toNat := by
                rw [List.length_take]; omega
              rw [q2]
              have := splice_splice st.priorities
                (attr.priorities.take attr.table.row_count.toNat)
                (attribute_rows (fun attr => attr.priorities)
                  ((attributes.drop (c + 1)).take remaining))
                k (total_row_count ((attributes.drop (c + 1)).take remaining)).toNat
                (by rw [hlen]; exact d2)
              rw [hlen] at this
              exact this
            · rw [i6, attribute_rows_cons]
              simp only
              have hlen : (attr.tombstones.take attr.table.row_count.toNat).length =
                  attr.table.row_count.toNat := by
                rw [List.length_take]; omega
              rw [q3]
              have := splice_splice st.tombstones
                (attr.tombstones.take attr.table.row_count.toNat)
                (attribute_rows (fun attr => attr.tombstones)
                  ((attributes.drop (c + 1)).take remaining))
                k (total_row_count ((attributes.drop (c + 1)).take remaining)).toNat
                (by rw [hlen]; exact d3)
              rw [hlen] at this
              exact this

theorem grow_array_splice {α : Type} [Inhabited α] (array seg : List α) (old_len : Int)
    (total : Int) (h0 : 0 ≤ old_len) (ht : 0 ≤ total) (hl : old_len.toNat ≤ array.length) :
    (ZEBRA_GROW_ARRAY array old_len (old_len + total)).take old_len.toNat ++ seg ++
        (ZEBRA_GROW_ARRAY array old_len (old_len + total)).drop (old_len.toNat + total.toNat) =
      array.take old_len.toNat ++ seg := by
  unfold ZEBRA_GROW_ARRAY
  have h1 : (array.take old_len.toNat).length = old_len.toNat := by
    rw [List.length_take]; omega
  have h2 : (old_len + total).toNat = old_len.toNat + total.toNat := Int.toNat_add h0 ht
  rw [h1, h2, List.take_left' h1, List.drop_eq_nil_of_le]
  · simp
  · simp [h1]

theorem append_block_entity_body_metadata {entity : zebra_entity_t} {block block1 : zebra_block_t}
    {e : error_t} (h : append_block_entity_body entity block = some (e, block1))
    (h_rc : 0 ≤ block.row_count)
    (h_times : block.row_count.toNat ≤ block.times.length)
    (h_priorities : block.row_count.toNat ≤ block.priorities.length)
    (h_tombstones : block.row_count.toNat ≤ block.tombstones.length) :
    block1.times = block.times.take block.row_count.toNat ++
      attribute_rows (fun attr => attr.times)
        (entity.attributes.take entity.attribute_count.toNat) ∧
    block1.priorities = block.priorities.take block.row_count.toNat ++
      attribute_rows (fun attr => attr.priorities)
        (entity.attributes.take entity.attribute_count.toNat) ∧
    block1.tombstones = block.tombstones.take block.row_count.toNat ++
      attribute_rows (fun attr => attr.tombstones)
        (entity.attributes.take entity.attribute_count.toNat) ∧
    block1.row_count = block.row_count +
      total_row_count (entity.attributes.take entity.attribute_count.toNat) := by
  obtain ⟨record, entities1, new_row_count, st, tables1, _, _, hn, hm, hb⟩ :=
    append_block_entity_body_cases h
  have e0 : (0 : Int) = ((0 : Nat) : Int) := rfl
  rw [e0] at hn hm
  obtain ⟨_, hn2⟩ := new_row_count_loop_spec _ _ _ _ _ hn
  have hk : block.row_count = ((block.row_count.toNat : Nat) : Int) :=
    (Int.toNat_of_nonneg h_rc).symm
  obtain ⟨_, m2, _, m4, m5, m6⟩ := meta_loop_spec _ _ _ block.row_count.toNat _ _ hm hk
  simp only [List.drop_zero] at hn2 m2 m4 m5 m6
  have htot : 0 ≤ total_row_count (entity.attributes.take entity.attribute_count.toNat) := by
    unfold total_row_count
    apply List.sum_nonneg
    intro x hx
    obtain ⟨a, ha, rfl⟩ := List.mem_map.1 hx
    exact m2 a ha
  rw [hn2] at m4 m5 m6
  rw [grow_array_splice _ _ _ _ h_rc htot h_times] at m4
  rw [grow_array_splice _ _ _ _ h_rc htot h_priorities] at m5
  rw [grow_array_splice _ _ _ _ h_rc htot h_tombstones] at m6
  rcases hb with ⟨_, _, _, hb⟩ | ⟨_, _, hb⟩ <;> subst hb <;> exact ⟨m4, m5, m6, hn2⟩

/-- C9: block row metadata is the entity-major, attribute-ordered concatenation.  After
a successful `zebra_append_block_entity` on a block (an absent block counting as the
empty one) whose arrays hold its `row_count` rows, the block's `times` are its previous
`row_count` times followed by attribute 0's `times[0..row_count_0)`, then attribute 1's,
and so on; the same for `priorities` and `tombstones`; and `row_count` has grown by the
sum of the attributes' row counts. -/
theorem zebra_append_block_entity_metadata (entity : zebra_entity_t)
    (inout_block : Option zebra_block_t) (block1 : zebra_block_t)
    (h_rc : 0 ≤ (inout_block.getD default).row_count)
    (h_times : (inout_block.getD default).row_count.toNat ≤
      (inout_block.getD default).times.length)
    (h_priorities : (inout_block.getD default).row_count.toNat ≤
      (inout_block.getD default).priorities.length)
    (h_tombstones : (inout_block.getD default).row_count.toNat ≤
      (inout_block.getD default).tombstones.length)
    (h : zebra_append_block_entity entity inout_block = some (.ZEBRA_SUCCESS, some block1)) :
    block1.times =
      (inout_block.getD default).times.take (inout_block.getD default).row_count.toNat ++
      attribute_rows (fun attr => attr.times)
        (entity.attributes.take entity.attribute_count.toNat) ∧
    block1.priorities =
      (inout_block.getD default).priorities.take (inout_block.getD default).row_count.toNat ++
      attribute_rows (fun attr => attr.priorities)
        (entity.attributes.take entity.attribute_count.toNat) ∧
    block1.tombstones =
      (inout_block.getD default).tombstones.take (inout_block.getD default).row_count.toNat ++
      attribute_rows (fun attr => attr.tombstones)
        (entity.attributes.take entity.attribute_count.toNat) ∧
    block1.row_count = (inout_block.getD default).row_count +
      total_row_count (entity.attributes.take entity.attribute_count.toNat) := by
  cases inout_block with
  | none =>
    rw [zebra_append_block_entity_none] at h
    cases hb : append_block_entity_body entity default with
    | none => rw [hb] at h; cases h
    | some r =>
      obtain ⟨e, b1⟩ := r
      rw [hb] at h
      simp only at h
      split at h
      · cases h
      · cases h
        exact append_block_entity_body_metadata hb h_rc h_times h_priorities h_tombstones
  | some block =>
    by_cases heq : entity.attribute_count = block.table_count
    · rw [zebra_append_block_entity_some entity block heq] at h
      cases hb : append_block_entity_body entity block with
      | none => rw [hb] at h; cases h
      | some r =>
        obtain ⟨e, b1⟩ := r
        rw [hb] at h
        cases h
        exact append_block_entity_body_metadata hb h_rc h_times h_priorities h_tombstones
    · rw [zebra_append_block_entity_mismatch entity block heq] at h
      cases h

/-- The end-to-end scenario: E1 onto the absent block gives `row_count = 2` and
`times = [10, 20]`; E2 onto that block gives `row_count = 4` and
`times = [10, 20, 5, 30]`. -/
theorem zebra_append_block_entity_metadata_witness :
    zebra_append_block_entity scenario_E1 none = some (.ZEBRA_SUCCESS, some scenario_block_1) ∧
    scenario_block_1.row_count = 2 ∧ scenario_block_1.times = [10, 20] ∧
    zebra_append_block_entity scenario_E2 (some scenario_block_1) =
      some (.ZEBRA_SUCCESS, some scenario_block_2) ∧
    scenario_block_2.times = [10, 20] ++ [5] ++ [30] ∧
    scenario_block_2.priorities = [0, 0] ++ [0] ++ [0] ∧
    scenario_block_2.tombstones = [false, false] ++ [false] ++ [false] ∧
    scenario_block_2.row_count = 2 + (1 + 1) := by
  have h := zebra_append_block_entity_metadata scenario_E2 (some scenario_block_1)
    scenario_block_2 (by decide) (by decide) (by decide) (by decide) rfl
  exact ⟨rfl, rfl, rfl, rfl, h.1, h.2.1, h.2.2.1, h.2.2.2⟩

/-! ## The Array loop -/

theorem range_sum_zero (l : List Int) (first : Nat) : range_sum l first 0 = 0 := by
  simp [range_sum]

theorem range_sum_succ_left (l : List Int) (first len : Nat) (h : first < l.length) :
    range_sum l first (len + 1) = l[first] + range_sum l (first + 1) len := by
  unfold range_sum
  rw [drop_take_succ _ _ _ h]
  simp

theorem range_sum_add (l : List Int) (first m k : Nat) :
    range_sum l first (m + k) = range_sum l first m + range_sum l (first + m) k := by
  unfold range_sum
  rw [List.take_add, List.sum_append, List.drop_drop]

theorem range_sum_succ_right (l : List Int) (first len : Nat) (h : first + len < l.length) :
    range_sum l first (len + 1) = range_sum l first len + l[first + len] := by
  rw [range_sum_add, range_sum_succ_left _ _ _ h, range_sum_zero]
  simp

theorem wrap64_of_range {x : Int} (h : int64_range x) : wrap64 x = x := by
  unfold int64_range INT64_MIN INT64_MAX at h
  unfold wrap64 INT64_MIN
  omega

theorem wrap64_range (x : Int) : int64_range (wrap64 x) := by
  unfold int64_range wrap64 INT64_MIN INT64_MAX
  omega

theorem wrap64_wrap64 (x : Int) : wrap64 (wrap64 x) = wrap64 x :=
  wrap64_of_range (wrap64_range x)

theorem wrap64_add_left (a b : Int) : wrap64 (wrap64 a + b) = wrap64 (a + b) := by
  unfold wrap64 INT64_MIN
  omega

theorem wrap64_add_right (a b : Int) : wrap64 (a + wrap64 b) = wrap64 (a + b) := by
  unfold wrap64 INT64_MIN
  omega

theorem wrap64_add_mid (s a b : Int) :
    wrap64 (s + (wrap64 a + b)) = wrap64 (s + (a + b)) := by
  unfold wrap64 INT64_MIN
  omega

theorem wrap64_zero : wrap64 0 = 0 := by
  unfold wrap64 INT64_MIN
  omega

theorem array_loop_spec (in_n : List Int) (a b : Nat) (s : Int) :
    ∀ (remaining ix : Nat) (st st1 : array_state),
      array_loop in_n (a : Int) (b : Int) s remaining (ix : Int) st = some st1 →
      wrap64 st.nested_count = st.nested_count →
      (0 < remaining → a + ix + remaining ≤ in_n.length ∧ b + ix + remaining ≤ st.n.length ∧
        b + ix + remaining ≤ st.s.length) ∧
      st1.n.length = st.n.length ∧ st1.s.length = st.s.length ∧
      st1.nested_count = wrap64 (st.nested_count + range_sum in_n (a + ix) remaining) ∧
      (∀ j : Nat, st1.n[j]? =
        if b + ix ≤ j ∧ j < b + ix + remaining then in_n[a + (j - b)]? else st.n[j]?) ∧
      (∀ j : Nat, st1.s[j]? =
        if b + ix ≤ j ∧ j < b + ix + remaining then
          some (wrap64 (s + (st.nested_count + range_sum in_n (a + ix) (j - (b + ix) + 1))))
        else st.s[j]?) := by
  intro remaining
  induction remaining with
  | zero =>
    intro ix st st1 h hw
    rw [array_loop] at h
    cases h
    refine ⟨fun h0 => absurd h0 (by omega), rfl, rfl, by simp [range_sum_zero, hw],
      fun j => ?_, fun j => ?_⟩ <;> rw [if_neg (by omega)]
  | succ remaining ih =>
    intro ix st st1 h hw
    have e1 : (a : Int) + (ix : Int) = ((a + ix : Nat) : Int) := by push_cast; rfl
    have e2 : (b : Int) + (ix : Int) = ((b + ix : Nat) : Int) := by push_cast; rfl
    have e3 : (ix : Int) + 1 = ((ix + 1 : Nat) : Int) := by push_cast; rfl
    rw [array_loop, e1, e2, e3, load_natCast] at h
    cases hl : in_n[a + ix]? with
    | none => rw [hl] at h; cases h
    | some v =>
      rw [hl] at h
      simp only [store_natCast] at h
      obtain ⟨hs, hv⟩ := List.getElem?_eq_some.1 hl
      by_cases hb : b + ix < st.n.length
      swap
      · simp only [hb, if_false] at h
        cases h
      simp only [hb, if_true] at h
      by_cases hb2 : b + ix < st.s.length
      swap
      · simp only [hb2, if_false] at h
        cases h
      simp only [hb2, if_true] at h
      obtain ⟨h1, h2, h3, h4, h5, h6⟩ := ih (ix + 1) _ st1 h (wrap64_wrap64 _)
      simp only [List.length_set] at h1 h2 h3
      have hsum1 : range_sum in_n (a + ix) (remaining + 1) =
          v + range_sum in_n (a + (ix + 1)) remaining := by
        rw [range_sum_succ_left _ _ _ hs, hv]; rfl
      refine ⟨fun _ => ?_, h2, h3, ?_, fun j => ?_, fun j => ?_⟩
      · rcases Nat.eq_zero_or_pos remaining with h0 | h0
        · subst h0; omega
        · have := h1 h0; omega
      · rw [h4, hsum1]
        simp only
        rw [wrap64_add_left, Int.add_assoc]
      · rw [h5 j]
        simp only
        by_cases c1 : j = b + ix
        · subst c1
          rw [if_neg (by omega), if_pos (by omega)]
          have : a + (b + ix - b) = a + ix := by omega
          rw [this, hl]
          simp [hb]
        · rw [List.getElem?_set_ne (by omega)]
          by_cases c2 : b + (ix + 1) ≤ j ∧ j < b + (ix + 1) + remaining
          · rw [if_pos c2, if_pos (by omega)]
          · rw [if_neg c2, if_neg (by omega)]
      · rw [h6 j]
        simp only
        by_cases c1 : j = b + ix
        · subst c1
          rw [if_neg (by omega), if_pos (by omega)]
          have : b + ix - (b + ix) + 1 = 0 + 1 := by omega
          rw [this, range_sum_succ_left _ _ _ hs, range_sum_zero, hv,
            List.getElem?_set_self (by omega), wrap64_add_right, Int.add_zero]
        · rw [List.getElem?_set_ne (by omega)]
          by_cases c2 : b + (ix + 1) ≤ j ∧ j < b + (ix + 1) + remaining
          · rw [if_pos c2, if_pos (by omega)]
            have : j - (b + ix) + 1 = (j - (b + (ix + 1)) + 1) + 1 := by omega
            rw [this, range_sum_succ_left _ _ _ hs, hv]
            congr 1
            have : a + ix + 1 = a + (ix + 1) := by omega
            rw [this, wrap64_add_mid]
            congr 1
            ring
          · rw [if_neg c2, if_neg (by omega)]

/-- What a returning Array loop leaves: `nested_count` and the offsets are the exact sums
reduced to `int64_t`. -/
theorem array_rows_spec {in_n out_n out_s : List Int} {a b count : Nat} {s : Int}
    {st1 : array_state}
    (h : array_rows in_n (a : Int) out_n out_s (b : Int) s (count : Int) = some st1) :
    (0 < count → a + count ≤ in_n.length ∧ b + count ≤ out_n.length ∧
      b + count ≤ out_s.length) ∧
    st1.n.length = out_n.length ∧ st1.s.length = out_s.length ∧
    st1.nested_count = wrap64 (range_sum in_n a count) ∧
    (∀ j : Nat, st1.n[j]? = if b ≤ j ∧ j < b + count then in_n[a + (j - b)]? else out_n[j]?) ∧
    (∀ j : Nat, st1.s[j]? =
      if b ≤ j ∧ j < b + count then some (wrap64 (s + range_sum in_n a (j - b + 1)))
      else out_s[j]?) := by
  unfold array_rows at h
  have hc : ¬ ((count : Int) < 0) := by omega
  rw [if_neg hc] at h
  have := array_loop_spec in_n a b s count 0 ⟨out_n, out_s, 0⟩ st1 (by simpa using h)
    wrap64_zero
  simpa using this

/-- What a returning Array loop leaves when the running element counts and the offsets it
writes fit an `int64_t`: the exact sums. -/
theorem array_rows_exact {in_n out_n out_s : List Int} {a b count : Nat} {s : Int}
    {st1 : array_state}
    (hfit : ∀ j, j < count → int64_range (range_sum in_n a (j + 1)) ∧
      int64_range (s + range_sum in_n a (j + 1)))
    (h : array_rows in_n (a : Int) out_n out_s (b : Int) s (count : Int) = some st1) :
    (0 < count → a + count ≤ in_n.length ∧ b + count ≤ out_n.length ∧
      b + count ≤ out_s.length) ∧
    st1.n.length = out_n.length ∧ st1.s.length = out_s.length ∧
    st1.nested_count = range_sum in_n a count ∧
    (∀ j : Nat, st1.n[j]? = if b ≤ j ∧ j < b + count then in_n[a + (j - b)]? else out_n[j]?) ∧
    (∀ j : Nat, st1.s[j]? =
      if b ≤ j ∧ j < b + count then some (s + range_sum in_n a (j - b + 1)) else out_s[j]?) := by
  obtain ⟨q1, q2, q3, q4, q5, q6⟩ := array_rows_spec h
  refine ⟨q1, q2, q3, ?_, q5, fun j => ?_⟩
  · rw [q4]
    rcases Nat.eq_zero_or_pos count with h0 | h0
    · subst h0
      rw [range_sum_zero]
      exact wrap64_zero
    · obtain ⟨c, rfl⟩ : ∃ c, count = c + 1 := ⟨count - 1, by omega⟩
      exact wrap64_of_range (hfit c (by omega)).1
  · rw [q6]
    by_cases hj : b ≤ j ∧ j < b + count
    · rw [if_pos hj, if_pos hj, wrap64_of_range (hfit (j - b) (by omega)).2]
    · rw [if_neg hj, if_neg hj]

/-! ## Rows of the destination below `out_ix` are kept -/

theorem copy_rows_nonneg {α : Type} {src dst dst1 : List α} {in_ix out_ix count : Int}
    (h : copy_rows src in_ix dst out_ix count = some dst1) (hc : count ≠ 0) :
    0 ≤ in_ix ∧ 0 ≤ out_ix ∧ 0 < count := by
  unfold copy_rows at h
  by_cases hn : count < 0
  · rw [if_pos hn] at h; cases h
  · rw [if_neg hn] at h
    have hpos : 0 < count := by omega
    obtain ⟨m, hm⟩ : ∃ m, count.toNat = m + 1 := ⟨count.toNat - 1, by omega⟩
    rw [hm, copy_loop] at h
    split at h
    · cases h
    · rename_i v hl
      split at h
      · cases h
      · rename_i d hs
        have h1 := (load_eq_some hl).1
        have h2 := (store_eq_some hs).1
        simp only [Int.add_zero] at h1 h2
        exact ⟨h1, h2, hpos⟩

theorem array_rows_nonneg {in_n out_n out_s : List Int} {in_ix out_ix s count : Int}
    {st1 : array_state}
    (h : array_rows in_n in_ix out_n out_s out_ix s count = some st1) (hc : count ≠ 0) :
    0 ≤ in_ix ∧ 0 ≤ out_ix ∧ 0 < count := by
  unfold array_rows at h
  by_cases hn : count < 0
  · rw [if_pos hn] at h; cases h
  · rw [if_neg hn] at h
    have hpos : 0 < count := by omega
    obtain ⟨m, hm⟩ : ∃ m, count.toNat = m + 1 := ⟨count.toNat - 1, by omega⟩
    rw [hm, array_loop] at h
    split at h
    · cases h
    · rename_i v hl
      split at h
      · cases h
      · rename_i d hs
        have h1 := (load_eq_some hl).1
        have h2 := (store_eq_some hs).1
        simp only [Int.add_zero] at h1 h2
        exact ⟨h1, h2, hpos⟩

theorem copy_rows_keeps {α : Type} {src dst dst1 : List α} {in_ix count : Int} {k : Nat}
    (h : copy_rows src in_ix dst (k : Int) count = some dst1) (hc : count ≠ 0) :
    dst1.length = dst.length ∧ ∀ i, i < k → dst1[i]? = dst[i]? := by
  obtain ⟨h1, _, h3⟩ := copy_rows_nonneg h hc
  have e1 : in_ix = ((in_ix.toNat : Nat) : Int) := (Int.toNat_of_nonneg h1).symm
  have e2 : count = ((count.toNat : Nat) : Int) := (Int.toNat_of_nonneg (Int.le_of_lt h3)).symm
  rw [e1, e2] at h
  obtain ⟨_, q2, q3⟩ := copy_rows_spec _ _ _ _ _ _ h
  refine ⟨q2, fun i hi => ?_⟩
  rw [q3, if_neg (by omega)]

theorem keeps_rows_refl (rows : Nat) (c : zebra_column_t) : keeps_rows rows c c :=
  ⟨rfl, fun _ _ => rfl⟩

theorem keeps_rows_trans {rows : Nat} {c c1 c2 : zebra_column_t}
    (h1 : keeps_rows rows c c1) (h2 : keeps_rows rows c1 c2) : keeps_rows rows c c2 :=
  ⟨h2.1.trans h1.1, fun i hi => (h2.2 i hi).trans (h1.2 i hi)⟩

/-- The column appender keeps the type, the capacity and the rows below `out_ix` of its
destination, whatever it returns. -/
theorem zebra_append_column_keeps_rows {in_ out out1 : zebra_column_t} {in_ix count : Int}
    {k : Nat} {e : error_t}
    (h : zebra_append_column in_ in_ix out (k : Int) count = some (e, out1)) :
    keeps_rows k out out1 ∧ out1.capacity = out.capacity := by
  rcases zebra_append_column_cases h with h | h | h | h | h | h | h
  · rw [Prod.mk.injEq] at h; rw [h.2.2]; exact ⟨keeps_rows_refl _ _, rfl⟩
  · rw [Prod.mk.injEq] at h; rw [h.2.2.2]; exact ⟨keeps_rows_refl _ _, rfl⟩
  · obtain ⟨hc, src, dst, dst1, rfl, rfl, hr, h⟩ := h
    rw [Prod.mk.injEq] at h
    rw [h.2]
    obtain ⟨q1, q2⟩ := copy_rows_keeps hr hc
    exact ⟨⟨rfl, fun i hi => by simp only [zebra_column_t.cell_at, q2 i hi]⟩, q1⟩
  · obtain ⟨hc, src, dst, dst1, rfl, rfl, hr, h⟩ := h
    rw [Prod.mk.injEq] at h
    rw [h.2]
    obtain ⟨q1, q2⟩ := copy_rows_keeps hr hc
    exact ⟨⟨rfl, fun i hi => by simp only [zebra_column_t.cell_at, q2 i hi]⟩, q1⟩
  · obtain ⟨hc, src, dst, dst1, rfl, rfl, hr, h⟩ := h
    rw [Prod.mk.injEq] at h
    rw [h.2]
    obtain ⟨q1, q2⟩ := copy_rows_keeps hr hc
    exact ⟨⟨rfl, fun i hi => by simp only [zebra_column_t.cell_at, q2 i hi]⟩, q1⟩
  · obtain ⟨hc, in_n, in_s, in_so, in_t, out_n, out_s, out_so, out_t, v_ix, s, st, e1, t1,
      rfl, rfl, _, _, hr, _, h⟩ := h
    rw [Prod.mk.injEq] at h
    rw [h.2]
    obtain ⟨h1, _, h3⟩ := array_rows_nonneg hr hc
    have e1 : in_ix = ((in_ix.toNat : Nat) : Int) := (Int.toNat_of_nonneg h1).symm
    have e2 : count = ((count.toNat : Nat) : Int) :=
      (Int.toNat_of_nonneg (Int.le_of_lt h3)).symm
    rw [e1, e2] at hr
    obtain ⟨_, q2, q3, _, q5, q6⟩ := array_rows_spec hr
    refine ⟨⟨rfl, fun i hi => ?_⟩, ?_⟩
    · simp only [zebra_column_t.cell_at]
      rw [q5 i, q6 i, if_neg (by omega), if_neg (by omega)]
    · simp only [zebra_column_t.capacity, q2, q3]
  · obtain ⟨_, _, _, _, h⟩ := h
    rw [Prod.mk.injEq] at h; rw [h.2]; exact ⟨keeps_rows_refl _ _, rfl⟩

theorem grow_buffer_length {α : Type} [Inhabited α] (buf : List α) (new_len : Int) :
    (grow_buffer buf new_len).length = max buf.length new_len.toNat := by
  simp [grow_buffer]; omega

theorem grow_buffer_getElem? {α : Type} [Inhabited α] (buf : List α) (new_len : Int) (i : Nat)
    (h : i < buf.length) : (grow_buffer buf new_len)[i]? = buf[i]? := by
  simp [grow_buffer, List.getElem?_append_left h]

/-- Growing a column keeps its type and the rows it accommodates, and makes it accommodate
`row_count` rows. -/
theorem zebra_grow_column_keeps_rows (row_count : Int) (c : zebra_column_t) :
    keeps_rows c.capacity c (zebra_grow_column row_count c) ∧
    (c.recognised → (zebra_grow_column row_count c).capacity = max c.capacity row_count.toNat) := by
  cases c with
  | b data =>
    exact ⟨⟨rfl, fun i hi => by
      simp only [zebra_grow_column, zebra_column_t.cell_at, grow_buffer_getElem? _ _ _ hi]⟩,
      fun _ => grow_buffer_length _ _⟩
  | i data =>
    exact ⟨⟨rfl, fun i hi => by
      simp only [zebra_grow_column, zebra_column_t.cell_at, grow_buffer_getElem? _ _ _ hi]⟩,
      fun _ => grow_buffer_length _ _⟩
  | d data =>
    exact ⟨⟨rfl, fun i hi => by
      simp only [zebra_grow_column, zebra_column_t.cell_at, grow_buffer_getElem? _ _ _ hi]⟩,
      fun _ => grow_buffer_length _ _⟩
  | a n s so t =>
    refine ⟨⟨rfl, fun i hi => ?_⟩, fun _ => ?_⟩
    · simp only [zebra_column_t.capacity] at hi
      simp only [zebra_grow_column, zebra_column_t.cell_at]
      rw [grow_buffer_getElem? _ _ _ (by omega), grow_buffer_getElem? _ _ _ (by omega)]
    · simp only [zebra_grow_column, zebra_column_t.capacity, grow_buffer_length]
      omega
  | unrecognised tag =>
    exact ⟨keeps_rows_refl _ _, fun h => absurd h (by simp [zebra_column_t.recognised])⟩

theorem append_columns_keeps_rows (in_ix count : Int) (k : Nat) :
    ∀ (ins outs : List zebra_column_t) (remaining : Nat) (e : error_t) (outs1 : List zebra_column_t),
      append_columns ins in_ix outs (k : Int) count remaining = some (e, outs1) →
      List.Forall₂ (fun c c1 => keeps_rows k c c1 ∧ c1.capacity = c.capacity) outs outs1 := by
  have hrefl : ∀ outs : List zebra_column_t,
      List.Forall₂ (fun c c1 => keeps_rows k c c1 ∧ c1.capacity = c.capacity) outs outs := by
    intro outs
    induction outs with
    | nil => exact List.Forall₂.nil
    | cons c cs ih => exact List.Forall₂.cons ⟨keeps_rows_refl _ _, rfl⟩ ih
  intro ins
  induction ins with
  | nil =>
    intro outs remaining e outs1 h
    cases remaining with
    | zero => rw [append_columns_zero] at h; cases h; exact hrefl _
    | succ remaining => rw [append_columns_nil_left] at h; cases h
  | cons in_c in_rest ih =>
    intro outs remaining e outs1 h
    cases remaining with
    | zero => rw [append_columns_zero] at h; cases h; exact hrefl _
    | succ remaining =>
      cases outs with
      | nil => rw [append_columns_nil_right] at h; cases h
      | cons out_c out_rest =>
        rw [append_columns_succ] at h
        cases hc : zebra_append_column in_c in_ix out_c (k : Int) count with
        | none => rw [hc] at h; cases h
        | some r =>
          obtain ⟨e1, o1⟩ := r
          rw [hc] at h
          simp only at h
          have h1 := zebra_append_column_keeps_rows hc
          by_cases he : e1 = .ZEBRA_SUCCESS
          · rw [if_neg (by simpa using he)] at h
            cases hr : append_columns in_rest in_ix out_rest (k : Int) count remaining with
            | none => rw [hr] at h; cases h
            | some r2 =>
              obtain ⟨e2, o2⟩ := r2
              rw [hr] at h
              cases h
              exact List.Forall₂.cons h1 (ih _ _ _ _ hr)
          · rw [if_pos he] at h
            cases h
            exact List.Forall₂.cons h1 (hrefl _)

theorem forall₂_map_right_of_forall {α β : Type} (R : α → β → Prop) (f : α → β) :
    ∀ l : List α, (∀ x ∈ l, R x (f x)) → List.Forall₂ R l (l.map f) := by
  intro l
  induction l with
  | nil => intro _; exact List.Forall₂.nil
  | cons x xs ih =>
    intro h
    exact List.Forall₂.cons (h x (List.mem_cons_self _ _))
      (ih (fun y hy => h y (List.mem_cons_of_mem _ hy)))

theorem forall₂_trans_mem {α : Type} (R S T : α → α → Prop) :
    ∀ (l1 l2 l3 : List α), (∀ x ∈ l1, ∀ y z, R x y → S y z → T x z) →
      List.Forall₂ R l1 l2 → List.Forall₂ S l2 l3 → List.Forall₂ T l1 l3 := by
  intro l1 l2 l3 h h1
  induction h1 generalizing l3 with
  | nil => intro h2; cases h2; exact List.Forall₂.nil
  | cons hxy _ ih =>
    intro h2
    cases h2 with
    | cons hyz h2 =>
      exact List.Forall₂.cons (h _ (List.mem_cons_self _ _) _ _ hxy hyz)
        (ih _ (fun x hx => h x (List.mem_cons_of_mem _ hx)) h2)

/-- The table appender: row count, column count, and what it keeps of every column of a
destination whose columns accommodate its rows, whatever it returns. -/
theorem zebra_append_table_keeps_rows {in_ out out1 : zebra_table_t} {in_ix count : Int}
    {e : error_t}
    (h_rc : 0 ≤ out.row_count)
    (h_cols : ∀ c ∈ out.columns, c.recognised ∧ out.row_count.toNat ≤ c.capacity)
    (h : zebra_append_table in_ in_ix out count = some (e, out1)) :
    out1.row_count = out.row_count + count ∧ out1.column_count = out.column_count ∧
    List.Forall₂ (fun c c1 => keeps_rows out.row_count.toNat c c1 ∧
      c1.capacity = max c.capacity (out.row_count + count).toNat) out.columns out1.columns := by
  obtain ⟨cs, h1, h2⟩ := zebra_append_table_cases h
  simp only at h2
  subst h2
  refine ⟨rfl, rfl, ?_⟩
  simp only [zebra_table_t.columns]
  have hk : out.row_count = ((out.row_count.toNat : Nat) : Int) :=
    (Int.toNat_of_nonneg h_rc).symm
  rw [hk] at h1
  have q := append_columns_keeps_rows _ _ _ _ _ _ _ _ h1
  rw [← hk] at q
  have g := forall₂_map_right_of_forall
    (fun c c1 => keeps_rows out.row_count.toNat c c1 ∧
      c1.capacity = max c.capacity (out.row_count + count).toNat)
    (zebra_grow_column (out.row_count + count)) out.columns
    (fun c hc => by
      obtain ⟨g1, g2⟩ := zebra_grow_column_keeps_rows (out.row_count + count) c
      obtain ⟨r1, r2⟩ := h_cols c hc
      exact ⟨⟨g1.1, fun i hi => g1.2 i (by omega)⟩, g2 r1⟩)
  refine forall₂_trans_mem _ _ _ _ _ _ ?_ g q
  intro x _ y z hxy hyz
  exact ⟨keeps_rows_trans hxy.1 hyz.1, by rw [hyz.2, hxy.2]⟩

theorem clone_tables_loop_spec (attributes : List zebra_attribute_t) :
    ∀ (remaining c : Nat) (tables : List zebra_table_t) (e : error_t) (tables1 : List zebra_table_t),
      clone_tables_loop attributes remaining (c : Int) tables = some (e, tables1) →
      (0 < remaining → c + remaining ≤ attributes.length ∧ c + remaining ≤ tables.length) ∧
      tables1.length = tables.length ∧
      ∀ j : Nat, tables1[j]? =
        if c ≤ j ∧ j < c + remaining then attributes[j]?.map (fun attr => attr.table)
        else tables[j]? := by
  intro remaining
  induction remaining with
  | zero =>
    intro c tables e tables1 h
    rw [clone_tables_loop] at h
    cases h
    exact ⟨fun h0 => absurd h0 (by omega), rfl, fun j => by rw [if_neg (by omega)]⟩
  | succ remaining ih =>
    intro c tables e tables1 h
    have e3 : (c : Int) + 1 = ((c + 1 : Nat) : Int) := by push_cast; rfl
    rw [clone_tables_loop, load_natCast] at h
    cases hl : attributes[c]? with
    | none => rw [hl] at h; cases h
    | some attr =>
      rw [hl] at h
      simp only [zebra_deep_clone_table, store_natCast, ne_eq, not_true_eq_false,
        if_false] at h
      obtain ⟨hc, _⟩ := List.getElem?_eq_some.1 hl
      by_cases hb : c < tables.length
      swap
      · simp only [hb, if_false] at h
        cases h
      simp only [hb, if_true] at h
      rw [e3] at h
      obtain ⟨h1, h2, h3⟩ := ih _ _ _ _ h
      simp only [List.length_set] at h1 h2
      refine ⟨fun _ => ?_, h2, fun j => ?_⟩
      · rcases Nat.eq_zero_or_pos remaining with h0 | h0
        · subst h0; omega
        · have := h1 h0; omega
      · rw [h3 j]
        by_cases c1 : j = c
        · subst c1
          rw [if_neg (by omega), if_pos (by omega), hl]
          simp [hb]
        · rw [List.getElem?_set_ne (by omega)]
          by_cases c2 : c + 1 ≤ j ∧ j < c + 1 + remaining
          · rw [if_pos c2, if_pos (by omega)]
          · rw [if_neg c2, if_neg (by omega)]

theorem append_tables_loop_spec (attributes : List zebra_attribute_t) :
    ∀ (remaining c : Nat) (tables tables1 : List zebra_table_t),
      append_tables_loop attributes remaining (c : Int) tables =
        some (.ZEBRA_SUCCESS, tables1) →
      tables1.length = tables.length ∧
      ∀ j : Nat,
        (c ≤ j ∧ j < c + remaining →
          ∃ attr block_table block_table1,
            attributes[j]? = some attr ∧ tables[j]? = some block_table ∧
            tables1[j]? = some block_table1 ∧
            zebra_append_table attr.table 0 block_table attr.table.row_count =
              some (.ZEBRA_SUCCESS, block_table1)) ∧
        (¬ (c ≤ j ∧ j < c + remaining) → tables1[j]? = tables[j]?) := by
  intro remaining
  induction remaining with
  | zero =>
    intro c tables tables1 h
    rw [append_tables_loop] at h
    cases h
    exact ⟨rfl, fun j => ⟨fun hj => absurd hj (by omega), fun _ => rfl⟩⟩
  | succ remaining ih =>
    intro c tables tables1 h
    have e3 : (c : Int) + 1 = ((c + 1 : Nat) : Int) := by push_cast; rfl
    rw [append_tables_loop, load_natCast, load_natCast] at h
    cases hl : attributes[c]? with
    | none => rw [hl] at h; cases h
    | some attr =>
      cases hl2 : tables[c]? with
      | none => rw [hl, hl2] at h; cases h
      | some bt =>
        rw [hl, hl2] at h
        simp only at h
        cases ha : zebra_append_table attr.table 0 bt attr.table.row_count with
        | none => rw [ha] at h; cases h
        | some r =>
          obtain ⟨err, bt1⟩ := r
          rw [ha] at h
          simp only at h
          by_cases he : err = .ZEBRA_SUCCESS
          swap
          · rw [if_pos he] at h
            cases h
            exact absurd rfl he
          subst he
          simp only [ne_eq, not_true_eq_false, if_false, Int.toNat_ofNat] at h
          rw [e3] at h
          obtain ⟨h1, h2⟩ := ih _ _ _ h
          simp only [List.length_set] at h1
          obtain ⟨hb, _⟩ := List.getElem?_eq_some.1 hl2
          refine ⟨h1, fun j => ⟨fun hj => ?_, fun hj => ?_⟩⟩
          · by_cases c1 : j = c
            · subst c1
              refine ⟨attr, bt, bt1, hl, hl2, ?_, ha⟩
              rw [(h2 j).2 (by omega)]
              simp [hb]
            · obtain ⟨attr2, b2, b3, q1, q2, q3, q4⟩ := (h2 j).1 (by omega)
              rw [List.getElem?_set_ne (by omega)] at q2
              exact ⟨attr2, b2, b3, q1, q2, q3, q4⟩
          · rw [(h2 j).2 (by omega), List.getElem?_set_ne (by omega)]

theorem append_block_entity_body_tables {entity : zebra_entity_t} {block block1 : zebra_block_t}
    (h : append_block_entity_body entity block = some (.ZEBRA_SUCCESS, block1)) :
    (block.tables = none →
      block1.table_count = entity.attribute_count ∧
      block1.tables = some ((entity.attributes.take entity.attribute_count.toNat).map
        (fun attr => attr.table))) ∧
    (∀ tables, block.tables = some tables →
      block1.table_count = block.table_count ∧
      ∃ tables1, block1.tables = some tables1 ∧ tables1.length = tables.length ∧
        ∀ c, c < block.table_count.toNat →
          ∃ attr block_table block_table1,
            entity.attributes[c]? = some attr ∧ tables[c]? = some block_table ∧
            tables1[c]? = some block_table1 ∧
            zebra_append_table attr.table 0 block_table attr.table.row_count =
              some (.ZEBRA_SUCCESS, block_table1) ∧
            block_table1.row_count = block_table.row_count + attr.table.row_count ∧
            (0 ≤ block_table.row_count →
              (∀ col ∈ block_table.columns,
                col.recognised ∧ block_table.row_count.toNat ≤ col.capacity) →
              List.Forall₂ (keeps_rows block_table.row_count.toNat)
                block_table.columns block_table1.columns)) := by
  obtain ⟨record, entities1, new_row_count, st, tables1, _, _, _, _, hb⟩ :=
    append_block_entity_body_cases h
  have e0 : (0 : Int) = ((0 : Nat) : Int) := rfl
  rcases hb with ⟨tables, ht, hl, hb⟩ | ⟨ht, hl, hb⟩
  · subst hb
    refine ⟨fun hn => ?_, fun tables2 ht2 => ?_⟩
    · rw [ht] at hn
      cases hn
    rw [ht] at ht2
    cases ht2
    rw [e0] at hl
    obtain ⟨q1, q2⟩ := append_tables_loop_spec _ _ _ _ _ hl
    refine ⟨rfl, tables1, rfl, q1, fun c hc => ?_⟩
    obtain ⟨attr, bt, bt1, a1, a2, a3, a4⟩ := (q2 c).1 (by omega)
    refine ⟨attr, bt, bt1, a1, a2, a3, a4, ?_, fun h0 hcols => ?_⟩
    · obtain ⟨cs, _, r2⟩ := zebra_append_table_cases a4
      simp only at r2
      rw [r2]
      rfl
    · have := (zebra_append_table_keeps_rows h0 hcols a4).2.2
      exact List.Forall₂.imp (fun _ _ hx => hx.1) this
  · subst hb
    constructor
    swap
    · intro tables2 ht2
      rw [ht] at ht2
      cases ht2
    intro _
    refine ⟨rfl, ?_⟩
    rw [e0] at hl
    obtain ⟨_, q2, q3⟩ := clone_tables_loop_spec _ _ _ _ _ _ hl
    simp only
    congr 1
    apply List.ext_getElem?
    intro j
    rw [q3 j, List.getElem?_map, List.getElem?_take]
    simp only [anemone_mempool_calloc, Nat.zero_le, true_and, Nat.zero_add]
    by_cases hj : j < entity.attribute_count.toNat
    · rw [if_pos hj, if_pos hj]
    · rw [if_neg hj, if_neg hj, List.getElem?_replicate, if_neg hj]
      rfl

/-- C10: block payload tables, clone on first entity and append afterwards (deep-clone
being an exact copy).  After a successful `zebra_append_block_entity`: when the block had
no tables (an absent block included), `table_count` is `entity.attribute_count` and
`tables[c]` equals `entity.attributes[c].table` for every `c`; when it had tables, for
every `c < table_count` the new `tables[c]` is the old one with all rows of
`entity.attributes[c].table` appended by `zebra_append_table`, its `row_count` has grown
by that table's `row_count`, and the rows it held before are unchanged. -/
theorem zebra_append_block_entity_tables (entity : zebra_entity_t)
    (inout_block : Option zebra_block_t) (block1 : zebra_block_t)
    (h : zebra_append_block_entity entity inout_block = some (.ZEBRA_SUCCESS, some block1)) :
    ((inout_block.getD default).tables = none →
      block1.table_count = entity.attribute_count ∧
      block1.tables = some ((entity.attributes.take entity.attribute_count.toNat).map
        (fun attr => attr.table))) ∧
    (∀ tables, (inout_block.getD default).tables = some tables →
      block1.table_count = (inout_block.getD default).table_count ∧
      ∃ tables1, block1.tables = some tables1 ∧ tables1.length = tables.length ∧
        ∀ c, c < (inout_block.getD default).table_count.toNat →
          ∃ attr block_table block_table1,
            entity.attributes[c]? = some attr ∧ tables[c]? = some block_table ∧
            tables1[c]? = some block_table1 ∧
            zebra_append_table attr.table 0 block_table attr.table.row_count =
              some (.ZEBRA_SUCCESS, block_table1) ∧
            block_table1.row_count = block_table.row_count + attr.table.row_count ∧
            (0 ≤ block_table.row_count →
              (∀ col ∈ block_table.columns,
                col.recognised ∧ block_table.row_count.toNat ≤ col.capacity) →
              List.Forall₂ (keeps_rows block_table.row_count.toNat)
                block_table.columns block_table1.columns)) := by
  cases inout_block with
  | none =>
    rw [zebra_append_block_entity_none] at h
    cases hb : append_block_entity_body entity default with
    | none => rw [hb] at h; cases h
    | some r =>
      obtain ⟨e, b1⟩ := r
      rw [hb] at h
      simp only at h
      by_cases he : e = .ZEBRA_SUCCESS
      · subst he
        simp only [ne_eq, not_true_eq_false, if_false] at h
        cases h
        exact append_block_entity_body_tables hb
      · rw [if_pos he] at h
        cases h
  | some block =>
    by_cases heq : entity.attribute_count = block.table_count
    · rw [zebra_append_block_entity_some entity block heq] at h
      cases hb : append_block_entity_body entity block with
      | none => rw [hb] at h; cases h
      | some r =>
        obtain ⟨e, b1⟩ := r
        rw [hb] at h
        cases h
        exact append_block_entity_body_tables hb
    · rw [zebra_append_block_entity_mismatch entity block heq] at h
      cases h

/-- The end-to-end scenario: after E1 the block's tables are clones of E1's (`tables[1]`
has 2 rows); after E2 `tables[0]` has 1 row and `tables[1]` has 3 rows, each the result
of table-appending E2's table. -/
theorem zebra_append_block_entity_tables_witness :
    zebra_append_block_entity scenario_E1 none = some (.ZEBRA_SUCCESS, some scenario_block_1) ∧
    scenario_block_1.tables =
      some [zebra_table_t.mk 0 1 [.i []], zebra_table_t.mk 2 1 [.i [100, 200]]] ∧
    zebra_append_block_entity scenario_E2 (some scenario_block_1) =
      some (.ZEBRA_SUCCESS, some scenario_block_2) ∧
    scenario_block_2.tables =
      some [zebra_table_t.mk 1 1 [.i [7]], zebra_table_t.mk 3 1 [.i [100, 200, 300]]] ∧
    scenario_block_2.table_count = 2 ∧
    zebra_append_table (.mk 1 1 [.i [300]]) 0 (.mk 2 1 [.i [100, 200]]) 1 =
      some (.ZEBRA_SUCCESS, .mk 3 1 [.i [100, 200, 300]]) := by
  have h1 := (zebra_append_block_entity_tables scenario_E1 none scenario_block_1 rfl).1 rfl
  have h2 := (zebra_append_block_entity_tables scenario_E2 (some scenario_block_1)
    scenario_block_2 rfl).2 _ rfl
  exact ⟨rfl, h1.2, rfl, rfl, h2.1, rfl⟩

theorem zebra_grow_column_type (row_count : Int) (c : zebra_column_t) :
    (zebra_grow_column row_count c).type = c.type := by
  cases c <;> rfl

theorem range_sum_one (l : List Int) (p : Nat) : range_sum l p 1 = l.getD p 0 := by
  unfold range_sum
  rw [List.getD_eq_getElem?_getD]
  by_cases h : p < l.length
  · rw [List.drop_eq_getElem_cons h, List.getElem?_eq_getElem h]
    have : List.take 1 (l[p] :: List.drop (p + 1) l) = [l[p]] := rfl
    rw [this]
    simp
  · rw [List.drop_eq_nil_of_le (by omega), List.getElem?_eq_none (by omega)]
    simp

theorem range_sum_succ (l : List Int) (first len : Nat) :
    range_sum l first (len + 1) = range_sum l first len + l.getD (first + len) 0 := by
  rw [range_sum_add, range_sum_one]

theorem range_sum_nonneg (l : List Int) (first : Nat) :
    ∀ len, (∀ j, j < len → 0 ≤ l.getD (first + j) 0) → 0 ≤ range_sum l first len := by
  intro len
  induction len with
  | zero => intro _; rw [range_sum_zero]
  | succ len ih =>
    intro h
    rw [range_sum_succ]
    have h1 := ih (fun j hj => h j (by omega))
    have h2 := h len (by omega)
    omega

/-- Closed form of the offset invariant: `s[i] = s_offset + n[0] + ... + n[i]`. -/
theorem offsets_closed_form {n s : List Int} {s_offset : Int} {rows : Nat}
    (h : offsets_well_formed n s s_offset rows) :
    ∀ i, i < rows → s.getD i 0 = s_offset + range_sum n 0 (i + 1) := by
  obtain ⟨_, _, h0, hi⟩ := h
  intro i
  induction i with
  | zero =>
    intro hr
    rw [h0 hr, range_sum_succ, range_sum_zero]
    simp
  | succ i ih =>
    intro hr
    rw [hi (i + 1) (by omega) hr, range_sum_succ n 0 (i + 1)]
    simp only [Nat.add_sub_cancel, Nat.zero_add]
    rw [ih (by omega)]
    ring

theorem append_table_row_count_eq {in_ out out1 : zebra_table_t} {in_ix count : Int}
    {e : error_t} (h : zebra_append_table in_ in_ix out count = some (e, out1)) :
    out1.row_count = out.row_count + count := by
  obtain ⟨cs, _, r2⟩ := zebra_append_table_cases h
  simp only at r2
  rw [r2]
  rfl

theorem out_base_closed_form {out_n out_s : List Int} {out_so s : Int} {b : Nat}
    (h : ∀ i, i < b → out_s.getD i 0 = out_so + range_sum out_n 0 (i + 1))
    (hb : out_base out_s out_so (b : Int) = some s) :
    s = out_so + range_sum out_n 0 b := by
  unfold out_base at hb
  rcases Nat.eq_zero_or_pos b with h0 | h0
  · subst h0
    simp only [Nat.cast_zero, gt_iff_lt, lt_self_iff_false, if_false] at hb
    cases hb
    rw [range_sum_zero]
    simp
  · obtain ⟨k, rfl⟩ : ∃ k, b = k + 1 := ⟨b - 1, by omega⟩
    have hpos : ((k + 1 : Nat) : Int) > 0 := by omega
    have e : ((k + 1 : Nat) : Int) - 1 = (k : Int) := by push_cast; ring
    rw [if_pos hpos, e, load_natCast] at hb
    have := h k (by omega)
    rw [List.getD_eq_getElem?_getD, hb] at this
    exact this

theorem array_well_formed_closed {n s : List Int} {s_offset : Int} {table : zebra_table_t}
    {rows : Nat} (h : array_well_formed rows (.a n s s_offset table)) :
    rows ≤ n.length ∧ rows ≤ s.length ∧
    (∀ i, i < rows → s.getD i 0 = s_offset + range_sum n 0 (i + 1)) ∧
    table.row_count = range_sum n 0 rows := by
  obtain ⟨hw, ht⟩ := h
  have hc := offsets_closed_form hw
  refine ⟨hw.1, hw.2.1, hc, ?_⟩
  rw [ht]
  rcases Nat.eq_zero_or_pos rows with h0 | h0
  · subst h0
    rw [if_pos rfl, range_sum_zero]
  · rw [if_neg (by omega), hc (rows - 1) (by omega)]
    have : rows - 1 + 1 = rows := by omega
    rw [this]
    ring

theorem decode_column_a (n s : List Int) (so : Int) (t : zebra_table_t) (i : Nat) :
    decode_column (.a n s so t) i =
      match n[i]?, s[i]? with
      | some ni, some si =>
        .array ((List.range ni.toNat).map (fun k => decode_table t ((si - so - ni).toNat + k)))
      | _, _ => .missing := by
  rw [decode_column]

theorem decode_table_mk (r c : Int) (cols : List zebra_column_t) (j : Nat) :
    decode_table (.mk r c cols) j = decode_columns cols j := by
  rw [decode_table]

theorem column_well_formed_a (n s : List Int) (so : Int) (t : zebra_table_t) (rows : Nat) :
    column_well_formed (.a n s so t) rows ↔
      (offsets_well_formed n s so rows ∧ (∀ i, i < rows → 0 ≤ n.getD i 0) ∧
      (t.row_count = if rows = 0 then 0 else s.getD (rows - 1) 0 - so) ∧
      table_well_formed t) := by
  rw [column_well_formed]

theorem table_well_formed_mk (r c : Int) (cols : List zebra_column_t) :
    table_well_formed (.mk r c cols) ↔
      (0 ≤ r ∧ c = cols.length ∧ columns_well_formed cols r.toNat ∧ r ≤ INT64_MAX) := by
  rw [table_well_formed]

theorem column_append_fits_a (in_n in_s : List Int) (in_so : Int) (in_t : zebra_table_t)
    (out_n out_s : List Int) (out_so : Int) (out_t : zebra_table_t) (in_ix count : Nat) :
    column_append_fits (.a in_n in_s in_so in_t) in_ix (.a out_n out_s out_so out_t) count ↔
      (INT64_MIN ≤ out_so + out_t.row_count ∧
      out_so + out_t.row_count + range_sum in_n in_ix count ≤ INT64_MAX ∧
      table_append_fits in_t (range_sum in_n 0 in_ix).toNat out_t
        (range_sum in_n in_ix count).toNat) := by
  rw [column_append_fits]

theorem table_append_fits_mk (r1 c1 : Int) (cols1 : List zebra_column_t)
    (r2 c2 : Int) (cols2 : List zebra_column_t) (in_ix count : Nat) :
    table_append_fits (.mk r1 c1 cols1) in_ix (.mk r2 c2 cols2) count ↔
      columns_append_fit cols1 in_ix cols2 count := by
  rw [table_append_fits]

theorem columns_append_fit_cons (c : zebra_column_t) (cs : List zebra_column_t)
    (o : zebra_column_t) (os : List zebra_column_t) (in_ix count : Nat) :
    columns_append_fit (c :: cs) in_ix (o :: os) count ↔
      (column_append_fits c in_ix o count ∧ columns_append_fit cs in_ix os count) := by
  rw [columns_append_fit]

theorem column_append_fits_grow (r : Int) (c o : zebra_column_t) (in_ix count : Nat) :
    column_append_fits c in_ix (zebra_grow_column r o) count ↔
      column_append_fits c in_ix o count := by
  cases c <;> cases o <;> simp only [zebra_grow_column, column_append_fits]

theorem columns_append_fit_grow (r : Int) (in_ix count : Nat) :
    ∀ cs os : List zebra_column_t,
      columns_append_fit cs in_ix (os.map (zebra_grow_column r)) count ↔
        columns_append_fit cs in_ix os count := by
  intro cs
  induction cs with
  | nil => intro os; simp only [columns_append_fit]
  | cons c cs ih =>
    intro os
    cases os with
    | nil => simp only [List.map_nil, columns_append_fit]
    | cons o os =>
      rw [List.map_cons, columns_append_fit_cons, columns_append_fit_cons,
        column_append_fits_grow, ih]

theorem same_schema_a (n1 s1 : List Int) (so1 : Int) (t1 : zebra_table_t)
    (n2 s2 : List Int) (so2 : Int) (t2 : zebra_table_t) :
    same_schema (.a n1 s1 so1 t1) (.a n2 s2 so2 t2) ↔ same_schema_table t1 t2 := by
  rw [same_schema]

theorem same_schema_table_mk (r1 c1 : Int) (cols1 : List zebra_column_t)
    (r2 c2 : Int) (cols2 : List zebra_column_t) :
    same_schema_table (.mk r1 c1 cols1) (.mk r2 c2 cols2) ↔
      (c1 = c2 ∧ same_schema_columns cols1 cols2) := by
  rw [same_schema_table]

theorem scalar_decode_aux {α : Type} (mk : List α → zebra_column_t) (val : α → scalar_t)
    (hdec : ∀ data i, decode_column (mk data) i =
      match data[i]? with
      | some v => .scalar (val v)
      | none => .missing)
    {src dst dst1 : List α} {in_ix out_ix count : Nat}
    (hr : copy_rows src (in_ix : Int) dst (out_ix : Int) (count : Int) = some dst1) :
    (∀ i, i < out_ix → decode_column (mk dst1) i = decode_column (mk dst) i) ∧
    (∀ k, k < count →
      decode_column (mk dst1) (out_ix + k) = decode_column (mk src) (in_ix + k)) := by
  obtain ⟨_, _, q⟩ := copy_rows_spec _ _ _ _ _ _ hr
  refine ⟨fun i hi => ?_, fun k hk => ?_⟩
  · rw [hdec, hdec, q, if_neg (by omega)]
  · rw [hdec, hdec, q, if_pos (by omega)]
    have : in_ix + (out_ix + k - out_ix) = in_ix + k := by omega
    rw [this]

theorem getD_grow_buffer (buf : List Int) (new_len : Int) (i : Nat) (h : i < buf.length) :
    (grow_buffer buf new_len).getD i 0 = buf.getD i 0 := by
  rw [List.getD_eq_getElem?_getD, List.getD_eq_getElem?_getD, grow_buffer_getElem? _ _ _ h]

theorem offsets_well_formed_grow {n s : List Int} {so : Int} {rows : Nat} (r : Int)
    (h : offsets_well_formed n s so rows) :
    offsets_well_formed (grow_buffer n r) (grow_buffer s r) so rows := by
  obtain ⟨h1, h2, h3, h4⟩ := h
  refine ⟨?_, ?_, fun h0 => ?_, fun i hi hr => ?_⟩
  · rw [grow_buffer_length]; omega
  · rw [grow_buffer_length]; omega
  · rw [getD_grow_buffer _ _ _ (by omega), getD_grow_buffer _ _ _ (by omega)]
    exact h3 h0
  · rw [getD_grow_buffer _ _ _ (by omega), getD_grow_buffer _ _ _ (by omega),
      getD_grow_buffer _ _ _ (by omega)]
    exact h4 i hi hr

theorem zebra_grow_column_well_formed (r : Int) {c : zebra_column_t} {rows : Nat}
    (h : column_well_formed c rows) : column_well_formed (zebra_grow_column r c) rows := by
  cases c with
  | b data =>
    rw [column_well_formed] at h
    rw [zebra_grow_column, column_well_formed, grow_buffer_length]
    omega
  | i data =>
    rw [column_well_formed] at h
    rw [zebra_grow_column, column_well_formed, grow_buffer_length]
    omega
  | d data =>
    rw [column_well_formed] at h
    rw [zebra_grow_column, column_well_formed, grow_buffer_length]
    omega
  | a n s so t =>
    rw [column_well_formed_a] at h
    obtain ⟨h1, h2, h3, h4⟩ := h
    rw [zebra_grow_column, column_well_formed_a]
    refine ⟨offsets_well_formed_grow r h1, fun i hi => ?_, ?_, h4⟩
    · rw [getD_grow_buffer _ _ _ (by have := h1.1; omega)]
      exact h2 i hi
    · rw [h3]
      rcases Nat.eq_zero_or_pos rows with h0 | h0
      · rw [if_pos h0, if_pos h0]
      · rw [if_neg (by omega), if_neg (by omega),
          getD_grow_buffer _ _ _ (by have := h1.2.1; omega)]
  | unrecognised tag =>
    rw [column_well_formed] at h
    exact h.elim

theorem zebra_grow_column_decode (r : Int) {c : zebra_column_t} {rows : Nat}
    (h : column_well_formed c rows) (i : Nat) (hi : i < rows) :
    decode_column (zebra_grow_column r c) i = decode_column c i := by
  cases c with
  | b data =>
    rw [column_well_formed] at h
    rw [zebra_grow_column, decode_column, decode_column, grow_buffer_getElem? _ _ _ (by omega)]
  | i data =>
    rw [column_well_formed] at h
    rw [zebra_grow_column, decode_column, decode_column, grow_buffer_getElem? _ _ _ (by omega)]
  | d data =>
    rw [column_well_formed] at h
    rw [zebra_grow_column, decode_column, decode_column, grow_buffer_getElem? _ _ _ (by omega)]
  | a n s so t =>
    rw [column_well_formed_a] at h
    obtain ⟨h1, _⟩ := h
    rw [zebra_grow_column, decode_column_a, decode_column_a,
      grow_buffer_getElem? _ _ _ (by have := h1.1; omega),
      grow_buffer_getElem? _ _ _ (by have := h1.2.1; omega)]
  | unrecognised tag =>
    rw [column_well_formed] at h
    exact h.elim

theorem same_schema_grow (r : Int) {c1 c2 : zebra_column_t} (h : same_schema c1 c2) :
    same_schema c1 (zebra_grow_column r c2) := by
  cases c2 with
  | b data => cases c1 <;> simp_all [same_schema, zebra_grow_column]
  | i data => cases c1 <;> simp_all [same_schema, zebra_grow_column]
  | d data => cases c1 <;> simp_all [same_schema, zebra_grow_column]
  | a n s so t => cases c1 <;> simp_all [same_schema, zebra_grow_column]
  | unrecognised tag => cases c1 <;> simp_all [same_schema, zebra_grow_column]

theorem columns_well_formed_cons (c : zebra_column_t) (cs : List zebra_column_t) (rows : Nat) :
    columns_well_formed (c :: cs) rows ↔
      (column_well_formed c rows ∧ columns_well_formed cs rows) := by
  rw [columns_well_formed]

theorem decode_columns_cons (c : zebra_column_t) (cs : List zebra_column_t) (j : Nat) :
    decode_columns (c :: cs) j = decode_column c j :: decode_columns cs j := by
  rw [decode_columns]

theorem same_schema_columns_cons (c1 : zebra_column_t) (cs1 : List zebra_column_t)
    (c2 : zebra_column_t) (cs2 : List zebra_column_t) :
    same_schema_columns (c1 :: cs1) (c2 :: cs2) ↔
      (same_schema c1 c2 ∧ same_schema_columns cs1 cs2) := by
  rw [same_schema_columns]

theorem same_schema_columns_nil_cons (c : zebra_column_t) (cs : List zebra_column_t) :
    ¬ same_schema_columns [] (c :: cs) := by
  intro h
  unfold same_schema_columns at h
  exact h

theorem same_schema_columns_cons_nil (c : zebra_column_t) (cs : List zebra_column_t) :
    ¬ same_schema_columns (c :: cs) [] := by
  intro h
  unfold same_schema_columns at h
  exact h

theorem columns_grow_well_formed (r : Int) (rows : Nat) :
    ∀ cs : List zebra_column_t, columns_well_formed cs rows →
      columns_well_formed (cs.map (zebra_grow_column r)) rows := by
  intro cs
  induction cs with
  | nil => intro h; exact h
  | cons c cs ih =>
    intro h
    rw [columns_well_formed_cons] at h
    rw [List.map_cons, columns_well_formed_cons]
    exact ⟨zebra_grow_column_well_formed r h.1, ih h.2⟩

theorem columns_grow_decode (r : Int) (rows : Nat) :
    ∀ cs : List zebra_column_t, columns_well_formed cs rows → ∀ i, i < rows →
      decode_columns (cs.map (zebra_grow_column r)) i = decode_columns cs i := by
  intro cs
  induction cs with
  | nil => intro _ _ _; rfl
  | cons c cs ih =>
    intro h i hi
    rw [columns_well_formed_cons] at h
    rw [List.map_cons, decode_columns_cons, decode_columns_cons,
      zebra_grow_column_decode r h.1 i hi, ih h.2 i hi]

theorem same_schema_columns_grow (r : Int) :
    ∀ cs1 cs2 : List zebra_column_t, same_schema_columns cs1 cs2 →
      same_schema_columns cs1 (cs2.map (zebra_grow_column r)) := by
  intro cs1
  induction cs1 with
  | nil =>
    intro cs2 h
    cases cs2 with
    | nil => exact h
    | cons c cs => exact absurd h (same_schema_columns_nil_cons _ _)
  | cons c1 cs1 ih =>
    intro cs2 h
    cases cs2 with
    | nil => exact absurd h (same_schema_columns_cons_nil _ _)
    | cons c2 cs2 =>
      rw [same_schema_columns_cons] at h
      rw [List.map_cons, same_schema_columns_cons]
      exact ⟨same_schema_grow r h.1, ih cs2 h.2⟩

theorem append_columns_decode (in_rows in_ix out_ix count : Nat) :
    ∀ ins : List zebra_column_t, (∀ x ∈ ins, column_append_decodes x) →
      ∀ outs outs1 : List zebra_column_t,
      columns_well_formed ins in_rows → columns_well_formed outs out_ix →
      same_schema_columns ins outs → in_ix + count ≤ in_rows →
      columns_append_fit ins in_ix outs count →
      append_columns ins (in_ix : Int) outs (out_ix : Int) (count : Int) ins.length =
        some (.ZEBRA_SUCCESS, outs1) →
      (∀ i, i < out_ix → decode_columns outs1 i = decode_columns outs i) ∧
      (∀ k, k < count → decode_columns outs1 (out_ix + k) = decode_columns ins (in_ix + k)) := by
  intro ins
  induction ins with
  | nil =>
    intro _ outs outs1 _ _ hs _ _ h
    cases outs with
    | nil =>
      rw [List.length_nil, append_columns_zero] at h
      cases h
      exact ⟨fun _ _ => rfl, fun _ _ => rfl⟩
    | cons c cs => exact absurd hs (same_schema_columns_nil_cons _ _)
  | cons x xs ih =>
    intro hP outs outs1 hwi hwo hs hrange hfit h
    cases outs with
    | nil => exact absurd hs (same_schema_columns_cons_nil _ _)
    | cons y ys =>
      rw [columns_well_formed_cons] at hwi hwo
      rw [same_schema_columns_cons] at hs
      rw [columns_append_fit_cons] at hfit
      rw [List.length_cons, append_columns_succ] at h
      cases hc : zebra_append_column x (in_ix : Int) y (out_ix : Int) (count : Int) with
      | none => rw [hc] at h; cases h
      | some r =>
        obtain ⟨e1, y1⟩ := r
        rw [hc] at h
        simp only at h
        by_cases he : e1 = .ZEBRA_SUCCESS
        swap
        · rw [if_pos he] at h
          cases h
          exact absurd rfl he
        subst he
        rw [if_neg (by simp)] at h
        cases hr : append_columns xs (in_ix : Int) ys (out_ix : Int) (count : Int) xs.length with
        | none => rw [hr] at h; cases h
        | some r2 =>
          obtain ⟨e2, ys1⟩ := r2
          rw [hr] at h
          cases h
          obtain ⟨p1, p2⟩ := hP x (List.mem_cons_self _ _) y y1 in_rows in_ix out_ix count
            hwi.1 hwo.1 hs.1 hrange hfit.1 hc
          obtain ⟨q1, q2⟩ := ih (fun z hz => hP z (List.mem_cons_of_mem _ hz)) ys ys1
            hwi.2 hwo.2 hs.2 hrange hfit.2 hr
          refine ⟨fun i hi => ?_, fun k hk => ?_⟩
          · rw [decode_columns_cons, decode_columns_cons, p1 i hi, q1 i hi]
          · rw [decode_columns_cons, decode_columns_cons, p2 k hk, q2 k hk]

theorem table_append_decodes_of_columns (r c : Int) (cols : List zebra_column_t)
    (hP : ∀ x ∈ cols, column_append_decodes x) : table_append_decodes (.mk r c cols) := by
  intro out out1 in_ix count hwi hwo hs hrange hfit h
  cases out with
  | mk r2 c2 cols2 =>
    rw [table_well_formed_mk] at hwi hwo
    rw [same_schema_table_mk] at hs
    rw [table_append_fits_mk] at hfit
    obtain ⟨_, hc, hwc, _⟩ := hwi
    obtain ⟨hr2, _, hwc2, _⟩ := hwo
    obtain ⟨cs1, h1, h2⟩ := zebra_append_table_cases h
    simp only [zebra_table_t.columns, zebra_table_t.row_count, zebra_table_t.column_count]
      at h1 h2 hrange ⊢
    subst h2
    have e1 : c.toNat = cols.length := by rw [hc]; rfl
    have e2 : r2 = ((r2.toNat : Nat) : Int) := (Int.toNat_of_nonneg hr2).symm
    rw [e1] at h1
    have h1' : append_columns cols (in_ix : Int)
        (cols2.map (zebra_grow_column (r2 + count))) ((r2.toNat : Nat) : Int) (count : Int)
        cols.length = some (.ZEBRA_SUCCESS, cs1) := by
      rw [← e2]; exact h1
    obtain ⟨q1, q2⟩ := append_columns_decode r.toNat in_ix r2.toNat count cols hP _ cs1 hwc
      (columns_grow_well_formed _ _ _ hwc2) (same_schema_columns_grow _ _ _ hs.2) hrange
      ((columns_append_fit_grow _ _ _ _ _).2 hfit) h1'
    refine ⟨fun j hj => ?_, fun k hk => ?_⟩
    · rw [decode_table_mk, decode_table_mk, q1 j hj, columns_grow_decode _ _ _ hwc2 j hj]
    · rw [decode_table_mk, decode_table_mk, q2 k hk]

theorem value_in_ix_closed_form {in_n in_s : List Int} {in_so v : Int} {a rows : Nat}
    (h : ∀ i, i < rows → in_s.getD i 0 = in_so + range_sum in_n 0 (i + 1))
    (ha : a ≤ rows)
    (hv : value_in_ix in_s in_so (a : Int) = some v) :
    v = range_sum in_n 0 a := by
  unfold value_in_ix at hv
  rcases Nat.eq_zero_or_pos a with h0 | h0
  · subst h0
    simp only [Nat.cast_zero, gt_iff_lt, lt_self_iff_false, if_false] at hv
    cases hv
    rw [range_sum_zero]
  · obtain ⟨k, rfl⟩ : ∃ k, a = k + 1 := ⟨a - 1, by omega⟩
    have hpos : ((k + 1 : Nat) : Int) > 0 := by omega
    have e : ((k + 1 : Nat) : Int) - 1 = (k : Int) := by push_cast; ring
    rw [if_pos hpos, e, load_natCast] at hv
    have hk := h k (by omega)
    rw [List.getD_eq_getElem?_getD] at hk
    cases hl : in_s[k]? with
    | none => rw [hl] at hv; cases hv
    | some w =>
      rw [hl] at hv hk
      simp only [Option.getD_some] at hk
      cases hv
      rw [hk]
      ring

theorem range_sum_le (l : List Int) (first len1 len2 : Nat) (hlen : len1 ≤ len2)
    (h : ∀ i, i < first + len2 → 0 ≤ l.getD i 0) :
    range_sum l first len1 ≤ range_sum l first len2 := by
  obtain ⟨d, rfl⟩ : ∃ d, len2 = len1 + d := ⟨len2 - len1, by omega⟩
  rw [range_sum_add]
  have := range_sum_nonneg l (first + len1) d (fun j hj => h _ (by omega))
  omega

theorem same_schema_type {c1 c2 : zebra_column_t} (h : same_schema c1 c2) :
    c1.type = c2.type := by
  cases c1 <;> cases c2 <;> first | rfl | (unfold same_schema at h; exact h.elim)

theorem table_well_formed_row_count {t : zebra_table_t} (h : table_well_formed t) :
    0 ≤ t.row_count ∧ t.row_count ≤ INT64_MAX := by
  cases t with
  | mk r c cols =>
    rw [table_well_formed_mk] at h
    exact ⟨h.1, h.2.2.2⟩

theorem column_append_decodes_a (n s : List Int) (so : Int) (t : zebra_table_t)
    (ih : table_append_decodes t) : column_append_decodes (.a n s so t) := by
  intro out out1 in_rows in_ix out_ix count hwi hwo hs hrange hfit h
  cases out with
  | a o_n o_s o_so o_t =>
    rw [column_well_formed_a] at hwi hwo
    rw [same_schema_a] at hs
    rw [column_append_fits_a] at hfit
    obtain ⟨f1, f2, f3⟩ := hfit
    obtain ⟨wi1, wi2, wi3, wi4⟩ := hwi
    obtain ⟨wo1, wo2, wo3, wo4⟩ := hwo
    have awi : array_well_formed in_rows (.a n s so t) := ⟨wi1, wi3⟩
    have awo : array_well_formed out_ix (.a o_n o_s o_so o_t) := ⟨wo1, wo3⟩
    obtain ⟨li1, li2, ci, t_in⟩ := array_well_formed_closed awi
    obtain ⟨lo1, lo2, co, t_out⟩ := array_well_formed_closed awo
    rcases zebra_append_column_cases h with q | q | q | q | q | q | q
    · rw [Prod.mk.injEq] at q
      cases q.2.1
    · obtain ⟨_, hc, q⟩ := q
      rw [Prod.mk.injEq] at q
      rw [q.2]
      exact ⟨fun _ _ => rfl, fun k hk => absurd hk (by omega)⟩
    · obtain ⟨_, _, _, _, q, _⟩ := q; cases q
    · obtain ⟨_, _, _, _, q, _⟩ := q; cases q
    · obtain ⟨_, _, _, _, q, _⟩ := q; cases q
    · obtain ⟨hc, in_n, in_s, in_so, in_t, p_n, p_s, p_so, p_t, v_ix, sb, st, e, t1,
        hi, ho, hv, hb, hr, ha, q⟩ := q
      cases hi
      cases ho
      rw [Prod.mk.injEq] at q
      obtain ⟨he, q⟩ := q
      subst q
      subst he
      have hpos : 0 < count := by omega
      have hsb := out_base_closed_form co hb
      have hvx := value_in_ix_closed_form ci (by omega) hv
      -- sizes of the ranges involved, all sums of non-negative element counts
      have nn : ∀ first len, first + len ≤ in_rows → 0 ≤ range_sum n first len :=
        fun first len hl => range_sum_nonneg n first len (fun j hj => wi2 _ (by omega))
      have hexact : ∀ j, j < count → int64_range (range_sum n in_ix (j + 1)) ∧
          int64_range (sb + range_sum n in_ix (j + 1)) := by
        intro j hj
        have g0 := nn in_ix (j + 1) (by omega)
        have g1 : range_sum n in_ix (j + 1) ≤ range_sum n in_ix count :=
          range_sum_le n in_ix _ _ (by omega) (fun i hi => wi2 i (by omega))
        have g2 := range_sum_add n 0 in_ix count
        have g3 := nn 0 in_ix (by omega)
        have g4 : range_sum n 0 (in_ix + count) ≤ range_sum n 0 in_rows :=
          range_sum_le n 0 _ _ hrange (fun i hi => wi2 i (by omega))
        have g5 := (table_well_formed_row_count wi4).2
        rw [Nat.zero_add] at g2
        rw [t_out] at f1 f2
        rw [t_in] at g5
        simp only [int64_range, INT64_MIN, INT64_MAX] at f1 f2 g5 ⊢
        omega
      obtain ⟨q1, q2, q3, q4, q5, q6⟩ := array_rows_exact hexact hr
      have nno : ∀ first len, first + len ≤ out_ix → 0 ≤ range_sum o_n first len :=
        fun first len hl => range_sum_nonneg o_n first len (fun j hj => wo2 _ (by omega))
      have hv0 : 0 ≤ v_ix := by rw [hvx]; exact nn 0 in_ix (by omega)
      have hn0 : 0 ≤ st.nested_count := by rw [q4]; exact nn in_ix count (by omega)
      have hsum : range_sum n 0 (in_ix + count) = v_ix + st.nested_count := by
        rw [range_sum_add n 0 in_ix count, Nat.zero_add, hvx, q4]
      have hle : range_sum n 0 (in_ix + count) ≤ range_sum n 0 in_rows :=
        range_sum_le n 0 _ _ hrange (fun i hi => wi2 i (by omega))
      have hto0 : 0 ≤ o_t.row_count := by rw [t_out]; exact nno 0 out_ix (by omega)
      have ha1 : zebra_append_table t ((v_ix.toNat : Nat) : Int) o_t
          ((st.nested_count.toNat : Nat) : Int) = some (.ZEBRA_SUCCESS, t1) := by
        rw [Int.toNat_of_nonneg hv0, Int.toNat_of_nonneg hn0]
        exact ha
      obtain ⟨d1, d2⟩ := ih o_t t1 v_ix.toNat st.nested_count.toNat wi4 wo4 hs
        (by omega) (by rw [hvx, q4]; exact f3) ha1
      refine ⟨fun i hi => ?_, fun k hk => ?_⟩
      · -- a row the destination held before: same `n`, `s`, and nested rows below the
        -- old nested `row_count`
        have hin : i < o_n.length := by omega
        have his : i < o_s.length := by omega
        have hci := co i hi
        rw [List.getD_eq_getElem o_s 0 his] at hci
        have hsucc := range_sum_succ o_n 0 i
        rw [Nat.zero_add, List.getD_eq_getElem o_n 0 hin] at hsucc
        have hR0 := nno 0 i (by omega)
        have hR1 : range_sum o_n 0 (i + 1) ≤ range_sum o_n 0 out_ix :=
          range_sum_le o_n 0 _ _ (by omega) (fun j hj => wo2 j (by omega))
        rw [decode_column_a, decode_column_a, q5 i, q6 i, if_neg (by omega), if_neg (by omega),
          List.getElem?_eq_getElem hin, List.getElem?_eq_getElem his]
        simp only
        congr 1
        apply List.map_congr_left
        intro m hm
        rw [List.mem_range] at hm
        exact d1 _ (by omega)
      · -- an appended row: `n` is the source's, the nested rows are the appended ones
        have hin : in_ix + k < n.length := by omega
        have his : in_ix + k < s.length := by omega
        have hci := ci (in_ix + k) (by omega)
        rw [List.getD_eq_getElem s 0 his] at hci
        have hsucc := range_sum_succ n in_ix k
        rw [List.getD_eq_getElem n 0 hin] at hsucc
        have hsucc0 := range_sum_succ n 0 (in_ix + k)
        rw [Nat.zero_add, List.getD_eq_getElem n 0 hin] at hsucc0
        have hsplit := range_sum_add n 0 in_ix k
        rw [Nat.zero_add] at hsplit
        have hp0 := nn in_ix k (by omega)
        have hp1 : range_sum n in_ix (k + 1) ≤ range_sum n in_ix count :=
          range_sum_le n in_ix _ _ (by omega) (fun j hj => wi2 j (by omega))
        have ex1 : in_ix + (out_ix + k - out_ix) = in_ix + k := by omega
        have ex2 : out_ix + k - out_ix + 1 = k + 1 := by omega
        rw [decode_column_a, decode_column_a, q5, q6, if_pos (by omega), if_pos (by omega),
          ex1, ex2, List.getElem?_eq_getElem hin, List.getElem?_eq_getElem his]
        simp only
        congr 1
        apply List.map_congr_left
        intro m hm
        rw [List.mem_range] at hm
        have e1 : (sb + range_sum n in_ix (k + 1) - o_so - n[in_ix + k]).toNat + m =
            o_t.row_count.toNat + ((range_sum n in_ix k).toNat + m) := by omega
        have e2 : (s[in_ix + k] - so - n[in_ix + k]).toNat + m =
            v_ix.toNat + ((range_sum n in_ix k).toNat + m) := by omega
        rw [e1, e2]
        exact d2 _ (by omega)
    · obtain ⟨_, _, q, _⟩ := q; cases q
  | b _ => exact absurd (same_schema_type hs) (by simp [zebra_column_t.type])
  | i _ => exact absurd (same_schema_type hs) (by simp [zebra_column_t.type])
  | d _ => exact absurd (same_schema_type hs) (by simp [zebra_column_t.type])
  | unrecognised _ => exact absurd (same_schema_type hs) (by simp [zebra_column_t.type])

theorem column_append_decodes_b (src : List Nat) : column_append_decodes (.b src) := by
  intro out out1 in_rows in_ix out_ix count _ _ hs _ _ h
  rcases zebra_append_column_cases h with q | q | q | q | q | q | q
  · rw [Prod.mk.injEq] at q; cases q.2.1
  · obtain ⟨_, hc, q⟩ := q
    rw [Prod.mk.injEq] at q
    rw [q.2]
    exact ⟨fun _ _ => rfl, fun k hk => absurd hk (by omega)⟩
  · obtain ⟨_, src1, dst, dst1, hi, ho, hr, q⟩ := q
    cases hi
    rw [Prod.mk.injEq] at q
    rw [q.2, ho]
    exact scalar_decode_aux zebra_column_t.b scalar_t.byte
      (fun data i => by rw [decode_column]; cases data[i]? <;> rfl) hr
  · obtain ⟨_, _, _, _, q, _⟩ := q; cases q
  · obtain ⟨_, _, _, _, q, _⟩ := q; cases q
  · obtain ⟨_, _, _, _, _, _, _, _, _, _, _, _, _, _, q, _⟩ := q; cases q
  · obtain ⟨_, _, q, _⟩ := q; cases q

theorem column_append_decodes_i (src : List Int) : column_append_decodes (.i src) := by
  intro out out1 in_rows in_ix out_ix count _ _ hs _ _ h
  rcases zebra_append_column_cases h with q | q | q | q | q | q | q
  · rw [Prod.mk.injEq] at q; cases q.2.1
  · obtain ⟨_, hc, q⟩ := q
    rw [Prod.mk.injEq] at q
    rw [q.2]
    exact ⟨fun _ _ => rfl, fun k hk => absurd hk (by omega)⟩
  · obtain ⟨_, _, _, _, q, _⟩ := q; cases q
  · obtain ⟨_, src1, dst, dst1, hi, ho, hr, q⟩ := q
    cases hi
    rw [Prod.mk.injEq] at q
    rw [q.2, ho]
    exact scalar_decode_aux zebra_column_t.i scalar_t.int
      (fun data i => by rw [decode_column]; cases data[i]? <;> rfl) hr
  · obtain ⟨_, _, _, _, q, _⟩ := q; cases q
  · obtain ⟨_, _, _, _, _, _, _, _, _, _, _, _, _, _, q, _⟩ := q; cases q
  · obtain ⟨_, _, q, _⟩ := q; cases q

theorem column_append_decodes_d (src : List Nat) : column_append_decodes (.d src) := by
  intro out out1 in_rows in_ix out_ix count _ _ hs _ _ h
  rcases zebra_append_column_cases h with q | q | q | q | q | q | q
  · rw [Prod.mk.injEq] at q; cases q.2.1
  · obtain ⟨_, hc, q⟩ := q
    rw [Prod.mk.injEq] at q
    rw [q.2]
    exact ⟨fun _ _ => rfl, fun k hk => absurd hk (by omega)⟩
  · obtain ⟨_, _, _, _, q, _⟩ := q; cases q
  · obtain ⟨_, _, _, _, q, _⟩ := q; cases q
  · obtain ⟨_, src1, dst, dst1, hi, ho, hr, q⟩ := q
    cases hi
    rw [Prod.mk.injEq] at q
    rw [q.2, ho]
    exact scalar_decode_aux zebra_column_t.d scalar_t.double
      (fun data i => by rw [decode_column]; cases data[i]? <;> rfl) hr
  · obtain ⟨_, _, _, _, _, _, _, _, _, _, _, _, _, _, q, _⟩ := q; cases q
  · obtain ⟨_, _, q, _⟩ := q; cases q

theorem append_decodes_both :
    (∀ c, column_append_decodes c) ∧ (∀ t, table_append_decodes t) := by
  apply column_table_induction
  · exact column_append_decodes_b
  · exact column_append_decodes_i
  · exact column_append_decodes_d
  · exact column_append_decodes_a
  · intro tag out out1 in_rows in_ix out_ix count hwi
    rw [column_well_formed] at hwi
    exact hwi.elim
  · exact table_append_decodes_of_columns

/-- C2, amended: Array append copies the logical rows, at every nesting depth.  For a
well-formed source column (any `s_offset`), a well-formed destination column of the same schema
holding exactly `out_ix` rows, a range `in_ix`, `count` inside the source, and offsets
to be written that fit an `int64_t` at every depth (`column_append_fits`), after a
successful `zebra_append_column (in, in_ix, out, out_ix, count)` the decoded rows of the
destination are its original decoded rows `0 .. out_ix - 1`, unchanged, followed by the
source's decoded rows `in_ix .. in_ix + count - 1` in order. -/
theorem zebra_append_column_decoded_rows (in_ out out1 : zebra_column_t)
    (in_rows in_ix out_ix count : Nat)
    (h_in : column_well_formed in_ in_rows) (h_out : column_well_formed out out_ix)
    (h_schema : same_schema in_ out) (h_range : in_ix + count ≤ in_rows)
    (h_fits : column_append_fits in_ in_ix out count)
    (h : zebra_append_column in_ (in_ix : Int) out (out_ix : Int) (count : Int) =
      some (.ZEBRA_SUCCESS, out1)) :
    (∀ i, i < out_ix → decode_column out1 i = decode_column out i) ∧
    (∀ k, k < count → decode_column out1 (out_ix + k) = decode_column in_ (in_ix + k)) :=
  append_decodes_both.1 in_ out out1 in_rows in_ix out_ix count h_in h_out h_schema h_range
    h_fits h

theorem nested_source_well_formed : column_well_formed nested_source 3 := by
  unfold nested_source
  rw [column_well_formed_a, table_well_formed_mk, columns_well_formed_cons,
    columns_well_formed_cons, column_well_formed_a, table_well_formed_mk,
    columns_well_formed_cons]
  refine ⟨⟨by decide, by decide, fun _ => by decide, fun i h1 h2 => ?_⟩,
    fun i hi => ?_, by decide, by decide, by decide, ⟨?_, ?_, trivial⟩, by decide⟩
  · interval_cases i <;> decide
  · interval_cases i <;> decide
  · rw [column_well_formed]; decide
  · refine ⟨⟨by decide, by decide, fun _ => by decide, fun i h1 h2 => ?_⟩,
      fun i hi => ?_, by decide, by decide, by decide, ⟨?_, ?_⟩, by decide⟩
    · have : i < 5 := h2
      interval_cases i <;> decide
    · have : i < 5 := hi
      interval_cases i <;> decide
    · rw [column_well_formed]; decide
    · rw [columns_well_formed]; trivial

theorem nested_destination_well_formed : column_well_formed nested_destination 1 := by
  unfold nested_destination
  rw [column_well_formed_a, table_well_formed_mk, columns_well_formed_cons,
    columns_well_formed_cons, column_well_formed_a, table_well_formed_mk,
    columns_well_formed_cons]
  refine ⟨⟨by decide, by decide, fun _ => by decide, fun i h1 h2 => ?_⟩,
    fun i hi => ?_, by decide, by decide, by decide, ⟨?_, ?_, trivial⟩, by decide⟩
  · omega
  · interval_cases i; decide
  · rw [column_well_formed]; decide
  · refine ⟨⟨by decide, by decide, fun _ => by decide, fun i h1 h2 => ?_⟩,
      fun i hi => ?_, by decide, by decide, by decide, ⟨?_, ?_⟩, by decide⟩
    · have : i < 1 := h2
      omega
    · have : i < 1 := hi
      interval_cases i; decide
    · rw [column_well_formed]; decide
    · rw [columns_well_formed]; trivial

theorem nested_same_schema : same_schema nested_source nested_destination := by
  unfold nested_source nested_destination
  rw [same_schema_a, same_schema_table_mk, same_schema_columns_cons, same_schema_columns_cons,
    same_schema_a, same_schema_table_mk, same_schema_columns_cons]
  refine ⟨rfl, ?_, ⟨rfl, ?_, ?_⟩, ?_⟩
  · rw [same_schema]; trivial
  · rw [same_schema]; trivial
  · rw [same_schema_columns]; trivial
  · rw [same_schema_columns]; trivial

theorem nested_fits : column_append_fits nested_source 1 nested_destination 2 := by
  unfold nested_source nested_destination
  rw [column_append_fits_a, table_append_fits_mk, columns_append_fit_cons,
    columns_append_fit_cons, column_append_fits_a, table_append_fits_mk,
    columns_append_fit_cons]
  refine ⟨by decide, by decide, ?_, ⟨by decide, by decide, ?_, ?_⟩, ?_⟩
  · simp only [column_append_fits]
  · simp only [column_append_fits]
  · simp only [columns_append_fit]
  · simp only [columns_append_fit]

/-- Rows 1 and 2 of `nested_source` (offsets based at 5) appended onto the one row of
`nested_destination` (offsets based at 100): the destination decodes to its old row 0
followed by the source's rows 1 and 2, two levels deep. -/
theorem zebra_append_column_decoded_rows_witness :
    zebra_append_column nested_source 1 nested_destination 1 2 =
      some (.ZEBRA_SUCCESS, nested_result) ∧
    (∀ i, i < 1 → decode_column nested_result i = decode_column nested_destination i) ∧
    (∀ k, k < 2 → decode_column nested_result (1 + k) = decode_column nested_source (1 + k)) ∧
    decode_column nested_source 2 =
      .array [[.scalar (.int 40), .array [[.scalar (.byte 4)]]],
              [.scalar (.int 50), .array [[.scalar (.byte 5)]]]] :=
  ⟨rfl,
    (zebra_append_column_decoded_rows nested_source nested_destination nested_result 3 1 1 2
      nested_source_well_formed nested_destination_well_formed nested_same_schema
      (by decide) nested_fits rfl).1,
    (zebra_append_column_decoded_rows nested_source nested_destination nested_result 3 1 1 2
      nested_source_well_formed nested_destination_well_formed nested_same_schema
      (by decide) nested_fits rfl).2,
    rfl⟩

/-! ## Zero count and unrecognised type tags -/

/-- C14: zero-count append is a no-op.  For a source and a destination of the same type
tag, whatever the tag (Byte, Int, Double, Array or unrecognised) and whatever `in_ix`
and `out_ix`, `zebra_append_column` with `count = 0` returns success and leaves the
destination column as it is: for an Array column `n`, `s`, `s_offset` and the nested
table, its `row_count` included, are those of before. -/
theorem zebra_append_column_zero_count (in_ out_into : zebra_column_t) (in_ix out_ix : Int)
    (h_type : in_.type = out_into.type) :
    zebra_append_column in_ in_ix out_into out_ix 0 = some (.ZEBRA_SUCCESS, out_into) :=
  zebra_append_column_zero in_ out_into in_ix out_ix h_type

/-- A zero-count append onto the Array column `nested_destination`, and one between two
columns of the unrecognised tag 9, at arbitrary indices: success, destination as before. -/
theorem zebra_append_column_zero_count_witness :
    zebra_append_column nested_source 7 nested_destination 5 0 =
      some (.ZEBRA_SUCCESS, nested_destination) ∧
    zebra_append_column (.unrecognised 9) (-3) (.unrecognised 9) 100 0 =
      some (.ZEBRA_SUCCESS, .unrecognised 9) :=
  ⟨zebra_append_column_zero_count nested_source nested_destination 7 5 rfl,
    zebra_append_column_zero_count (.unrecognised 9) (.unrecognised 9) (-3) 100 rfl⟩

/-- C19 as stated is false: two columns of the same unrecognised tag and `count = 0`
give success, by the zero-count return of line 38 that precedes the switch. -/
theorem zebra_append_column_unknown_tag_counterexample :
    zebra_column_t.type (.unrecognised 9) = zebra_column_t.type (.unrecognised 9) ∧
    ¬ zebra_column_t.recognised (.unrecognised 9) ∧
    zebra_append_column (.unrecognised 9) 0 (.unrecognised 9) 0 0 =
      some (.ZEBRA_SUCCESS, .unrecognised 9) :=
  ⟨rfl, fun h => h, rfl⟩

/-- C19, amended: for a source and a destination that carry the same type tag, not one of
Byte, Int, Double, Array, and for every `in_ix`, `out_ix` and every `count` other than 0,
`zebra_append_column` fails with `InvalidColumnType` and writes nothing to the
destination. -/
theorem zebra_append_column_unknown_tag (in_ out_into : zebra_column_t)
    (in_ix out_ix count : Int)
    (h_type : in_.type = out_into.type) (h_tag : ¬ in_.recognised) (h_count : count ≠ 0) :
    zebra_append_column in_ in_ix out_into out_ix count =
      some (.ZEBRA_INVALID_COLUMN_TYPE, out_into) := by
  cases in_ with
  | unrecognised tag =>
    cases out_into with
    | unrecognised tag1 =>
      have : tag = tag1 := by simpa [zebra_column_t.type] using h_type
      subst this
      exact zebra_append_column_unrecognised tag in_ix out_ix count h_count
    | _ => simp [zebra_column_t.type] at h_type
  | _ => exact absurd trivial h_tag

/-- Two columns of the unrecognised tag 9, three rows asked for: `InvalidColumnType`. -/
theorem zebra_append_column_unknown_tag_witness :
    zebra_append_column (.unrecognised 9) 0 (.unrecognised 9) 0 3 =
      some (.ZEBRA_INVALID_COLUMN_TYPE, .unrecognised 9) :=
  zebra_append_column_unknown_tag (.unrecognised 9) (.unrecognised 9) 0 0 3 rfl
    (fun h => h) (by decide)

/-! ## Source offsets enter only through `s[i] - s_offset` -/

theorem load_map {α β : Type} (f : α → β) (buf : List α) (ix : Int) :
    load (buf.map f) ix = (load buf ix).map f := by
  unfold load
  split
  · rw [List.getElem?_map]
  · rfl

theorem value_in_ix_shift (in_s : List Int) (in_so d in_ix : Int) :
    value_in_ix (in_s.map (fun v => v + d)) (in_so + d) in_ix = value_in_ix in_s in_so in_ix := by
  unfold value_in_ix
  split
  · rw [load_map]
    cases load in_s (in_ix - 1) with
    | none => rfl
    | some v =>
      simp only [Option.map_some']
      congr 1
      omega
  · rfl

theorem zebra_append_column_shift (n s : List Int) (so d : Int) (t : zebra_table_t)
    (out : zebra_column_t) (in_ix out_ix count : Int) :
    zebra_append_column (.a n (s.map (fun v => v + d)) (so + d) t) in_ix out out_ix count =
      zebra_append_column (.a n s so t) in_ix out out_ix count := by
  by_cases ht : zebra_column_t.type (.a n s so t) = out.type
  swap
  · rw [zebra_append_column_type_ne (.a n s so t) _ _ _ _ ht,
      zebra_append_column_type_ne (.a n (s.map (fun v => v + d)) (so + d) t) _ _ _ _ ht]
  by_cases hc : count = 0
  · subst hc
    rw [zebra_append_column_zero (.a n s so t) _ _ _ ht,
      zebra_append_column_zero (.a n (s.map (fun v => v + d)) (so + d) t) _ _ _ ht]
  cases out with
  | a o_n o_s o_so o_t =>
    rw [zebra_append_column_a _ _ _ _ _ _ _ _ _ _ _ hc,
      zebra_append_column_a _ _ _ _ _ _ _ _ _ _ _ hc, value_in_ix_shift]
  | _ => simp [zebra_column_t.type] at ht

theorem map_add_of_getD (s1 s2 : List Int) (d : Int) (h_len : s2.length = s1.length)
    (h : ∀ i, i < s1.length → s2.getD i 0 = s1.getD i 0 + d) :
    s2 = s1.map (fun v => v + d) := by
  apply List.ext_getElem?
  intro i
  rw [List.getElem?_map]
  by_cases hi : i < s1.length
  · have h2 : i < s2.length := by omega
    have := h i hi
    rw [List.getD_eq_getElem s2 0 h2, List.getD_eq_getElem s1 0 hi] at this
    rw [List.getElem?_eq_getElem h2, List.getElem?_eq_getElem hi, this]
    rfl
  · rw [List.getElem?_eq_none (by omega), List.getElem?_eq_none (by omega)]
    rfl

/-- C16: source and destination offset spaces are independent.  Two source Array columns
with the same `n` and the same nested table, whose `s_offset` and `s` entries differ by a
common shift `d`, give the same result of `zebra_append_column` (the same error code and
the same destination column, or the same fault) for every destination column, `in_ix`,
`out_ix` and `count`. -/
theorem zebra_append_column_offset_independent (n s1 s2 : List Int) (s1_offset s2_offset d : Int)
    (table : zebra_table_t) (out_into : zebra_column_t) (in_ix out_ix count : Int)
    (h_offset : s2_offset = s1_offset + d) (h_len : s2.length = s1.length)
    (h_shift : ∀ i, i < s1.length → s2.getD i 0 = s1.getD i 0 + d) :
    zebra_append_column (.a n s2 s2_offset table) in_ix out_into out_ix count =
      zebra_append_column (.a n s1 s1_offset table) in_ix out_into out_ix count := by
  rw [map_add_of_getD s1 s2 d h_len h_shift, h_offset]
  exact zebra_append_column_shift n s1 s1_offset d table out_into in_ix out_ix count

/-- The source `nested_source` (offsets based at 5) and its copy with every offset
shifted by 1000 append the same rows onto `nested_destination`. -/
theorem zebra_append_column_offset_independent_witness :
    zebra_append_column
        (.a [2, 1, 2] [1007, 1008, 1010] 1005
          (.mk 5 2 [.i [10, 20, 30, 40, 50],
            .a [1, 0, 2, 1, 1] [1, 1, 3, 4, 5] 0 (.mk 5 1 [.b [1, 2, 3, 4, 5]])]))
        1 nested_destination 1 2 =
      zebra_append_column nested_source 1 nested_destination 1 2 ∧
    zebra_append_column nested_source 1 nested_destination 1 2 =
      some (.ZEBRA_SUCCESS, nested_result) :=
  ⟨zebra_append_column_offset_independent [2, 1, 2] [7, 8, 10] [1007, 1008, 1010] 5 1005 1000
      (.mk 5 2 [.i [10, 20, 30, 40, 50],
        .a [1, 0, 2, 1, 1] [1, 1, 3, 4, 5] 0 (.mk 5 1 [.b [1, 2, 3, 4, 5]])])
      nested_destination 1 1 2 rfl rfl
      (fun i hi => by
        have : i < 3 := hi
        interval_cases i <;> rfl),
    rfl⟩

/-! ## Destination offsets are recomputed from the destination's base -/

theorem out_base_nat {out_s : List Int} {out_so s : Int} {b : Nat}
    (hb : out_base out_s out_so (b : Int) = some s) :
    s = if b = 0 then out_so else out_s.getD (b - 1) 0 := by
  unfold out_base at hb
  rcases Nat.eq_zero_or_pos b with h0 | h0
  · subst h0
    simp only [Nat.cast_zero, gt_iff_lt, lt_self_iff_false, if_false] at hb
    cases hb
    rfl
  · obtain ⟨k, rfl⟩ : ∃ k, b = k + 1 := ⟨b - 1, by omega⟩
    have hpos : ((k + 1 : Nat) : Int) > 0 := by omega
    have e : ((k + 1 : Nat) : Int) - 1 = (k : Int) := by push_cast; ring
    rw [if_pos hpos, e, load_natCast] at hb
    rw [if_neg (by omega), List.getD_eq_getElem?_getD]
    simp only [Nat.add_sub_cancel]
    rw [hb]
    rfl

/-- The `n`, `s` and `s_offset` that a returning Array append leaves in the destination. -/
theorem zebra_append_column_array_result {in_n in_s : List Int} {in_so : Int}
    {in_t : zebra_table_t} {out_n out_s : List Int} {out_so : Int} {out_t : zebra_table_t}
    {in_ix out_ix count : Nat} {e : error_t} {out1 : zebra_column_t}
    (h : zebra_append_column (.a in_n in_s in_so in_t) (in_ix : Int)
      (.a out_n out_s out_so out_t) (out_ix : Int) (count : Int) = some (e, out1)) :
    out1.s_offset = out_so ∧
    ((count = 0 ∧ out1.n = out_n ∧ out1.s = out_s) ∨
     (0 < count ∧ ∃ base, out_base out_s out_so (out_ix : Int) = some base ∧
        array_rows in_n (in_ix : Int) out_n out_s (out_ix : Int) base (count : Int) =
          some ⟨out1.n, out1.s, wrap64 (range_sum in_n in_ix count)⟩)) := by
  rcases zebra_append_column_cases h with q | q | q | q | q | q | q
  · exact absurd rfl q.1
  · obtain ⟨_, hc, q⟩ := q
    rw [Prod.mk.injEq] at q
    rw [q.2]
    exact ⟨rfl, Or.inl ⟨by omega, rfl, rfl⟩⟩
  · obtain ⟨_, _, _, _, q, _⟩ := q; cases q
  · obtain ⟨_, _, _, _, q, _⟩ := q; cases q
  · obtain ⟨_, _, _, _, q, _⟩ := q; cases q
  · obtain ⟨hc, _, _, _, _, _, _, _, _, v_ix, sb, st, e1, t1, hi, ho, _, hb, hr, _, q⟩ := q
    cases hi
    cases ho
    rw [Prod.mk.injEq] at q
    rw [q.2]
    refine ⟨rfl, Or.inr ⟨by omega, sb, hb, ?_⟩⟩
    rw [hr]
    obtain ⟨_, _, _, q4, _, _⟩ := array_rows_spec hr
    simp only [zebra_column_t.n, zebra_column_t.s, ← q4]
  · obtain ⟨_, _, q, _⟩ := q; cases q

/-- C15, amended: Array offsets are recomputed from the destination's own base.  After a
`zebra_append_column` between two Array columns that returns, with
`base = out.s[out_ix - 1]` before the call if `out_ix > 0` and `out.s_offset` if
`out_ix = 0`: for every `k < count`, `out.n[out_ix + k] = in.n[in_ix + k]` and
`out.s[out_ix + k]` is the `int64_t` sum `base + in.n[in_ix] + ... + in.n[in_ix + k]`,
which is the exact sum whenever the exact sum fits an `int64_t`, these rows lying inside
the buffers; `out.s_offset` and all `n`, `s` entries below `out_ix` are unchanged; and
the `n`, `s`, `s_offset` of the result are the same for any other source with the same
`n`, whatever its `s`, `s_offset` and nested table: no source `s` value reaches the
destination. -/
theorem zebra_append_column_offsets_recomputed (in_n in_s : List Int) (in_so : Int)
    (in_t : zebra_table_t) (out_n out_s : List Int) (out_so : Int) (out_t : zebra_table_t)
    (in_ix out_ix count : Nat) (e : error_t) (out1 : zebra_column_t)
    (h : zebra_append_column (.a in_n in_s in_so in_t) (in_ix : Int)
      (.a out_n out_s out_so out_t) (out_ix : Int) (count : Int) = some (e, out1)) :
    out1.s_offset = out_so ∧
    (0 < count → in_ix + count ≤ in_n.length ∧ out_ix + count ≤ out1.n.length ∧
      out_ix + count ≤ out1.s.length) ∧
    (∀ k, k < count →
      out1.n.getD (out_ix + k) 0 = in_n.getD (in_ix + k) 0 ∧
      out1.s.getD (out_ix + k) 0 =
        wrap64 ((if out_ix = 0 then out_so else out_s.getD (out_ix - 1) 0) +
          range_sum in_n in_ix (k + 1)) ∧
      (int64_range ((if out_ix = 0 then out_so else out_s.getD (out_ix - 1) 0) +
          range_sum in_n in_ix (k + 1)) →
        out1.s.getD (out_ix + k) 0 =
          (if out_ix = 0 then out_so else out_s.getD (out_ix - 1) 0) +
            range_sum in_n in_ix (k + 1))) ∧
    (∀ i, i < out_ix → out1.n[i]? = out_n[i]? ∧ out1.s[i]? = out_s[i]?) ∧
    (∀ (in_s2 : List Int) (in_so2 : Int) (in_t2 : zebra_table_t) (e2 : error_t)
        (out2 : zebra_column_t),
      zebra_append_column (.a in_n in_s2 in_so2 in_t2) (in_ix : Int)
        (.a out_n out_s out_so out_t) (out_ix : Int) (count : Int) = some (e2, out2) →
      out2.n = out1.n ∧ out2.s = out1.s ∧ out2.s_offset = out1.s_offset) := by
  obtain ⟨r1, r2⟩ := zebra_append_column_array_result h
  have indep : ∀ (in_s2 : List Int) (in_so2 : Int) (in_t2 : zebra_table_t) (e2 : error_t)
      (out2 : zebra_column_t),
      zebra_append_column (.a in_n in_s2 in_so2 in_t2) (in_ix : Int)
        (.a out_n out_s out_so out_t) (out_ix : Int) (count : Int) = some (e2, out2) →
      out2.n = out1.n ∧ out2.s = out1.s ∧ out2.s_offset = out1.s_offset := by
    intro in_s2 in_so2 in_t2 e2 out2 h2
    obtain ⟨p1, p2⟩ := zebra_append_column_array_result h2
    refine ⟨?_, ?_, by rw [p1, r1]⟩
    · rcases r2 with ⟨hc, hn, _⟩ | ⟨hc, base, hb, hr⟩
      · rcases p2 with ⟨_, hn2, _⟩ | ⟨hc2, _⟩
        · rw [hn, hn2]
        · omega
      · rcases p2 with ⟨hc2, _⟩ | ⟨_, base2, hb2, hr2⟩
        · omega
        · rw [hb] at hb2
          cases hb2
          rw [hr] at hr2
          have := Option.some.inj hr2
          rw [array_state.mk.injEq] at this
          exact this.1.symm
    · rcases r2 with ⟨hc, _, hs⟩ | ⟨hc, base, hb, hr⟩
      · rcases p2 with ⟨_, _, hs2⟩ | ⟨hc2, _⟩
        · rw [hs, hs2]
        · omega
      · rcases p2 with ⟨hc2, _⟩ | ⟨_, base2, hb2, hr2⟩
        · omega
        · rw [hb] at hb2
          cases hb2
          rw [hr] at hr2
          have := Option.some.inj hr2
          rw [array_state.mk.injEq] at this
          exact this.2.1.symm
  refine ⟨r1, ?_, ?_, ?_, indep⟩
  · intro hpos
    rcases r2 with ⟨hc, _⟩ | ⟨_, base, hb, hr⟩
    · omega
    · obtain ⟨q1, q2, q3, _⟩ := array_rows_spec hr
      obtain ⟨b1, b2, b3⟩ := q1 hpos
      simp only at q2 q3
      omega
  · intro k hk
    rcases r2 with ⟨hc, _⟩ | ⟨_, base, hb, hr⟩
    · omega
    · obtain ⟨_, _, _, _, q5, q6⟩ := array_rows_spec hr
      simp only at q5 q6
      have hbase := out_base_nat hb
      have e1 : in_ix + (out_ix + k - out_ix) = in_ix + k := by omega
      have e2 : out_ix + k - out_ix + 1 = k + 1 := by omega
      have hval : out1.s.getD (out_ix + k) 0 =
          wrap64 ((if out_ix = 0 then out_so else out_s.getD (out_ix - 1) 0) +
            range_sum in_n in_ix (k + 1)) := by
        rw [List.getD_eq_getElem?_getD, q6, if_pos (by omega), e2, hbase]
        rfl
      refine ⟨?_, hval, fun hfit => ?_⟩
      · rw [List.getD_eq_getElem?_getD, List.getD_eq_getElem?_getD, q5, if_pos (by omega), e1]
      · rw [hval, wrap64_of_range hfit]
  · intro i hi
    rcases r2 with ⟨_, hn, hs⟩ | ⟨_, base, hb, hr⟩
    · rw [hn, hs]
      exact ⟨rfl, rfl⟩
    · obtain ⟨_, _, _, _, q5, q6⟩ := array_rows_spec hr
      simp only at q5 q6
      rw [q5, q6, if_neg (by omega), if_neg (by omega)]
      exact ⟨rfl, rfl⟩

/-- Rows 1 and 2 of `nested_source` (`n = [2, 1, 2]`, offsets based at 5) onto row 1 of
`nested_destination` (`s[0] = 101`): `n[1..2] = [1, 2]`, `s[1..2] = [101 + 1, 101 + 1 + 2]`. -/
theorem zebra_append_column_offsets_recomputed_witness :
    zebra_append_column nested_source 1 nested_destination 1 2 =
      some (.ZEBRA_SUCCESS, nested_result) ∧
    nested_result.s_offset = 100 ∧
    (∀ k, k < 2 →
      nested_result.n.getD (1 + k) 0 = [2, 1, 2].getD (1 + k) 0 ∧
      nested_result.s.getD (1 + k) 0 =
        wrap64 ((if 1 = 0 then 100 else [101, 0, 0].getD (1 - 1) 0) +
          range_sum [2, 1, 2] 1 (k + 1)) ∧
      (int64_range ((if 1 = 0 then 100 else [101, 0, 0].getD (1 - 1) 0) +
          range_sum [2, 1, 2] 1 (k + 1)) →
        nested_result.s.getD (1 + k) 0 =
          (if 1 = 0 then 100 else [101, 0, 0].getD (1 - 1) 0) +
            range_sum [2, 1, 2] 1 (k + 1))) ∧
    nested_result.s = [101, 102, 104] :=
  ⟨rfl,
    (zebra_append_column_offsets_recomputed [2, 1, 2] [7, 8, 10] 5
      (.mk 5 2 [.i [10, 20, 30, 40, 50],
        .a [1, 0, 2, 1, 1] [1, 1, 3, 4, 5] 0 (.mk 5 1 [.b [1, 2, 3, 4, 5]])])
      [1, 0, 0] [101, 0, 0] 100 (.mk 1 2 [.i [99], .a [2] [2] 0 (.mk 2 1 [.b [8, 9]])])
      1 1 2 .ZEBRA_SUCCESS nested_result rfl).1,
    (zebra_append_column_offsets_recomputed [2, 1, 2] [7, 8, 10] 5
      (.mk 5 2 [.i [10, 20, 30, 40, 50],
        .a [1, 0, 2, 1, 1] [1, 1, 3, 4, 5] 0 (.mk 5 1 [.b [1, 2, 3, 4, 5]])])
      [1, 0, 0] [101, 0, 0] 100 (.mk 1 2 [.i [99], .a [2] [2] 0 (.mk 2 1 [.b [8, 9]])])
      1 1 2 .ZEBRA_SUCCESS nested_result rfl).2.2.1,
    rfl⟩

/-! ## Fail-fast column loop -/

theorem append_columns_fail_fast (in_ix out_ix count : Int) :
    ∀ (j : Nat) (ins outs : List zebra_column_t) (remaining : Nat)
      (results : List zebra_column_t) (cj oj oj1 : zebra_column_t) (e : error_t),
      j < remaining → results.length = j →
      (∀ i, i < j → ∃ ci co co1, ins[i]? = some ci ∧ outs[i]? = some co ∧
        results[i]? = some co1 ∧
        zebra_append_column ci in_ix co out_ix count = some (.ZEBRA_SUCCESS, co1)) →
      ins[j]? = some cj → outs[j]? = some oj →
      zebra_append_column cj in_ix oj out_ix count = some (e, oj1) → e ≠ .ZEBRA_SUCCESS →
      append_columns ins in_ix outs out_ix count remaining =
        some (e, results ++ oj1 :: outs.drop (j + 1)) := by
  intro j
  induction j with
  | zero =>
    intro ins outs remaining results cj oj oj1 e hr hlen _ hc hc1 hf he
    obtain ⟨remaining, rfl⟩ : ∃ m, remaining = m + 1 := ⟨remaining - 1, by omega⟩
    cases ins with
    | nil => cases hc
    | cons in_c in_rest =>
      cases outs with
      | nil => cases hc1
      | cons out_c out_rest =>
        simp only [List.getElem?_cons_zero, Option.some.injEq] at hc hc1
        subst hc hc1
        rw [List.length_eq_zero] at hlen
        subst hlen
        rw [append_columns_succ, hf]
        simp only [he, ne_eq, not_false_eq_true, if_true, List.nil_append, Nat.zero_add,
          List.drop_succ_cons, List.drop_zero]
  | succ j ih =>
    intro ins outs remaining results cj oj oj1 e hr hlen hbefore hc hc1 hf he
    obtain ⟨remaining, rfl⟩ : ∃ m, remaining = m + 1 := ⟨remaining - 1, by omega⟩
    cases ins with
    | nil => cases hc
    | cons in_c in_rest =>
      cases outs with
      | nil => cases hc1
      | cons out_c out_rest =>
        cases results with
        | nil => cases hlen
        | cons r0 rs =>
          simp only [List.getElem?_cons_succ] at hc hc1
          obtain ⟨ci, co, co1, q1, q2, q3, q4⟩ := hbefore 0 (by omega)
          simp only [List.getElem?_cons_zero, Option.some.injEq] at q1 q2 q3
          subst q1 q2 q3
          have h := ih in_rest out_rest remaining rs cj oj oj1 e (by omega)
            (by simpa using hlen)
            (fun i hi => by
              obtain ⟨ci, co, co2, r1, r2, r3, r4⟩ := hbefore (i + 1) (by omega)
              simp only [List.getElem?_cons_succ] at r1 r2 r3
              exact ⟨ci, co, co2, r1, r2, r3, r4⟩)
            hc hc1 hf he
          rw [append_columns_succ, q4]
          simp only [ne_eq, not_true_eq_false, if_false]
          rw [h]
          simp only [List.cons_append, List.drop_succ_cons]

theorem columns_mk (r c : Int) (cs : List zebra_column_t) :
    (zebra_table_t.mk r c cs).columns = cs := rfl

/-- C18: table append is fail-fast.  When the column pairs below `c` are appended
successfully (with results `results`) and the append of column pair `c` fails with error
`e` (leaving `fail_column`), `zebra_append_table` returns exactly `e`; `row_count` has
been advanced; the columns below `c` are the appended ones, and every column above `c`
is what the growth before the loop made of it, the rows it held unchanged: the column
appender never touched it. -/
theorem zebra_append_table_fail_fast (in_ out : zebra_table_t) (in_ix count : Int) (c : Nat)
    (results : List zebra_column_t) (in_column out_column fail_column : zebra_column_t)
    (e : error_t)
    (h_c : c < in_.column_count.toNat) (h_results : results.length = c)
    (h_below : ∀ i, i < c → ∃ ci co co1, in_.columns[i]? = some ci ∧
      out.columns[i]? = some co ∧ results[i]? = some co1 ∧
      zebra_append_column ci in_ix (zebra_grow_column (out.row_count + count) co)
        out.row_count count = some (.ZEBRA_SUCCESS, co1))
    (h_in : in_.columns[c]? = some in_column) (h_out : out.columns[c]? = some out_column)
    (h_fail : zebra_append_column in_column in_ix
      (zebra_grow_column (out.row_count + count) out_column) out.row_count count =
        some (e, fail_column))
    (h_e : e ≠ .ZEBRA_SUCCESS) :
    ∃ out1, zebra_append_table in_ in_ix out count = some (e, out1) ∧
      out1.row_count = out.row_count + count ∧
      out1.columns.length = out.columns.length ∧
      (∀ i, i < c → out1.columns[i]? = results[i]?) ∧
      out1.columns[c]? = some fail_column ∧
      (∀ i col, c < i → out.columns[i]? = some col →
        out1.columns[i]? = some (zebra_grow_column (out.row_count + count) col) ∧
        keeps_rows col.capacity col (zebra_grow_column (out.row_count + count) col)) := by
  have h := append_columns_fail_fast in_ix out.row_count count c in_.columns
    (out.columns.map (zebra_grow_column (out.row_count + count))) in_.column_count.toNat
    results in_column (zebra_grow_column (out.row_count + count) out_column) fail_column e
    h_c h_results
    (fun i hi => by
      obtain ⟨ci, co, co1, q1, q2, q3, q4⟩ := h_below i hi
      exact ⟨ci, _, co1, q1, by rw [List.getElem?_map, q2]; rfl, q3, q4⟩)
    h_in (by rw [List.getElem?_map, h_out]; rfl) h_fail h_e
  have hlen : c < out.columns.length := (List.getElem?_eq_some.1 h_out).1
  refine ⟨.mk (out.row_count + count) out.column_count
    (results ++ fail_column ::
      (out.columns.map (zebra_grow_column (out.row_count + count))).drop (c + 1)),
    by rw [zebra_append_table_eq, h], rfl, ?_, ?_, ?_, ?_⟩
  · rw [columns_mk]
    simp only [List.length_append, List.length_cons, List.length_drop,
      List.length_map, h_results]
    omega
  · intro i hi
    rw [columns_mk, List.getElem?_append_left (by omega)]
  · rw [columns_mk, List.getElem?_append_right (by omega), h_results]
    simp
  · intro i col hi hcol
    refine ⟨?_, (zebra_grow_column_keeps_rows _ col).1⟩
    rw [columns_mk]
    obtain ⟨d, rfl⟩ : ∃ d, i = c + 1 + d := ⟨i - c - 1, by omega⟩
    rw [List.getElem?_append_right (by omega), h_results]
    have e1 : c + 1 + d - c = d + 1 := by omega
    rw [e1, List.getElem?_cons_succ, List.getElem?_drop, List.getElem?_map, hcol]
    rfl

/-- Three columns, one row appended: the Int pair succeeds, the Byte-onto-Int pair fails
with `DifferentColumnTypes`, the third column is only grown. -/
theorem zebra_append_table_fail_fast_witness :
    ∃ out1, zebra_append_table (.mk 1 3 [.i [7], .b [8], .i [9]]) 0
        (.mk 0 3 [.i [], .i [], .i []]) 1 =
        some (.ZEBRA_MERGE_DIFFERENT_COLUMN_TYPES, out1) ∧
      out1.row_count = 0 + 1 ∧
      out1.columns.length = 3 ∧
      (∀ i, i < 1 → out1.columns[i]? = [zebra_column_t.i [7]][i]?) ∧
      out1.columns[1]? = some (.i [0]) := by
  obtain ⟨out1, h1, h2, h3, h4, h5, _⟩ := zebra_append_table_fail_fast
    (.mk 1 3 [.i [7], .b [8], .i [9]]) (.mk 0 3 [.i [], .i [], .i []]) 0 1 1
    [.i [7]] (.b [8]) (.i []) (.i [0]) .ZEBRA_MERGE_DIFFERENT_COLUMN_TYPES
    (by decide) rfl
    (fun i hi => by
      have : i = 0 := by omega
      subst this
      exact ⟨.i [7], .i [], .i [7], rfl, rfl, rfl, rfl⟩)
    rfl rfl rfl (by decide)
  exact ⟨out1, h1, h2, h3, h4, h5⟩

/-! ## Entities are recorded in append order -/

/-- A successful `zebra_append_block_entity` is a successful run of lines 147-190 on the
caller's block, or on the zeroed block when there was none, and on an existing block the
entity passed the attribute-count check. -/
theorem zebra_append_block_entity_success_body {entity : zebra_entity_t}
    {inout_block : Option zebra_block_t} {handle : Option zebra_block_t}
    (h : zebra_append_block_entity entity inout_block = some (.ZEBRA_SUCCESS, handle)) :
    ∃ block1, handle = some block1 ∧
      append_block_entity_body entity (inout_block.getD default) =
        some (.ZEBRA_SUCCESS, block1) ∧
      (∀ block, inout_block = some block → entity.attribute_count = block.table_count) := by
  cases inout_block with
  | none =>
    rw [zebra_append_block_entity_none] at h
    cases hb : append_block_entity_body entity default with
    | none => rw [hb] at h; cases h
    | some r =>
      obtain ⟨e, b1⟩ := r
      rw [hb] at h
      simp only at h
      by_cases he : e = .ZEBRA_SUCCESS
      · subst he
        simp only [ne_eq, not_true_eq_false, if_false] at h
        cases h
        exact ⟨b1, rfl, hb, fun _ hn => by cases hn⟩
      · rw [if_pos he] at h
        cases h
        exact absurd rfl he
  | some block =>
    by_cases heq : entity.attribute_count = block.table_count
    · rw [zebra_append_block_entity_some entity block heq] at h
      cases hb : append_block_entity_body entity block with
      | none => rw [hb] at h; cases h
      | some r =>
        obtain ⟨e, b1⟩ := r
        rw [hb] at h
        cases h
        exact ⟨b1, rfl, hb, fun b hq => by cases hq; exact heq⟩
    · rw [zebra_append_block_entity_mismatch entity block heq] at h
      cases h

theorem grow_array_getElem? {α : Type} [Inhabited α] (array : List α) (k : Nat) (i : Nat)
    (hi : i < k) (hk : k ≤ array.length) :
    (ZEBRA_GROW_ARRAY array (k : Int) ((k : Int) + 1))[i]? = array[i]? := by
  unfold ZEBRA_GROW_ARRAY
  simp only [Int.toNat_ofNat]
  rw [List.getElem?_append_left (by rw [List.length_take]; omega), List.getElem?_take_of_lt hi]

theorem append_block_entity_body_entities {entity : zebra_entity_t} {block block1 : zebra_block_t}
    {e : error_t} (h : append_block_entity_body entity block = some (e, block1)) :
    0 ≤ block.entity_count ∧ block1.entity_count = block.entity_count + 1 ∧
    ∃ record, zebra_fill_block_entity entity = some (.ZEBRA_SUCCESS, record) ∧
      block1.entities =
        (ZEBRA_GROW_ARRAY block.entities block.entity_count (block.entity_count + 1)).set
          block.entity_count.toNat record ∧
      block.entity_count.toNat <
        (ZEBRA_GROW_ARRAY block.entities block.entity_count (block.entity_count + 1)).length := by
  obtain ⟨record, entities1, new_row_count, st, tables1, hf, hs, _, _, hb⟩ :=
    append_block_entity_body_cases h
  obtain ⟨s1, s2, s3⟩ := store_eq_some hs
  rcases hb with ⟨_, _, _, hb⟩ | ⟨_, _, hb⟩ <;> subst hb <;>
    exact ⟨s1, rfl, record, hf, s3, s2⟩

/-- C13: entities are recorded in append order.  For a block with `entity_count = k`
holding `k` records (an absent block counting as `k = 0`), after a successful
`zebra_append_block_entity` the caller's handle designates a block with
`entity_count = k + 1`, whose `entities[0..k)` are unchanged and whose `entities[k]` is
the record that `zebra_fill_block_entity` produces for the entity. -/
theorem zebra_append_block_entity_entities (entity : zebra_entity_t)
    (inout_block handle : Option zebra_block_t) (k : Nat)
    (h_k : (inout_block.getD default).entity_count = (k : Int))
    (h_len : k ≤ (inout_block.getD default).entities.length)
    (h : zebra_append_block_entity entity inout_block = some (.ZEBRA_SUCCESS, handle)) :
    ∃ block1, handle = some block1 ∧
      block1.entity_count = (k : Int) + 1 ∧
      (∀ i, i < k → block1.entities[i]? = (inout_block.getD default).entities[i]?) ∧
      ∃ record, zebra_fill_block_entity entity = some (.ZEBRA_SUCCESS, record) ∧
        block1.entities[k]? = some record := by
  obtain ⟨block1, hh, hb, _⟩ := zebra_append_block_entity_success_body h
  obtain ⟨_, q2, record, q3, q4, q5⟩ := append_block_entity_body_entities hb
  rw [h_k] at q2 q4 q5
  simp only [Int.toNat_ofNat] at q4 q5
  refine ⟨block1, hh, q2, fun i hi => ?_, record, q3, ?_⟩
  · rw [q4, List.getElem?_set_ne (by omega), grow_array_getElem? _ _ _ hi h_len]
  · rw [q4]
    simp [q5]

/-- The end-to-end scenario: after E1 then E2, `entities[0].attribute_ids = [1]` and
`entities[1].attribute_ids = [0, 1]`. -/
theorem zebra_append_block_entity_entities_witness :
    zebra_append_block_entity scenario_E1 none = some (.ZEBRA_SUCCESS, some scenario_block_1) ∧
    (∃ block1, some scenario_block_2 = some block1 ∧
      block1.entity_count = ((1 : Nat) : Int) + 1 ∧
      (∀ i, i < 1 → block1.entities[i]? = scenario_block_1.entities[i]?) ∧
      ∃ record, zebra_fill_block_entity scenario_E2 = some (.ZEBRA_SUCCESS, record) ∧
        block1.entities[1]? = some record) ∧
    scenario_block_2.entities.map (fun record => record.attribute_ids) = [[1], [0, 1]] :=
  ⟨rfl,
    zebra_append_block_entity_entities scenario_E2 (some scenario_block_1)
      (some scenario_block_2) 1 rfl (by decide) rfl,
    rfl⟩

/-! ## The block `row_count` invariant -/

theorem nonzero_ids_sum (attributes : List zebra_attribute_t) :
    ∀ (len c : Nat), c + len ≤ attributes.length →
      (∀ attr ∈ (attributes.drop c).take len, 0 ≤ attr.table.row_count) →
      ((nonzero_ids attributes c len).map (row_count_at attributes)).sum =
        total_row_count ((attributes.drop c).take len) := by
  intro len
  induction len with
  | zero => intro c _ _; simp [nonzero_ids, total_row_count]
  | succ len ih =>
    intro c h hnn
    have hc : c < attributes.length := by omega
    have hr : row_count_at attributes c = attributes[c].table.row_count := by
      simp [row_count_at, List.getElem?_eq_getElem hc]
    rw [drop_take_succ _ _ _ hc] at hnn ⊢
    rw [nonzero_ids_succ, List.map_append, List.sum_append,
      ih (c + 1) (by omega) (fun a ha => hnn a (List.mem_cons_of_mem _ ha))]
    have h0 := hnn attributes[c] (List.mem_cons_self _ _)
    have ht : total_row_count (attributes[c] :: (attributes.drop (c + 1)).take len) =
        attributes[c].table.row_count + total_row_count ((attributes.drop (c + 1)).take len) := by
      simp [total_row_count]
    rw [ht]
    by_cases hp : 0 < row_count_at attributes c
    · rw [if_pos hp]
      simp [hr]
    · rw [if_neg hp]
      rw [hr] at hp
      have : attributes[c].table.row_count = 0 := by omega
      simp [this]

/-- What a returning `zebra_fill_block_entity` wrote, for an entity whose attribute array
holds `attribute_count` attributes. -/
theorem zebra_fill_block_entity_spec {entity : zebra_entity_t} {e : error_t}
    {record : zebra_block_entity_t}
    (h_attrs : entity.attribute_count.toNat ≤ entity.attributes.length)
    (h : zebra_fill_block_entity entity = some (e, record)) :
    record.attribute_ids =
      (nonzero_ids entity.attributes 0 entity.attribute_count.toNat).map Int.ofNat ∧
    record.attribute_row_counts =
      (nonzero_ids entity.attributes 0 entity.attribute_count.toNat).map
        (row_count_at entity.attributes) := by
  unfold zebra_fill_block_entity at h
  split at h
  · cases h
  · split at h
    · cases h
    · have hz : nonzeros_loop entity.attributes entity.attribute_count.toNat 0 0 =
          some ((0 : Int) +
            ((nonzero_ids entity.attributes 0 entity.attribute_count.toNat).length : Int)) :=
        nonzeros_loop_spec entity.attributes entity.attribute_count.toNat 0 0 (by omega)
      rw [hz] at h
      simp only at h
      obtain ⟨st1, e1, l1, l2, t1, t2⟩ := sparse_loop_spec entity.attributes
        entity.attribute_count.toNat 0 0
        ⟨anemone_mempool_alloc ((0 : Int) +
            ((nonzero_ids entity.attributes 0 entity.attribute_count.toNat).length : Int)),
          anemone_mempool_alloc ((0 : Int) +
            ((nonzero_ids entity.attributes 0 entity.attribute_count.toNat).length : Int)), 0⟩
        (by omega) rfl (by simp [anemone_mempool_alloc]) (by simp [anemone_mempool_alloc])
      simp only [anemone_mempool_alloc, List.length_replicate, Int.zero_add, Int.toNat_ofNat,
        Nat.zero_add, List.take_zero, List.nil_append] at l1 l2 t1 t2
      rw [← l1, List.take_length] at t1
      rw [← l2, List.take_length] at t2
      have e2 : sparse_loop entity.attributes entity.attribute_count.toNat 0
          ⟨anemone_mempool_alloc ((0 : Int) +
              ((nonzero_ids entity.attributes 0 entity.attribute_count.toNat).length : Int)),
           anemone_mempool_alloc ((0 : Int) +
              ((nonzero_ids entity.attributes 0 entity.attribute_count.toNat).length : Int)),
           0⟩ = some st1 := e1
      rw [e2] at h
      simp only [Option.some.injEq, Prod.mk.injEq] at h
      rw [← h.2]
      exact ⟨t1, t2⟩

theorem tables_row_count_step :
    ∀ (l0 l1 : List zebra_table_t) (attributes : List zebra_attribute_t),
      l1.length = l0.length →
      (∀ c, c < l0.length → ∃ attr bt bt1, attributes[c]? = some attr ∧ l0[c]? = some bt ∧
        l1[c]? = some bt1 ∧ bt1.row_count = bt.row_count + attr.table.row_count) →
      (l1.map (fun t => t.row_count)).sum =
        (l0.map (fun t => t.row_count)).sum + total_row_count (attributes.take l0.length) := by
  intro l0
  induction l0 with
  | nil =>
    intro l1 attributes hl _
    rw [List.length_nil, List.length_eq_zero] at hl
    subst hl
    simp [total_row_count]
  | cons b0 l0 ih =>
    intro l1 attributes hl h
    cases l1 with
    | nil => cases hl
    | cons b1 l1 =>
      obtain ⟨attr, bt, bt1, q1, q2, q3, q4⟩ := h 0 (by simp)
      cases attributes with
      | nil => cases q1
      | cons a rest =>
        simp only [List.getElem?_cons_zero, Option.some.injEq] at q1 q2 q3
        subst q1 q2 q3
        have := ih l1 rest (by simpa using hl) (fun c hc => by
          obtain ⟨attr, bt, bt1, r1, r2, r3, r4⟩ := h (c + 1) (by simp; omega)
          simp only [List.getElem?_cons_succ] at r1 r2 r3
          exact ⟨attr, bt, bt1, r1, r2, r3, r4⟩)
        simp only [List.map_cons, List.sum_cons, List.length_cons, List.take_succ_cons,
          total_row_count] at this ⊢
        rw [this, q4]
        ring

theorem grow_array_snoc {α : Type} [Inhabited α] (array : List α) (k : Int) (v : α)
    (hk : 0 ≤ k) (hlen : array.length = k.toNat) :
    (ZEBRA_GROW_ARRAY array k (k + 1)).set k.toNat v = array ++ [v] := by
  unfold ZEBRA_GROW_ARRAY
  have h1 : array.take k.toNat = array := List.take_of_length_le (by omega)
  have h2 : (k + 1).toNat - array.length = 1 := by omega
  rw [h1, h2, List.set_append_right _ _ (by omega), hlen]
  simp

theorem append_block_entity_body_consistent {entity : zebra_entity_t}
    {block block1 : zebra_block_t}
    (hJ : block_consistent block)
    (hcheck : ∀ tables, block.tables = some tables → entity.attribute_count = block.table_count)
    (h : append_block_entity_body entity block = some (.ZEBRA_SUCCESS, block1)) :
    block_consistent block1 ∧
    block1.row_count = block.row_count +
      total_row_count (entity.attributes.take entity.attribute_count.toNat) ∧
    block1.tables ≠ none := by
  obtain ⟨j1, j2, j3, j4, j5, j6⟩ := hJ
  obtain ⟨record, entities1, new_row_count, st, tables1, hf, hs, hn, hm, hb⟩ :=
    append_block_entity_body_cases h
  have e0 : (0 : Int) = ((0 : Nat) : Int) := rfl
  rw [e0] at hn hm
  obtain ⟨hbound, hn2⟩ := new_row_count_loop_spec _ _ _ _ _ hn
  have hk : block.row_count = ((block.row_count.toNat : Nat) : Int) :=
    (Int.toNat_of_nonneg j3).symm
  obtain ⟨_, m2, _, _, _, _⟩ := meta_loop_spec _ _ _ block.row_count.toNat _ _ hm hk
  simp only [List.drop_zero, Nat.zero_add] at hn2 m2 hbound
  have hattrs : entity.attribute_count.toNat ≤ entity.attributes.length := by
    rcases Nat.eq_zero_or_pos entity.attribute_count.toNat with h0 | h0
    · omega
    · exact hbound h0
  have htot : 0 ≤ total_row_count (entity.attributes.take entity.attribute_count.toNat) := by
    unfold total_row_count
    apply List.sum_nonneg
    intro x hx
    obtain ⟨a, ha, rfl⟩ := List.mem_map.1 hx
    exact m2 a ha
  obtain ⟨_, _, s3⟩ := store_eq_some hs
  rw [grow_array_snoc _ _ _ j1 j2] at s3
  have hrec : record.attribute_row_counts.sum =
      total_row_count (entity.attributes.take entity.attribute_count.toNat) := by
    rw [(zebra_fill_block_entity_spec hattrs hf).2]
    have := nonzero_ids_sum entity.attributes entity.attribute_count.toNat 0 (by omega)
      (by simpa using m2)
    simpa using this
  have hent : ((entities1.take (block.entity_count + 1).toNat).map
      (fun record => record.attribute_row_counts.sum)).sum = new_row_count := by
    have hl : entities1.length = (block.entity_count + 1).toNat := by
      rw [s3, List.length_append, j2]
      simp
      omega
    rw [List.take_of_length_le (by omega), s3, List.map_append, List.sum_append, hn2, ← j4]
    unfold recorded_row_count
    rw [List.take_of_length_le (by omega)]
    simp [hrec]
  have hlen1 : entities1.length = (block.entity_count + 1).toNat := by
    rw [s3, List.length_append, j2]
    simp
    omega
  obtain ⟨t_first, t_later⟩ := append_block_entity_body_tables h
  rcases hb with ⟨tables, ht, _, hb⟩ | ⟨ht, _, hb⟩
  · subst hb
    obtain ⟨_, tables2, q1, q2, q3⟩ := t_later tables ht
    simp only [Option.some.injEq] at q1
    subst q1
    have hcount := hcheck tables ht
    have hl0 := j6 tables ht
    refine ⟨⟨?_, hlen1, ?_, hent, ?_, ?_⟩, hn2, by simp⟩
    · show (0 : Int) ≤ block.entity_count + 1
      omega
    · show (0 : Int) ≤ new_row_count
      omega
    · unfold tables_row_count
      simp only
      rw [List.take_of_length_le (by omega),
        tables_row_count_step tables tables1 entity.attributes q2 (fun c hc => by
          obtain ⟨attr, bt, bt1, r1, r2, r3, _, r5, _⟩ := q3 c (by omega)
          exact ⟨attr, bt, bt1, r1, r2, r3, r5⟩),
        hn2, ← j5, hl0, ← hcount]
      unfold tables_row_count
      rw [ht]
      simp only
      rw [List.take_of_length_le (show tables.length ≤ block.table_count.toNat by omega)]
    · intro tables3 h3
      simp only [Option.some.injEq] at h3
      rw [← h3]
      show tables1.length = block.table_count.toNat
      omega
  · subst hb
    obtain ⟨_, q1⟩ := t_first ht
    simp only [Option.some.injEq] at q1
    have hzero : block.row_count = 0 := by
      rw [← j5]
      unfold tables_row_count
      rw [ht]
    refine ⟨⟨?_, hlen1, ?_, hent, ?_, ?_⟩, hn2, by simp⟩
    · show (0 : Int) ≤ block.entity_count + 1
      omega
    · show (0 : Int) ≤ new_row_count
      omega
    · unfold tables_row_count
      simp only
      rw [q1, List.take_of_length_le (by simp), hn2, hzero, List.map_map]
      simp [total_row_count, Function.comp_def]
    · intro tables3 h3
      simp only [Option.some.injEq] at h3
      rw [← h3, q1]
      show (List.map (fun attr => attr.table)
        (List.take entity.attribute_count.toNat entity.attributes)).length =
          entity.attribute_count.toNat
      rw [List.length_map, List.length_take]
      omega

theorem block_consistent_default : block_consistent (default : zebra_block_t) := by
  refine ⟨le_refl _, rfl, le_refl _, rfl, rfl, ?_⟩
  intro tables h
  cases h

/-- Every handle reached by successful appends designates a consistent block (the absent
handle standing for the zero-initialised block of line 141) whose `row_count` is the
number of rows appended. -/
theorem reached_consistent {entities : List zebra_entity_t} {handle : Option zebra_block_t}
    (h : reached entities handle) :
    block_consistent (handle.getD default) ∧
    (handle.getD default).row_count = appended_row_count entities := by
  induction h with
  | absent => exact ⟨block_consistent_default, rfl⟩
  | append entities handle entity block1 _ hcall ih =>
    obtain ⟨b1, hb1, hbody, hcheck⟩ := zebra_append_block_entity_success_body hcall
    simp only [Option.some.injEq] at hb1
    subst hb1
    have hcheck2 : ∀ tables, (handle.getD default).tables = some tables →
        entity.attribute_count = (handle.getD default).table_count := by
      intro tables ht
      cases handle with
      | none => cases ht
      | some block => exact hcheck block rfl
    obtain ⟨c1, c2, _⟩ := append_block_entity_body_consistent ih.1 hcheck2 hbody
    refine ⟨c1, ?_⟩
    show block1.row_count = appended_row_count (entities ++ [entity])
    rw [c2, ih.2]
    simp [appended_row_count]

/-- C11: for every block reached from the absent block by a sequence of successful
`zebra_append_block_entity` calls, `row_count` is the total number of rows of all attributes
of all entities appended so far, and equals both the sum over the block's entity records of
the sum of `attribute_row_counts` and the sum of the `row_count`s of the block's tables
(the entity array holds exactly `entity_count` records).  A successful call already implies
that the row counts of the appended attributes are non-negative. -/
theorem zebra_append_block_entity_row_count_invariant (entities : List zebra_entity_t)
    (block : zebra_block_t) (h : reached entities (some block)) :
    block.row_count = appended_row_count entities ∧
    recorded_row_count block = block.row_count ∧
    tables_row_count block = block.row_count ∧
    block.entities.length = block.entity_count.toNat ∧
    0 ≤ block.row_count := by
  obtain ⟨⟨_, j2, j3, j4, j5, _⟩, hr⟩ := reached_consistent h
  exact ⟨hr, j4, j5, j2, j3⟩

theorem zebra_append_block_entity_row_count_invariant_witness :
    reached [scenario_E1, scenario_E2] (some scenario_block_2) ∧
    scenario_block_2.row_count = appended_row_count [scenario_E1, scenario_E2] ∧
    recorded_row_count scenario_block_2 = scenario_block_2.row_count ∧
    tables_row_count scenario_block_2 = scenario_block_2.row_count ∧
    scenario_block_2.entities.length = scenario_block_2.entity_count.toNat ∧
    0 ≤ scenario_block_2.row_count :=
  have h1 : reached [scenario_E1] (some scenario_block_1) :=
    reached.append [] none scenario_E1 scenario_block_1 reached.absent rfl
  have h2 : reached [scenario_E1, scenario_E2] (some scenario_block_2) :=
    reached.append [scenario_E1] (some scenario_block_1) scenario_E2 scenario_block_2 h1 rfl
  ⟨h2, zebra_append_block_entity_row_count_invariant [scenario_E1, scenario_E2]
    scenario_block_2 h2⟩

/-! ## A failing table append inside the block appender -/

theorem zebra_fill_block_entity_ok (entity : zebra_entity_t)
    (h_id : 0 ≤ entity.id_length ∧ entity.id_length.toNat ≤ entity.id_bytes.length)
    (h_count : 0 ≤ entity.attribute_count)
    (h_attrs : entity.attribute_count.toNat ≤ entity.attributes.length) :
    ∃ record, zebra_fill_block_entity entity = some (.ZEBRA_SUCCESS, record) := by
  unfold zebra_fill_block_entity
  unfold ZEBRA_CLONE_ARRAY
  rw [if_pos h_id]
  simp only
  rw [if_neg (by omega)]
  have hz : nonzeros_loop entity.attributes entity.attribute_count.toNat 0 0 =
      some ((0 : Int) +
        ((nonzero_ids entity.attributes 0 entity.attribute_count.toNat).length : Int)) :=
    nonzeros_loop_spec entity.attributes entity.attribute_count.toNat 0 0 (by omega)
  rw [hz]
  simp only
  obtain ⟨st1, e1, _⟩ := sparse_loop_spec entity.attributes
    entity.attribute_count.toNat 0 0
    ⟨anemone_mempool_alloc ((0 : Int) +
        ((nonzero_ids entity.attributes 0 entity.attribute_count.toNat).length : Int)),
      anemone_mempool_alloc ((0 : Int) +
        ((nonzero_ids entity.attributes 0 entity.attribute_count.toNat).length : Int)), 0⟩
    (by omega) rfl (by simp [anemone_mempool_alloc]) (by simp [anemone_mempool_alloc])
  have e2 : sparse_loop entity.attributes entity.attribute_count.toNat 0
      ⟨anemone_mempool_alloc ((0 : Int) +
          ((nonzero_ids entity.attributes 0 entity.attribute_count.toNat).length : Int)),
       anemone_mempool_alloc ((0 : Int) +
          ((nonzero_ids entity.attributes 0 entity.attribute_count.toNat).length : Int)),
       0⟩ = some st1 := e1
  rw [e2]
  exact ⟨_, rfl⟩

theorem new_row_count_loop_ok (attributes : List zebra_attribute_t) :
    ∀ (remaining c : Nat) (init : Int), c + remaining ≤ attributes.length →
      new_row_count_loop attributes remaining (c : Int) init =
        some (init + total_row_count ((attributes.drop c).take remaining)) := by
  intro remaining
  induction remaining with
  | zero => intro c init _; simp [new_row_count_loop, total_row_count]
  | succ remaining ih =>
    intro c init h
    have e3 : (c : Int) + 1 = ((c + 1 : Nat) : Int) := by push_cast; rfl
    have hc : c < attributes.length := by omega
    rw [new_row_count_loop, load_natCast, List.getElem?_eq_getElem hc]
    simp only
    rw [e3, ih (c + 1) _ (by omega), drop_take_succ _ _ _ hc]
    simp only [total_row_count, List.map_cons, List.sum_cons]
    rw [Int.add_assoc]

theorem memcpy_ok {α : Type} (dst src : List α) (offset count : Int)
    (h : 0 ≤ count ∧ 0 ≤ offset ∧ count.toNat ≤ src.length ∧
      offset.toNat + count.toNat ≤ dst.length) :
    ∃ dst1, memcpy dst offset src count = some dst1 ∧ dst1.length = dst.length := by
  unfold memcpy
  rw [if_pos h]
  refine ⟨_, rfl, ?_⟩
  simp only [List.length_append, List.length_take, List.length_drop]
  omega

theorem meta_loop_ok (attributes : List zebra_attribute_t) :
    ∀ (remaining c k : Nat) (st : meta_state), c + remaining ≤ attributes.length →
      st.cur_row_count = (k : Int) →
      (∀ attr ∈ (attributes.drop c).take remaining, 0 ≤ attr.table.row_count ∧
        attr.table.row_count.toNat ≤ attr.times.length ∧
        attr.table.row_count.toNat ≤ attr.priorities.length ∧
        attr.table.row_count.toNat ≤ attr.tombstones.length) →
      (k : Int) + total_row_count ((attributes.drop c).take remaining) ≤ st.times.length →
      (k : Int) + total_row_count ((attributes.drop c).take remaining) ≤
        st.priorities.length →
      (k : Int) + total_row_count ((attributes.drop c).take remaining) ≤
        st.tombstones.length →
      ∃ st1, meta_loop attributes remaining (c : Int) st = some st1 := by
  intro remaining
  induction remaining with
  | zero => intro c k st _ _ _ _ _ _; exact ⟨st, by rw [meta_loop]⟩
  | succ remaining ih =>
    intro c k st h hk hattr h1 h2 h3
    have e3 : (c : Int) + 1 = ((c + 1 : Nat) : Int) := by push_cast; rfl
    have hc : c < attributes.length := by omega
    rw [drop_take_succ _ _ _ hc] at hattr h1 h2 h3
    obtain ⟨a1, a2, a3, a4⟩ := hattr attributes[c] (List.mem_cons_self _ _)
    have hrest : ∀ attr ∈ (attributes.drop (c + 1)).take remaining,
        0 ≤ attr.table.row_count ∧
        attr.table.row_count.toNat ≤ attr.times.length ∧
        attr.table.row_count.toNat ≤ attr.priorities.length ∧
        attr.table.row_count.toNat ≤ attr.tombstones.length :=
      fun a ha => hattr a (List.mem_cons_of_mem _ ha)
    have htot : 0 ≤ total_row_count ((attributes.drop (c + 1)).take remaining) := by
      unfold total_row_count
      apply List.sum_nonneg
      intro x hx
      obtain ⟨a, ha, rfl⟩ := List.mem_map.1 hx
      exact (hrest a ha).1
    have hcons : total_row_count (attributes[c] :: (attributes.drop (c + 1)).take remaining) =
        attributes[c].table.row_count +
          total_row_count ((attributes.drop (c + 1)).take remaining) := by
      simp [total_row_count]
    rw [hcons] at h1 h2 h3
    obtain ⟨t1, q1, l1⟩ := memcpy_ok st.times attributes[c].times st.cur_row_count
      attributes[c].table.row_count ⟨a1, by omega, a2, by rw [hk]; omega⟩
    obtain ⟨t2, q2, l2⟩ := memcpy_ok st.priorities attributes[c].priorities st.cur_row_count
      attributes[c].table.row_count ⟨a1, by omega, a3, by rw [hk]; omega⟩
    obtain ⟨t3, q3, l3⟩ := memcpy_ok st.tombstones attributes[c].tombstones st.cur_row_count
      attributes[c].table.row_count ⟨a1, by omega, a4, by rw [hk]; omega⟩
    rw [meta_loop, load_natCast, List.getElem?_eq_getElem hc]
    simp only
    rw [q1, q2, q3]
    simp only
    rw [e3]
    apply ih (c + 1) (k + attributes[c].table.row_count.toNat) _ (by omega)
    · show st.cur_row_count + attributes[c].table.row_count = _
      rw [hk]
      push_cast
      omega
    · exact hrest
    · show _ ≤ (t1.length : Int)
      rw [l1]
      push_cast
      omega
    · show _ ≤ (t2.length : Int)
      rw [l2]
      push_cast
      omega
    · show _ ≤ (t3.length : Int)
      rw [l3]
      push_cast
      omega

theorem grow_array_length {α : Type} [Inhabited α] (array : List α) (old_len new_len : Int) :
    new_len.toNat ≤ (ZEBRA_GROW_ARRAY array old_len new_len).length := by
  unfold ZEBRA_GROW_ARRAY
  rw [List.length_append, List.length_replicate]
  omega

theorem append_tables_loop_fail_fast (attributes : List zebra_attribute_t) (k : Nat)
    (e : error_t) (fail_table : zebra_table_t) (he : e ≠ .ZEBRA_SUCCESS) :
    ∀ (remaining c : Nat) (tables : List zebra_table_t), c ≤ k → k < c + remaining →
      (∀ j, c ≤ j → j < k → ∃ attr block_table block_table1,
        attributes[j]? = some attr ∧ tables[j]? = some block_table ∧
        zebra_append_table attr.table 0 block_table attr.table.row_count =
          some (.ZEBRA_SUCCESS, block_table1)) →
      (∃ attr block_table, attributes[k]? = some attr ∧ tables[k]? = some block_table ∧
        zebra_append_table attr.table 0 block_table attr.table.row_count =
          some (e, fail_table)) →
      ∃ tables1, append_tables_loop attributes remaining (c : Int) tables = some (e, tables1) ∧
        tables1.length = tables.length ∧
        (∀ j, c ≤ j → j < k → ∃ attr block_table block_table1,
          attributes[j]? = some attr ∧ tables[j]? = some block_table ∧
          zebra_append_table attr.table 0 block_table attr.table.row_count =
            some (.ZEBRA_SUCCESS, block_table1) ∧ tables1[j]? = some block_table1) ∧
        tables1[k]? = some fail_table ∧
        ∀ j, j < c ∨ k < j → tables1[j]? = tables[j]? := by
  intro remaining
  induction remaining with
  | zero => intro c tables h1 h2; omega
  | succ remaining ih =>
    intro c tables h1 h2 hbelow hat
    have e3 : (c : Int) + 1 = ((c + 1 : Nat) : Int) := by push_cast; rfl
    rcases Nat.eq_or_lt_of_le h1 with hck | hck
    · subst hck
      obtain ⟨attr, bt, r1, r2, r3⟩ := hat
      have hlt : c < tables.length := (List.getElem?_eq_some_iff.1 r2).1
      rw [append_tables_loop, load_natCast, load_natCast, r1, r2]
      simp only
      rw [r3]
      simp only
      rw [if_pos he]
      refine ⟨_, rfl, by simp, fun j hj1 hj2 => by omega, ?_, fun j hj => ?_⟩
      · simp only [Int.toNat_ofNat]
        rw [List.getElem?_set_self hlt]
      · simp only [Int.toNat_ofNat]
        rw [List.getElem?_set_ne (by omega)]
    · obtain ⟨attr, bt, bt1, r1, r2, r3⟩ := hbelow c (le_refl _) hck
      have hlt : c < tables.length := (List.getElem?_eq_some_iff.1 r2).1
      have hkeep : ∀ j, j ≠ c → (tables.set c bt1)[j]? = tables[j]? :=
        fun j hj => List.getElem?_set_ne (by omega)
      obtain ⟨tables1, p1, p2, p3, p4, p5⟩ := ih (c + 1) (tables.set c bt1) (by omega)
        (by omega)
        (fun j hj1 hj2 => by
          obtain ⟨a, b, b1, s1, s2, s3⟩ := hbelow j (by omega) hj2
          exact ⟨a, b, b1, s1, by rw [hkeep j (by omega)]; exact s2, s3⟩)
        (by
          obtain ⟨a, b, s1, s2, s3⟩ := hat
          exact ⟨a, b, s1, by rw [hkeep k (by omega)]; exact s2, s3⟩)
      rw [append_tables_loop, load_natCast, load_natCast, r1, r2]
      simp only
      rw [r3]
      simp only [ne_eq, not_true_eq_false, if_false, Int.toNat_ofNat]
      rw [e3, p1]
      refine ⟨tables1, rfl, by rw [p2, List.length_set], fun j hj1 hj2 => ?_, p4,
        fun j hj => ?_⟩
      · rcases Nat.eq_or_lt_of_le hj1 with hj | hj
        · subst hj
          refine ⟨attr, bt, bt1, r1, r2, r3, ?_⟩
          rw [p5 c (Or.inl (by omega)), List.getElem?_set_self hlt]
        · obtain ⟨a, b, b1, s1, s2, s3, s4⟩ := p3 j (by omega) hj2
          rw [hkeep j (by omega)] at s2
          exact ⟨a, b, b1, s1, s2, s3, s4⟩
      · rw [p5 j (by omega), hkeep j (by omega)]

/-- C20: block append does not roll back on a mid-loop failure.  For an existing block with
tables and an entity with the matching attribute count (both holding the rows they
announce), when the table appends of attributes `0..c-1` succeed and that of attribute `c`
returns the error `e`, `zebra_append_block_entity` returns exactly `e`, and the caller's
block is left with `entity_count` incremented, the new record stored after the earlier
ones, `row_count` and the `times`/`priorities`/`tombstones` arrays extended by the rows of
all the entity's attributes, tables `0..c-1` replaced by their appended versions, table `c`
as its failed append left it, and the tables above `c` unchanged. -/
theorem zebra_append_block_entity_no_rollback (entity : zebra_entity_t)
    (block : zebra_block_t) (tables : List zebra_table_t) (c : Nat) (e : error_t)
    (fail_table : zebra_table_t)
    (h_id : 0 ≤ entity.id_length ∧ entity.id_length.toNat ≤ entity.id_bytes.length)
    (h_count : 0 ≤ entity.attribute_count)
    (h_attrs : entity.attribute_count.toNat ≤ entity.attributes.length)
    (h_rows : ∀ attr ∈ entity.attributes.take entity.attribute_count.toNat,
      0 ≤ attr.table.row_count ∧
      attr.table.row_count.toNat ≤ attr.times.length ∧
      attr.table.row_count.toNat ≤ attr.priorities.length ∧
      attr.table.row_count.toNat ≤ attr.tombstones.length)
    (h_ec : 0 ≤ block.entity_count)
    (h_entities : block.entity_count.toNat ≤ block.entities.length)
    (h_rc : 0 ≤ block.row_count)
    (h_times : block.row_count.toNat ≤ block.times.length)
    (h_priorities : block.row_count.toNat ≤ block.priorities.length)
    (h_tombstones : block.row_count.toNat ≤ block.tombstones.length)
    (h_tables : block.tables = some tables)
    (h_match : entity.attribute_count = block.table_count)
    (h_c : c < entity.attribute_count.toNat)
    (h_below : ∀ j, j < c → ∃ attr block_table block_table1,
      entity.attributes[j]? = some attr ∧ tables[j]? = some block_table ∧
      zebra_append_table attr.table 0 block_table attr.table.row_count =
        some (.ZEBRA_SUCCESS, block_table1))
    (h_at : ∃ attr block_table,
      entity.attributes[c]? = some attr ∧ tables[c]? = some block_table ∧
      zebra_append_table attr.table 0 block_table attr.table.row_count =
        some (e, fail_table))
    (h_e : e ≠ .ZEBRA_SUCCESS) :
    ∃ block1, zebra_append_block_entity entity (some block) = some (e, some block1) ∧
      block1.entity_count = block.entity_count + 1 ∧
      (∃ record, zebra_fill_block_entity entity = some (.ZEBRA_SUCCESS, record) ∧
        block1.entities[block.entity_count.toNat]? = some record) ∧
      (∀ i, i < block.entity_count.toNat → block1.entities[i]? = block.entities[i]?) ∧
      block1.row_count = block.row_count +
        total_row_count (entity.attributes.take entity.attribute_count.toNat) ∧
      block1.times = block.times.take block.row_count.toNat ++
        attribute_rows (fun attr => attr.times)
          (entity.attributes.take entity.attribute_count.toNat) ∧
      block1.priorities = block.priorities.take block.row_count.toNat ++
        attribute_rows (fun attr => attr.priorities)
          (entity.attributes.take entity.attribute_count.toNat) ∧
      block1.tombstones = block.tombstones.take block.row_count.toNat ++
        attribute_rows (fun attr => attr.tombstones)
          (entity.attributes.take entity.attribute_count.toNat) ∧
      block1.table_count = block.table_count ∧
      ∃ tables1, block1.tables = some tables1 ∧ tables1.length = tables.length ∧
        (∀ j, j < c → ∃ attr block_table block_table1,
          entity.attributes[j]? = some attr ∧ tables[j]? = some block_table ∧
          zebra_append_table attr.table 0 block_table attr.table.row_count =
            some (.ZEBRA_SUCCESS, block_table1) ∧ tables1[j]? = some block_table1) ∧
        tables1[c]? = some fail_table ∧
        ∀ j, c < j → tables1[j]? = tables[j]? := by
  obtain ⟨record, hf⟩ := zebra_fill_block_entity_ok entity h_id h_count h_attrs
  have hlen := grow_array_length block.entities block.entity_count (block.entity_count + 1)
  have hs : store (ZEBRA_GROW_ARRAY block.entities block.entity_count (block.entity_count + 1))
      block.entity_count record =
      some ((ZEBRA_GROW_ARRAY block.entities block.entity_count (block.entity_count + 1)).set
        block.entity_count.toNat record) := by
    unfold store
    rw [if_pos ⟨h_ec, by omega⟩]
  have hn := new_row_count_loop_ok entity.attributes entity.attribute_count.toNat 0
    block.row_count (by omega)
  rw [List.drop_zero] at hn
  have htot : 0 ≤ total_row_count (entity.attributes.take entity.attribute_count.toNat) := by
    unfold total_row_count
    apply List.sum_nonneg
    intro x hx
    obtain ⟨a, ha, rfl⟩ := List.mem_map.1 hx
    exact (h_rows a ha).1
  have hg1 := grow_array_length block.times block.row_count (block.row_count +
    total_row_count (entity.attributes.take entity.attribute_count.toNat))
  have hg2 := grow_array_length block.priorities block.row_count (block.row_count +
    total_row_count (entity.attributes.take entity.attribute_count.toNat))
  have hg3 := grow_array_length block.tombstones block.row_count (block.row_count +
    total_row_count (entity.attributes.take entity.attribute_count.toNat))
  obtain ⟨st, hm⟩ := meta_loop_ok entity.attributes entity.attribute_count.toNat 0
    block.row_count.toNat
    ⟨ZEBRA_GROW_ARRAY block.times block.row_count (block.row_count +
        total_row_count (entity.attributes.take entity.attribute_count.toNat)),
     ZEBRA_GROW_ARRAY block.priorities block.row_count (block.row_count +
        total_row_count (entity.attributes.take entity.attribute_count.toNat)),
     ZEBRA_GROW_ARRAY block.tombstones block.row_count (block.row_count +
        total_row_count (entity.attributes.take entity.attribute_count.toNat)),
     block.row_count⟩ (by omega) (Int.toNat_of_nonneg h_rc).symm
    (by rw [List.drop_zero]; exact h_rows)
    (by rw [List.drop_zero]; show _ ≤ ((ZEBRA_GROW_ARRAY _ _ _).length : Int); omega)
    (by rw [List.drop_zero]; show _ ≤ ((ZEBRA_GROW_ARRAY _ _ _).length : Int); omega)
    (by rw [List.drop_zero]; show _ ≤ ((ZEBRA_GROW_ARRAY _ _ _).length : Int); omega)
  obtain ⟨tables1, ha, p2, p3, p4, p5⟩ := append_tables_loop_fail_fast entity.attributes c e
    fail_table h_e entity.attribute_count.toNat 0 tables (by omega) (by omega)
    (fun j _ hj => h_below j hj) h_at
  have e0 : ((0 : Nat) : Int) = 0 := rfl
  rw [e0] at hn hm ha
  have hbody : append_block_entity_body entity block =
      some (e, ⟨block.entity_count + 1,
        (ZEBRA_GROW_ARRAY block.entities block.entity_count (block.entity_count + 1)).set
          block.entity_count.toNat record,
        block.row_count +
          total_row_count (entity.attributes.take entity.attribute_count.toNat),
        st.times, st.priorities, st.tombstones, block.table_count, some tables1⟩) := by
    unfold append_block_entity_body
    simp only [hf, hs, ne_eq, not_true_eq_false, if_false, hn, hm, h_tables]
    rw [← h_match, ha]
  obtain ⟨m1, m2, m3, m4⟩ :=
    append_block_entity_body_metadata hbody h_rc h_times h_priorities h_tombstones
  refine ⟨_, ?_, rfl, ⟨record, hf, ?_⟩, fun i hi => ?_, m4, m1, m2, m3, rfl,
    tables1, rfl, p2, fun j hj => p3 j (Nat.zero_le _) hj, p4, fun j hj => p5 j (Or.inr hj)⟩
  · rw [zebra_append_block_entity_some entity block h_match, hbody]
  · show ((ZEBRA_GROW_ARRAY block.entities block.entity_count (block.entity_count + 1)).set
      block.entity_count.toNat record)[block.entity_count.toNat]? = some record
    rw [List.getElem?_set_self (by omega)]
  · show ((ZEBRA_GROW_ARRAY block.entities block.entity_count (block.entity_count + 1)).set
      block.entity_count.toNat record)[i]? = block.entities[i]?
    rw [List.getElem?_set_ne (by omega)]
    have := grow_array_getElem? block.entities block.entity_count.toNat i hi h_entities
    rw [Int.toNat_of_nonneg h_ec] at this
    exact this

/-- On the block after E1, attribute 0 of `entity_byte` is appended and attribute 1 fails
with `DifferentColumnTypes`: the block keeps the second entity, four rows of metadata and
the appended table 0. -/
theorem zebra_append_block_entity_no_rollback_witness :
    ∃ block1, zebra_append_block_entity entity_byte (some scenario_block_1) =
        some (.ZEBRA_MERGE_DIFFERENT_COLUMN_TYPES, some block1) ∧
      block1.entity_count = 1 + 1 ∧
      block1.row_count = 4 ∧
      block1.times = [10, 20, 5, 6] ∧
      ∃ tables1, block1.tables = some tables1 ∧
        tables1[0]? = some (.mk 1 1 [.i [7]]) ∧
        tables1[1]? = some (.mk 3 1 [.i [100, 200, 0]]) := by
  obtain ⟨block1, h1, h2, _, _, h5, h6, _, _, _, tables1, t1, _, t3, t4, _⟩ :=
    zebra_append_block_entity_no_rollback entity_byte scenario_block_1
      [.mk 0 1 [.i []], .mk 2 1 [.i [100, 200]]] 1 .ZEBRA_MERGE_DIFFERENT_COLUMN_TYPES
      (.mk 3 1 [.i [100, 200, 0]])
      (by decide) (by decide) (by decide)
      (fun attr h => by
        have h : attr = attribute_of [7] [5] ∨
            attr = ⟨.mk 1 1 [.b [1]], [6], [0], [false]⟩ := by
          simpa [entity_byte, example_entity] using h
        rcases h with rfl | rfl <;> decide)
      (by decide) (by decide) (by decide) (by decide) (by decide) (by decide) rfl rfl
      (by decide)
      (fun j hj => by
        have : j = 0 := by omega
        subst this
        exact ⟨attribute_of [7] [5], .mk 0 1 [.i []], .mk 1 1 [.i [7]], rfl, rfl, rfl⟩)
      ⟨⟨.mk 1 1 [.b [1]], [6], [0], [false]⟩, .mk 2 1 [.i [100, 200]], rfl, rfl, rfl⟩
      (by decide)
  obtain ⟨attr, bt, bt1, r1, r2, r3, r4⟩ := t3 0 (by decide)
  have r1 : attr = attribute_of [7] [5] := by
    have : entity_byte.attributes[0]? = some (attribute_of [7] [5]) := rfl
    rw [this] at r1
    exact (Option.some.inj r1).symm
  have r2 : bt = .mk 0 1 [.i []] := (Option.some.inj r2).symm
  subst r1 r2
  have r3 : bt1 = .mk 1 1 [.i [7]] := by
    have : zebra_append_table (attribute_of [7] [5]).table 0 (.mk 0 1 [.i []])
        (attribute_of [7] [5]).table.row_count = some (.ZEBRA_SUCCESS, .mk 1 1 [.i [7]]) := rfl
    rw [this] at r3
    exact ((Prod.mk.inj (Option.some.inj r3)).2).symm
  subst r3
  exact ⟨block1, h1, h2, h5, h6, tables1, t1, r4, t4⟩

/-! ## The attribute appender -/

/-- Inversion of `zebra_append_attribute`: the steps of a successful call. -/
theorem zebra_append_attribute_cases {in_ out out1 : zebra_attribute_t} {ix : Int}
    (h : zebra_append_attribute in_ ix out = some (.ZEBRA_SUCCESS, out1)) :
    ∃ table1 time priority tombstone,
      zebra_append_table in_.table ix
        (.mk (out.table.row_count + 1 - 1) out.table.column_count
          (out.table.columns.map (zebra_grow_column (out.table.row_count + 1)))) 1 =
        some (.ZEBRA_SUCCESS, table1) ∧
      load in_.times ix = some time ∧
      load in_.priorities ix = some priority ∧
      load in_.tombstones ix = some tombstone ∧
      store (grow_buffer out.times (out.table.row_count + 1)) out.table.row_count time =
        some out1.times ∧
      store (grow_buffer out.priorities (out.table.row_count + 1)) out.table.row_count
        priority = some out1.priorities ∧
      store (grow_buffer out.tombstones (out.table.row_count + 1)) out.table.row_count
        tombstone = some out1.tombstones ∧
      out1.table = table1 := by
  unfold zebra_append_attribute at h
  simp only [zebra_grow_attribute, zebra_grow_table, ne_eq, not_true_eq_false, if_false,
    zebra_table_t.row_count, zebra_table_t.column_count, columns_mk] at h
  split at h
  · cases h
  · rename_i err table1 ha
    split at h
    · rename_i he
      cases h
      exact absurd rfl he
    · rename_i he
      have he : err = .ZEBRA_SUCCESS := by
        by_contra hne
        exact he hne
      subst he
      split at h
      · cases h
      · rename_i time h1
        split at h
        · cases h
        · rename_i times h2
          split at h
          · cases h
          · rename_i priority h3
            split at h
            · cases h
            · rename_i priorities h4
              split at h
              · cases h
              · rename_i tombstone h5
                split at h
                · cases h
                · rename_i tombstones h6
                  cases h
                  exact ⟨table1, time, priority, tombstone, ha, h1, h3, h5, h2, h4, h6, rfl⟩

theorem store_grow_buffer {α : Type} [Inhabited α] {buf buf1 : List α} {r : Int} {v : α}
    (h_len : r.toNat ≤ buf.length)
    (h : store (grow_buffer buf (r + 1)) r v = some buf1) :
    buf1[r.toNat]? = some v ∧ ∀ j, j < r.toNat → buf1[j]? = buf[j]? := by
  obtain ⟨_, s2, s3⟩ := store_eq_some h
  subst s3
  refine ⟨List.getElem?_set_self s2, fun j hj => ?_⟩
  rw [List.getElem?_set_ne (by omega), grow_buffer_getElem? _ _ _ (by omega)]

/-- C12, amended: the attribute appender appends exactly one row.  For well-formed attribute
tables of the same schema, a row index `ix` inside the source, a destination whose
metadata arrays hold its `r = out.table.row_count` rows, and offsets to be written for
the row that fit an `int64_t` at every depth (`table_append_fits`), a successful
`zebra_append_attribute (in, ix, out)` leaves `out.table.row_count = r + 1`, sets
`out.times[r] = in.times[ix]`, `out.priorities[r] = in.priorities[ix]` and
`out.tombstones[r] = in.tombstones[ix]`, makes row `r` of the destination table the
(decoded) row `ix` of the source table, column by column, and leaves rows `0..r-1` of the
metadata arrays and of the table unchanged. -/
theorem zebra_append_attribute_one_row (in_ out out1 : zebra_attribute_t) (ix : Nat)
    (h_in : table_well_formed in_.table) (h_out : table_well_formed out.table)
    (h_schema : same_schema_table in_.table out.table)
    (h_ix : ix < in_.table.row_count.toNat)
    (h_times : out.table.row_count.toNat ≤ out.times.length)
    (h_priorities : out.table.row_count.toNat ≤ out.priorities.length)
    (h_tombstones : out.table.row_count.toNat ≤ out.tombstones.length)
    (h_fits : table_append_fits in_.table ix out.table 1)
    (h : zebra_append_attribute in_ (ix : Int) out = some (.ZEBRA_SUCCESS, out1)) :
    out1.table.row_count = out.table.row_count + 1 ∧
    (∃ time, in_.times[ix]? = some time ∧
      out1.times[out.table.row_count.toNat]? = some time) ∧
    (∃ priority, in_.priorities[ix]? = some priority ∧
      out1.priorities[out.table.row_count.toNat]? = some priority) ∧
    (∃ tombstone, in_.tombstones[ix]? = some tombstone ∧
      out1.tombstones[out.table.row_count.toNat]? = some tombstone) ∧
    decode_table out1.table out.table.row_count.toNat = decode_table in_.table ix ∧
    ∀ j, j < out.table.row_count.toNat →
      out1.times[j]? = out.times[j]? ∧ out1.priorities[j]? = out.priorities[j]? ∧
      out1.tombstones[j]? = out.tombstones[j]? ∧
      decode_table out1.table j = decode_table out.table j := by
  obtain ⟨table1, time, priority, tombstone, ha, l1, l2, l3, s1, s2, s3, ht⟩ :=
    zebra_append_attribute_cases h
  subst ht
  rw [load_natCast] at l1 l2 l3
  obtain ⟨a1, a2⟩ := store_grow_buffer h_times s1
  obtain ⟨b1, b2⟩ := store_grow_buffer h_priorities s2
  obtain ⟨c1, c2⟩ := store_grow_buffer h_tombstones s3
  cases hot : out.table with
  | mk r cc cols =>
    rw [hot] at ha h_out h_schema h_fits a1 a2 b1 b2 c1 c2
    simp only [zebra_table_t.row_count, zebra_table_t.column_count, columns_mk]
      at ha a1 a2 b1 b2 c1 c2 ⊢
    have e1 : r + 1 - 1 = r := by omega
    rw [e1] at ha
    obtain ⟨hw0, hw1, hwc, hwb⟩ := (table_well_formed_mk r cc cols).1 h_out
    have hw2 : table_well_formed (.mk r cc (cols.map (zebra_grow_column (r + 1)))) := by
      rw [table_well_formed_mk]
      exact ⟨hw0, by rw [List.length_map]; exact hw1,
        columns_grow_well_formed _ _ _ hwc, hwb⟩
    have hs2 : same_schema_table in_.table
        (.mk r cc (cols.map (zebra_grow_column (r + 1)))) := by
      cases hit : in_.table with
      | mk ri ci colsi =>
        rw [hit] at h_schema
        rw [same_schema_table_mk] at h_schema ⊢
        exact ⟨h_schema.1, same_schema_columns_grow _ _ _ h_schema.2⟩
    have hf2 : table_append_fits in_.table ix
        (.mk r cc (cols.map (zebra_grow_column (r + 1)))) 1 := by
      cases hit : in_.table with
      | mk ri ci colsi =>
        rw [hit] at h_fits
        rw [table_append_fits_mk] at h_fits ⊢
        exact (columns_append_fit_grow _ _ _ _ _).2 h_fits
    have e2 : ((1 : Nat) : Int) = 1 := rfl
    rw [← e2] at ha
    obtain ⟨d1, d2⟩ := append_decodes_both.2 in_.table _ out1.table ix 1 h_in hw2 hs2
      (by omega) hf2 ha
    simp only [zebra_table_t.row_count] at d1 d2
    have hrc := append_table_row_count_eq ha
    simp only [zebra_table_t.row_count] at hrc
    refine ⟨by rw [hrc]; rfl, ⟨time, l1, a1⟩, ⟨priority, l2, b1⟩, ⟨tombstone, l3, c1⟩, ?_,
      fun j hj => ⟨a2 j hj, b2 j hj, c2 j hj, ?_⟩⟩
    · have := d2 0 (by omega)
      simpa using this
    · rw [d1 j hj, decode_table_mk, decode_table_mk, columns_grow_decode _ _ _ hwc j hj]

theorem attribute_source_well_formed : table_well_formed attribute_source.table := by
  show table_well_formed (.mk 3 1 [nested_source])
  rw [table_well_formed_mk, columns_well_formed_cons]
  exact ⟨by decide, rfl, ⟨nested_source_well_formed, by rw [columns_well_formed]; trivial⟩,
    by decide⟩

theorem attribute_destination_well_formed :
    table_well_formed attribute_destination.table := by
  show table_well_formed (.mk 1 1 [nested_destination])
  rw [table_well_formed_mk, columns_well_formed_cons]
  exact ⟨by decide, rfl,
    ⟨nested_destination_well_formed, by rw [columns_well_formed]; trivial⟩, by decide⟩

theorem attribute_fits :
    table_append_fits attribute_source.table 2 attribute_destination.table 1 := by
  show table_append_fits (.mk 3 1 [nested_source]) 2 (.mk 1 1 [nested_destination]) 1
  unfold nested_source nested_destination
  rw [table_append_fits_mk, columns_append_fit_cons, column_append_fits_a,
    table_append_fits_mk, columns_append_fit_cons, columns_append_fit_cons,
    column_append_fits_a, table_append_fits_mk, columns_append_fit_cons]
  refine ⟨⟨by decide, by decide, ?_, ⟨by decide, by decide, ?_, ?_⟩, ?_⟩, ?_⟩
  · simp only [column_append_fits]
  · simp only [column_append_fits]
  · simp only [columns_append_fit]
  · simp only [columns_append_fit]
  · simp only [columns_append_fit]

theorem attribute_same_schema :
    same_schema_table attribute_source.table attribute_destination.table := by
  show same_schema_table (.mk 3 1 [nested_source]) (.mk 1 1 [nested_destination])
  rw [same_schema_table_mk, same_schema_columns_cons]
  exact ⟨rfl, nested_same_schema, by rw [same_schema_columns]; trivial⟩

/-- Row 2 of `attribute_source` appended onto the one row of `attribute_destination`: the
table has two rows, the metadata of row 1 is that of the source's row 2, and row 1 of the
table decodes to the source's row 2. -/
theorem zebra_append_attribute_one_row_witness :
    zebra_append_attribute attribute_source 2 attribute_destination =
      some (.ZEBRA_SUCCESS, attribute_result) ∧
    attribute_result.table.row_count = 1 + 1 ∧
    (∃ time, attribute_source.times[2]? = some time ∧
      attribute_result.times[1]? = some time) ∧
    decode_table attribute_result.table 1 = decode_table attribute_source.table 2 ∧
    decode_table attribute_source.table 2 =
      [.array [[.scalar (.int 40), .array [[.scalar (.byte 4)]]],
               [.scalar (.int 50), .array [[.scalar (.byte 5)]]]]] := by
  obtain ⟨h1, h2, _, _, h5, _⟩ := zebra_append_attribute_one_row attribute_source
    attribute_destination attribute_result 2 attribute_source_well_formed
    attribute_destination_well_formed attribute_same_schema (by decide) (by decide)
    (by decide) (by decide) attribute_fits rfl
  exact ⟨rfl, h1, h2, h5, rfl⟩

/-! ## Appending a range in two pieces -/

theorem copy_rows_split {α : Type} (src dst : List α) (a b m k : Nat)
    (h1 : a + m + k ≤ src.length) (h2 : b + m + k ≤ dst.length) :
    ∃ d1 d2, copy_rows src (a : Int) dst (b : Int) (m : Int) = some d1 ∧
      copy_rows src ((a + m : Nat) : Int) d1 ((b + m : Nat) : Int) (k : Int) = some d2 ∧
      copy_rows src (a : Int) dst (b : Int) ((m + k : Nat) : Int) = some d2 ∧
      d1.length = dst.length ∧ d2.length = dst.length := by
  obtain ⟨d1, e1⟩ := copy_rows_ok src dst a b m (by omega) (by omega)
  obtain ⟨_, l1, g1⟩ := copy_rows_spec _ _ _ _ _ _ e1
  obtain ⟨d2, e2⟩ := copy_rows_ok src d1 (a + m) (b + m) k (by omega) (by omega)
  obtain ⟨_, l2, g2⟩ := copy_rows_spec _ _ _ _ _ _ e2
  obtain ⟨d12, e12⟩ := copy_rows_ok src dst a b (m + k) (by omega) (by omega)
  obtain ⟨_, l12, g12⟩ := copy_rows_spec _ _ _ _ _ _ e12
  have heq : d12 = d2 := by
    apply List.ext_getElem?
    intro j
    rw [g12, g2, g1]
    by_cases c1 : b + m ≤ j ∧ j < b + m + k
    · rw [if_pos c1, if_pos (by omega)]
      congr 1
      omega
    · rw [if_neg c1]
      by_cases c2 : b ≤ j ∧ j < b + m
      · rw [if_pos c2, if_pos (by omega)]
      · rw [if_neg c2, if_neg (by omega)]
  rw [heq] at e12
  exact ⟨d1, d2, e1, e2, e12, l1, by rw [l2, l1]⟩

theorem array_loop_ok (in_n : List Int) (a b : Nat) (s : Int) :
    ∀ (remaining ix : Nat) (st : array_state),
      a + ix + remaining ≤ in_n.length → b + ix + remaining ≤ st.n.length →
      b + ix + remaining ≤ st.s.length →
      ∃ st1, array_loop in_n (a : Int) (b : Int) s remaining (ix : Int) st = some st1 := by
  intro remaining
  induction remaining with
  | zero => intro ix st _ _ _; exact ⟨st, rfl⟩
  | succ remaining ih =>
    intro ix st h1 h2 h3
    have e1 : (a : Int) + (ix : Int) = ((a + ix : Nat) : Int) := by push_cast; rfl
    have e2 : (b : Int) + (ix : Int) = ((b + ix : Nat) : Int) := by push_cast; rfl
    have e3 : (ix : Int) + 1 = ((ix + 1 : Nat) : Int) := by push_cast; rfl
    rw [array_loop, e1, e2, e3, load_natCast]
    have hs : a + ix < in_n.length := by omega
    rw [List.getElem?_eq_getElem hs]
    simp only [store_natCast]
    rw [if_pos (by omega), if_pos (by omega)]
    exact ih (ix + 1) _ (by omega) (by simp only [List.length_set]; omega)
      (by simp only [List.length_set]; omega)

theorem array_rows_ok (in_n out_n out_s : List Int) (a b count : Nat) (s : Int)
    (h1 : a + count ≤ in_n.length) (h2 : b + count ≤ out_n.length)
    (h3 : b + count ≤ out_s.length) :
    ∃ st1, array_rows in_n (a : Int) out_n out_s (b : Int) s (count : Int) = some st1 := by
  unfold array_rows
  have hc : ¬ ((count : Int) < 0) := by omega
  rw [if_neg hc]
  have := array_loop_ok in_n a b s count 0 ⟨out_n, out_s, 0⟩ (by omega)
    (show b + 0 + count ≤ out_n.length by omega) (show b + 0 + count ≤ out_s.length by omega)
  simpa using this

theorem array_rows_split (in_n out_n out_s : List Int) (a b m k : Nat) (s : Int)
    (h1 : a + m + k ≤ in_n.length) (h2 : b + m + k ≤ out_n.length)
    (h3 : b + m + k ≤ out_s.length)
    (hc1 : int64_range (range_sum in_n a m)) (hc2 : int64_range (range_sum in_n (a + m) k))
    (hc12 : int64_range (range_sum in_n a m + range_sum in_n (a + m) k)) :
    ∃ st1 st2 st12,
      array_rows in_n (a : Int) out_n out_s (b : Int) s (m : Int) = some st1 ∧
      array_rows in_n ((a + m : Nat) : Int) st1.n st1.s ((b + m : Nat) : Int)
        (wrap64 (s + range_sum in_n a m)) (k : Int) = some st2 ∧
      array_rows in_n (a : Int) out_n out_s (b : Int) s ((m + k : Nat) : Int) = some st12 ∧
      st12.n = st2.n ∧ st12.s = st2.s ∧
      st1.nested_count = range_sum in_n a m ∧
      st2.nested_count = range_sum in_n (a + m) k ∧
      st12.nested_count = range_sum in_n a m + range_sum in_n (a + m) k ∧
      st1.n.length = out_n.length ∧ st1.s.length = out_s.length ∧
      (0 < m → st1.s[b + m - 1]? = some (wrap64 (s + range_sum in_n a m))) := by
  obtain ⟨st1, e1⟩ := array_rows_ok in_n out_n out_s a b m s (by omega) (by omega) (by omega)
  obtain ⟨_, ln1, ls1, c1, gn1, gs1⟩ := array_rows_spec e1
  obtain ⟨st2, e2⟩ := array_rows_ok in_n st1.n st1.s (a + m) (b + m) k
    (wrap64 (s + range_sum in_n a m)) (by omega) (by omega) (by omega)
  obtain ⟨_, ln2, ls2, c2, gn2, gs2⟩ := array_rows_spec e2
  obtain ⟨st12, e12⟩ := array_rows_ok in_n out_n out_s a b (m + k) s (by omega) (by omega)
    (by omega)
  obtain ⟨_, ln12, ls12, c12, gn12, gs12⟩ := array_rows_spec e12
  rw [wrap64_of_range hc1] at c1
  rw [wrap64_of_range hc2] at c2
  rw [range_sum_add, wrap64_of_range hc12] at c12
  refine ⟨st1, st2, st12, e1, e2, e12, ?_, ?_, c1, c2, c12, ln1, ls1, fun hm => ?_⟩
  · apply List.ext_getElem?
    intro j
    rw [gn12, gn2, gn1]
    by_cases q1 : b + m ≤ j ∧ j < b + m + k
    · rw [if_pos q1, if_pos (by omega)]
      congr 1
      omega
    · rw [if_neg q1]
      by_cases q2 : b ≤ j ∧ j < b + m
      · rw [if_pos q2, if_pos (by omega)]
      · rw [if_neg q2, if_neg (by omega)]
  · apply List.ext_getElem?
    intro j
    rw [gs12, gs2, gs1]
    by_cases q1 : b + m ≤ j ∧ j < b + m + k
    · rw [if_pos q1, if_pos (by omega)]
      have e : j - b + 1 = m + (j - (b + m) + 1) := by omega
      rw [e, range_sum_add, wrap64_add_left, Int.add_assoc]
    · rw [if_neg q1]
      by_cases q2 : b ≤ j ∧ j < b + m
      · rw [if_pos q2, if_pos (by omega)]
      · rw [if_neg q2, if_neg (by omega)]
  · rw [gs1, if_pos (by omega)]
    have e : b + m - 1 - b + 1 = m := by omega
    rw [e]

theorem grow_buffer_grow_buffer {α : Type} [Inhabited α] (buf : List α) (l1 l2 : Int)
    (h : l1 ≤ l2) : grow_buffer (grow_buffer buf l1) l2 = grow_buffer buf l2 := by
  unfold grow_buffer
  have := Int.toNat_le_toNat h
  rw [List.append_assoc, ← List.replicate_add, List.length_append, List.length_replicate]
  congr 2
  omega

theorem zebra_grow_column_grow (l1 l2 : Int) (h : l1 ≤ l2) (c : zebra_column_t) :
    zebra_grow_column l2 (zebra_grow_column l1 c) = zebra_grow_column l2 c := by
  cases c <;> simp [zebra_grow_column, grow_buffer_grow_buffer _ _ _ h]

theorem load_append {α : Type} {buf : List α} {ix : Int} {v : α} (tail : List α)
    (h : load buf ix = some v) : load (buf ++ tail) ix = some v := by
  obtain ⟨h0, h1⟩ := load_eq_some h
  unfold load
  rw [if_pos h0, List.getElem?_append_left (List.getElem?_eq_some_iff.1 h1).1]
  exact h1

theorem store_append {α : Type} {buf buf1 : List α} {ix : Int} {v : α} (tail : List α)
    (h : store buf ix v = some buf1) :
    store (buf ++ tail) ix v = some (buf1 ++ tail) ∧ buf1.length = buf.length := by
  obtain ⟨h0, h1, h2⟩ := store_eq_some h
  subst h2
  unfold store
  rw [if_pos ⟨h0, by rw [List.length_append]; omega⟩, List.set_append_left _ _ h1]
  exact ⟨rfl, List.length_set _ _ _⟩

theorem copy_loop_append {α : Type} (src : List α) (in_ix out_ix : Int) (tail : List α) :
    ∀ (remaining : Nat) (ix : Int) (dst dst1 : List α),
      copy_loop src in_ix out_ix remaining ix dst = some dst1 →
      copy_loop src in_ix out_ix remaining ix (dst ++ tail) = some (dst1 ++ tail) ∧
        dst1.length = dst.length := by
  intro remaining
  induction remaining with
  | zero =>
    intro ix dst dst1 h
    rw [copy_loop] at h
    cases h
    exact ⟨rfl, rfl⟩
  | succ remaining ih =>
    intro ix dst dst1 h
    rw [copy_loop] at h ⊢
    cases hl : load src (in_ix + ix) with
    | none => rw [hl] at h; cases h
    | some v =>
      rw [hl] at h
      simp only at h ⊢
      cases hs : store dst (out_ix + ix) v with
      | none => rw [hs] at h; cases h
      | some d =>
        rw [hs] at h
        simp only at h
        obtain ⟨q1, q2⟩ := store_append tail hs
        rw [q1]
        simp only
        obtain ⟨r1, r2⟩ := ih _ _ _ h
        exact ⟨r1, by rw [r2, q2]⟩

theorem copy_rows_grow {α : Type} [Inhabited α] {src dst dst1 : List α}
    {in_ix out_ix count : Int} (l : Int)
    (h : copy_rows src in_ix dst out_ix count = some dst1) :
    copy_rows src in_ix (grow_buffer dst l) out_ix count = some (grow_buffer dst1 l) := by
  unfold copy_rows at h ⊢
  split at h
  · cases h
  · rename_i hc
    rw [if_neg hc]
    obtain ⟨q1, q2⟩ := copy_loop_append src in_ix out_ix
      (List.replicate (l.toNat - dst.length) default) _ _ _ _ h
    unfold grow_buffer
    rw [q1, q2]

theorem array_loop_append (in_n : List Int) (in_ix out_ix s : Int) (tn ts : List Int) :
    ∀ (remaining : Nat) (ix : Int) (st st1 : array_state),
      array_loop in_n in_ix out_ix s remaining ix st = some st1 →
      array_loop in_n in_ix out_ix s remaining ix ⟨st.n ++ tn, st.s ++ ts, st.nested_count⟩ =
        some ⟨st1.n ++ tn, st1.s ++ ts, st1.nested_count⟩ ∧
      st1.n.length = st.n.length ∧ st1.s.length = st.s.length := by
  intro remaining
  induction remaining with
  | zero =>
    intro ix st st1 h
    rw [array_loop] at h
    cases h
    exact ⟨rfl, rfl, rfl⟩
  | succ remaining ih =>
    intro ix st st1 h
    rw [array_loop] at h ⊢
    cases hl : load in_n (in_ix + ix) with
    | none => rw [hl] at h; cases h
    | some v =>
      rw [hl] at h
      simp only at h ⊢
      cases hs : store st.n (out_ix + ix) v with
      | none => rw [hs] at h; cases h
      | some d =>
        rw [hs] at h
        simp only at h
        obtain ⟨q1, q2⟩ := store_append tn hs
        rw [q1]
        simp only
        cases hs2 : store st.s (out_ix + ix) (wrap64 (s + wrap64 (st.nested_count + v))) with
        | none => rw [hs2] at h; cases h
        | some d2 =>
          rw [hs2] at h
          simp only at h
          obtain ⟨p1, p2⟩ := store_append ts hs2
          rw [p1]
          simp only
          obtain ⟨r1, r2, r3⟩ := ih _ _ _ h
          exact ⟨r1, by rw [r2, q2], by rw [r3, p2]⟩

theorem array_rows_grow {in_n out_n out_s : List Int} {in_ix out_ix s count : Int}
    {st : array_state} (l : Int)
    (h : array_rows in_n in_ix out_n out_s out_ix s count = some st) :
    array_rows in_n in_ix (grow_buffer out_n l) (grow_buffer out_s l) out_ix s count =
      some ⟨grow_buffer st.n l, grow_buffer st.s l, st.nested_count⟩ := by
  unfold array_rows at h ⊢
  split at h
  · cases h
  · rename_i hc
    rw [if_neg hc]
    obtain ⟨q1, q2, q3⟩ := array_loop_append in_n in_ix out_ix s
      (List.replicate (l.toNat - out_n.length) default)
      (List.replicate (l.toNat - out_s.length) default) _ _ _ _ h
    unfold grow_buffer
    rw [q1, q2, q3]

theorem out_base_grow {out_s : List Int} {out_so out_ix s : Int} (l : Int)
    (h : out_base out_s out_so out_ix = some s) :
    out_base (grow_buffer out_s l) out_so out_ix = some s := by
  unfold out_base at h ⊢
  split
  · rename_i hp
    rw [if_pos hp] at h
    exact load_append _ h
  · rename_i hp
    rw [if_neg hp] at h
    exact h

/-- Appending onto a column with more spare capacity gives the same column with that
spare capacity. -/
theorem zebra_append_column_grow (l : Int) {in_ out out1 : zebra_column_t}
    {in_ix out_ix count : Int} {e : error_t} (hs : same_schema in_ out)
    (h : zebra_append_column in_ in_ix out out_ix count = some (e, out1)) :
    zebra_append_column in_ in_ix (zebra_grow_column l out) out_ix count =
      some (e, zebra_grow_column l out1) := by
  by_cases hc : count = 0
  · subst hc
    rw [zebra_append_column_zero _ _ _ _ (same_schema_type hs)] at h
    cases h
    rw [zebra_append_column_zero _ _ _ _ (by
      rw [zebra_grow_column_type]; exact same_schema_type hs)]
  · cases in_ with
    | b src =>
      cases out with
      | b dst =>
        rw [zebra_append_column_b _ _ _ _ _ hc] at h
        simp only [zebra_grow_column]
        rw [zebra_append_column_b _ _ _ _ _ hc]
        cases hr : copy_rows src in_ix dst out_ix count with
        | none => rw [hr] at h; cases h
        | some d =>
          rw [hr] at h
          cases h
          rw [copy_rows_grow l hr]
          rfl
      | _ => unfold same_schema at hs; exact hs.elim
    | i src =>
      cases out with
      | i dst =>
        rw [zebra_append_column_i _ _ _ _ _ hc] at h
        simp only [zebra_grow_column]
        rw [zebra_append_column_i _ _ _ _ _ hc]
        cases hr : copy_rows src in_ix dst out_ix count with
        | none => rw [hr] at h; cases h
        | some d =>
          rw [hr] at h
          cases h
          rw [copy_rows_grow l hr]
          rfl
      | _ => unfold same_schema at hs; exact hs.elim
    | d src =>
      cases out with
      | d dst =>
        rw [zebra_append_column_d _ _ _ _ _ hc] at h
        simp only [zebra_grow_column]
        rw [zebra_append_column_d _ _ _ _ _ hc]
        cases hr : copy_rows src in_ix dst out_ix count with
        | none => rw [hr] at h; cases h
        | some d =>
          rw [hr] at h
          cases h
          rw [copy_rows_grow l hr]
          rfl
      | _ => unfold same_schema at hs; exact hs.elim
    | a in_n in_s in_so in_t =>
      cases out with
      | a out_n out_s out_so out_t =>
        rw [zebra_append_column_a _ _ _ _ _ _ _ _ _ _ _ hc] at h
        simp only [zebra_grow_column]
        rw [zebra_append_column_a _ _ _ _ _ _ _ _ _ _ _ hc]
        cases hv : value_in_ix in_s in_so in_ix with
        | none => rw [hv] at h; cases h
        | some v =>
          rw [hv] at h
          simp only at h ⊢
          cases hb : out_base out_s out_so out_ix with
          | none => rw [hb] at h; cases h
          | some s0 =>
            rw [hb] at h
            rw [out_base_grow l hb]
            simp only at h ⊢
            cases hr : array_rows in_n in_ix out_n out_s out_ix s0 count with
            | none => rw [hr] at h; cases h
            | some st =>
              rw [hr] at h
              rw [array_rows_grow l hr]
              simp only at h ⊢
              cases ht : zebra_append_table in_t v out_t st.nested_count with
              | none => rw [ht] at h; cases h
              | some r =>
                obtain ⟨e1, t1⟩ := r
                rw [ht] at h
                cases h
                rfl
      | _ => unfold same_schema at hs; exact hs.elim
    | unrecognised tag => unfold same_schema at hs; exact hs.elim

theorem copy_rows_zero {α : Type} (src dst : List α) (in_ix out_ix : Int) :
    copy_rows src in_ix dst out_ix 0 = some dst := by
  unfold copy_rows
  rw [if_neg (by omega)]
  rfl

theorem scalar_append_splits {α : Type} (mk : List α → zebra_column_t)
    (happ : ∀ src dst in_ix out_ix count, 0 ≤ count →
      zebra_append_column (mk src) in_ix (mk dst) out_ix count =
        (copy_rows src in_ix dst out_ix count).map
          (fun d => (error_t.ZEBRA_SUCCESS, mk d)))
    (src dst : List α) (in_ix out_ix m k : Int)
    (h0 : 0 ≤ in_ix) (hr : 0 ≤ out_ix) (hm : 0 ≤ m) (hk : 0 ≤ k)
    (h1 : (in_ix + m + k).toNat ≤ src.length) (h2 : (out_ix + m + k).toNat ≤ dst.length) :
    ∃ out1 out2,
      zebra_append_column (mk src) in_ix (mk dst) out_ix m = some (.ZEBRA_SUCCESS, out1) ∧
      zebra_append_column (mk src) (in_ix + m) out1 (out_ix + m) k =
        some (.ZEBRA_SUCCESS, out2) ∧
      zebra_append_column (mk src) in_ix (mk dst) out_ix (m + k) =
        some (.ZEBRA_SUCCESS, out2) := by
  obtain ⟨a, rfl⟩ := Int.eq_ofNat_of_zero_le h0
  obtain ⟨b, rfl⟩ := Int.eq_ofNat_of_zero_le hr
  obtain ⟨m, rfl⟩ := Int.eq_ofNat_of_zero_le hm
  obtain ⟨k, rfl⟩ := Int.eq_ofNat_of_zero_le hk
  have e1 : (a : Int) + (m : Int) = ((a + m : Nat) : Int) := by push_cast; rfl
  have e2 : (b : Int) + (m : Int) = ((b + m : Nat) : Int) := by push_cast; rfl
  have e3 : (m : Int) + (k : Int) = ((m + k : Nat) : Int) := by push_cast; rfl
  obtain ⟨d1, d2, q1, q2, q3, _, _⟩ := copy_rows_split src dst a b m k (by omega) (by omega)
  refine ⟨mk d1, mk d2, ?_, ?_, ?_⟩
  · rw [happ _ _ _ _ _ hm, q1]
    rfl
  · rw [happ _ _ _ _ _ hk, e1, e2, q2]
    rfl
  · rw [happ _ _ _ _ _ (by omega), e3, q3]
    rfl

theorem column_append_splits_b (src : List Nat) : column_append_splits (.b src) := by
  intro out in_rows in_ix out_ix m k h0 hr hm hk hwi hwo hs hrange hcap
  cases out with
  | b dst =>
    rw [column_well_formed] at hwi hwo
    exact scalar_append_splits zebra_column_t.b (fun src dst in_ix out_ix count hc => by
        by_cases hz : count = 0
        · subst hz
          rw [zebra_append_column_zero (.b src) (.b dst) in_ix out_ix rfl, copy_rows_zero]
          rfl
        · exact zebra_append_column_b _ _ _ _ _ hz)
      src dst in_ix out_ix m k h0 hr hm hk (by omega) hcap
  | _ => unfold same_schema at hs; exact hs.elim

theorem column_append_splits_i (src : List Int) : column_append_splits (.i src) := by
  intro out in_rows in_ix out_ix m k h0 hr hm hk hwi hwo hs hrange hcap
  cases out with
  | i dst =>
    rw [column_well_formed] at hwi hwo
    exact scalar_append_splits zebra_column_t.i (fun src dst in_ix out_ix count hc => by
        by_cases hz : count = 0
        · subst hz
          rw [zebra_append_column_zero (.i src) (.i dst) in_ix out_ix rfl, copy_rows_zero]
          rfl
        · exact zebra_append_column_i _ _ _ _ _ hz)
      src dst in_ix out_ix m k h0 hr hm hk (by omega) hcap
  | _ => unfold same_schema at hs; exact hs.elim

theorem column_append_splits_d (src : List Nat) : column_append_splits (.d src) := by
  intro out in_rows in_ix out_ix m k h0 hr hm hk hwi hwo hs hrange hcap
  cases out with
  | d dst =>
    rw [column_well_formed] at hwi hwo
    exact scalar_append_splits zebra_column_t.d (fun src dst in_ix out_ix count hc => by
        by_cases hz : count = 0
        · subst hz
          rw [zebra_append_column_zero (.d src) (.d dst) in_ix out_ix rfl, copy_rows_zero]
          rfl
        · exact zebra_append_column_d _ _ _ _ _ hz)
      src dst in_ix out_ix m k h0 hr hm hk (by omega) hcap
  | _ => unfold same_schema at hs; exact hs.elim

theorem zebra_grow_column_capacity (l : Int) {c : zebra_column_t} {rows : Nat}
    (h : column_well_formed c rows) : l.toNat ≤ (zebra_grow_column l c).capacity := by
  cases c with
  | b data => simp only [zebra_grow_column, zebra_column_t.capacity, grow_buffer_length]; omega
  | i data => simp only [zebra_grow_column, zebra_column_t.capacity, grow_buffer_length]; omega
  | d data => simp only [zebra_grow_column, zebra_column_t.capacity, grow_buffer_length]; omega
  | a n s so t =>
    simp only [zebra_grow_column, zebra_column_t.capacity, grow_buffer_length]
    omega
  | unrecognised tag => rw [column_well_formed] at h; exact h.elim

theorem append_columns_splits (in_ix r m k : Int) (in_rows : Nat)
    (h0 : 0 ≤ in_ix) (hr : 0 ≤ r) (hm : 0 ≤ m) (hk : 0 ≤ k)
    (hrange : in_ix + m + k ≤ in_rows) :
    ∀ ins : List zebra_column_t, (∀ x ∈ ins, column_append_splits x) →
      ∀ outs, columns_well_formed ins in_rows → columns_well_formed outs r.toNat →
      same_schema_columns ins outs →
      ∃ cols1 cols2,
        append_columns ins in_ix (outs.map (zebra_grow_column (r + m))) r m ins.length =
          some (.ZEBRA_SUCCESS, cols1) ∧
        append_columns ins (in_ix + m) (cols1.map (zebra_grow_column (r + m + k))) (r + m) k
          ins.length = some (.ZEBRA_SUCCESS, cols2) ∧
        append_columns ins in_ix (outs.map (zebra_grow_column (r + m + k))) r (m + k)
          ins.length = some (.ZEBRA_SUCCESS, cols2) := by
  intro ins
  induction ins with
  | nil =>
    intro _ outs _ _ hs
    cases outs with
    | nil =>
      refine ⟨[], [], ?_, ?_, ?_⟩ <;> exact append_columns_zero _ _ _ _ _
    | cons o os => exact absurd hs (same_schema_columns_nil_cons _ _)
  | cons c cs ih =>
    intro hP outs hwi hwo hs
    cases outs with
    | nil => exact absurd hs (same_schema_columns_cons_nil _ _)
    | cons o os =>
      rw [columns_well_formed_cons] at hwi hwo
      rw [same_schema_columns_cons] at hs
      obtain ⟨cols1, cols2, r1, r2, r3⟩ := ih (fun x hx => hP x (List.mem_cons_of_mem _ hx))
        os hwi.2 hwo.2 hs.2
      have hPc := hP c (List.mem_cons_self _ _)
      obtain ⟨c1, _, a1, _, _⟩ := hPc (zebra_grow_column (r + m) o) in_rows in_ix r m 0 h0 hr
        hm (le_refl _) hwi.1 (zebra_grow_column_well_formed _ hwo.1) (same_schema_grow _ hs.1)
        (by omega) (by
          have := zebra_grow_column_capacity (r + m) hwo.1
          simpa using this)
      have a2 := zebra_append_column_grow (r + m + k) (same_schema_grow _ hs.1) a1
      rw [zebra_grow_column_grow _ _ (by omega)] at a2
      obtain ⟨o1, o2, b1, b2, b3⟩ := hPc (zebra_grow_column (r + m + k) o) in_rows in_ix r m k
        h0 hr hm hk hwi.1 (zebra_grow_column_well_formed _ hwo.1) (same_schema_grow _ hs.1)
        hrange (zebra_grow_column_capacity (r + m + k) hwo.1)
      rw [a2] at b1
      have ho1 : o1 = zebra_grow_column (r + m + k) c1 :=
        ((Prod.mk.inj (Option.some.inj b1)).2).symm
      subst ho1
      refine ⟨c1 :: cols1, o2 :: cols2, ?_, ?_, ?_⟩
      · rw [List.map_cons, List.length_cons, append_columns_succ, a1]
        simp only [ne_eq, not_true_eq_false, if_false]
        rw [r1]
      · rw [List.map_cons, List.length_cons, append_columns_succ, b2]
        simp only [ne_eq, not_true_eq_false, if_false]
        rw [r2]
      · rw [List.map_cons, List.length_cons, append_columns_succ, b3]
        simp only [ne_eq, not_true_eq_false, if_false]
        rw [r3]

theorem table_append_splits_of_columns (ri ci : Int) (cols : List zebra_column_t)
    (hP : ∀ x ∈ cols, column_append_splits x) : table_append_splits (.mk ri ci cols) := by
  intro out in_ix m k h0 hm hk hwi hwo hs hrange
  cases out with
  | mk r cc ocols =>
    rw [table_well_formed_mk] at hwi hwo
    rw [same_schema_table_mk] at hs
    obtain ⟨hri, hc, hwc, _⟩ := hwi
    obtain ⟨hr, _, hwc2, _⟩ := hwo
    have hrange2 : in_ix + m + k ≤ ((ri.toNat : Nat) : Int) := by
      have : (zebra_table_t.mk ri ci cols).row_count = ri := rfl
      rw [this] at hrange
      omega
    obtain ⟨cols1, cols2, r1, r2, r3⟩ := append_columns_splits in_ix r m k ri.toNat h0 hr hm hk
      hrange2 cols hP ocols hwc hwc2 hs.2
    have e1 : ci.toNat = cols.length := by rw [hc]; rfl
    refine ⟨.mk (r + m) cc cols1, .mk (r + m + k) cc cols2, ?_, ?_, ?_⟩
    · rw [zebra_append_table_eq]
      simp only [zebra_table_t.row_count, zebra_table_t.column_count, columns_mk]
      rw [e1, r1]
    · rw [zebra_append_table_eq]
      simp only [zebra_table_t.row_count, zebra_table_t.column_count, columns_mk]
      rw [e1, r2]
    · rw [zebra_append_table_eq]
      simp only [zebra_table_t.row_count, zebra_table_t.column_count, columns_mk]
      rw [e1, ← Int.add_assoc, r3]

theorem value_in_ix_eq {in_n in_s : List Int} {in_so : Int} {a rows : Nat}
    (h : ∀ i, i < rows → in_s.getD i 0 = in_so + range_sum in_n 0 (i + 1))
    (hlen : rows ≤ in_s.length) (ha : a ≤ rows) :
    value_in_ix in_s in_so (a : Int) = some (range_sum in_n 0 a) := by
  unfold value_in_ix
  rcases Nat.eq_zero_or_pos a with h0 | h0
  · subst h0
    simp only [Nat.cast_zero, gt_iff_lt, lt_self_iff_false, if_false]
    rw [range_sum_zero]
  · obtain ⟨k, rfl⟩ : ∃ k, a = k + 1 := ⟨a - 1, by omega⟩
    have hpos : ((k + 1 : Nat) : Int) > 0 := by omega
    have e : ((k + 1 : Nat) : Int) - 1 = (k : Int) := by push_cast; ring
    have hk : k < in_s.length := by omega
    rw [if_pos hpos, e, load_natCast, List.getElem?_eq_getElem hk]
    simp only
    have := h k (by omega)
    rw [List.getD_eq_getElem?_getD, List.getElem?_eq_getElem hk] at this
    simp only [Option.getD_some] at this
    rw [this]
    congr 1
    ring

theorem out_base_ok (out_s : List Int) (out_so : Int) (b : Nat) (h : b ≤ out_s.length) :
    ∃ s, out_base out_s out_so (b : Int) = some s := by
  unfold out_base
  rcases Nat.eq_zero_or_pos b with h0 | h0
  · subst h0
    exact ⟨out_so, by simp⟩
  · obtain ⟨k, rfl⟩ : ∃ k, b = k + 1 := ⟨b - 1, by omega⟩
    have hpos : ((k + 1 : Nat) : Int) > 0 := by omega
    have e : ((k + 1 : Nat) : Int) - 1 = (k : Int) := by push_cast; ring
    have hk : k < out_s.length := by omega
    rw [if_pos hpos, e, load_natCast, List.getElem?_eq_getElem hk]
    exact ⟨_, rfl⟩

theorem out_base_of_getElem? {out_s : List Int} {out_so s : Int} {b : Nat} (hb : 0 < b)
    (h : out_s[b - 1]? = some s) : out_base out_s out_so (b : Int) = some s := by
  unfold out_base
  obtain ⟨k, rfl⟩ : ∃ k, b = k + 1 := ⟨b - 1, by omega⟩
  have hpos : ((k + 1 : Nat) : Int) > 0 := by omega
  have e : ((k + 1 : Nat) : Int) - 1 = (k : Int) := by push_cast; ring
  rw [if_pos hpos, e, load_natCast]
  simpa using h

theorem zebra_append_column_a_eq {in_n in_s : List Int} {in_so : Int} {in_t : zebra_table_t}
    {out_n out_s : List Int} {out_so : Int} {out_t : zebra_table_t}
    {in_ix out_ix count v s : Int} {st : array_state} {e : error_t} {t1 : zebra_table_t}
    (hc : count ≠ 0) (hv : value_in_ix in_s in_so in_ix = some v)
    (hb : out_base out_s out_so out_ix = some s)
    (hr : array_rows in_n in_ix out_n out_s out_ix s count = some st)
    (ht : zebra_append_table in_t v out_t st.nested_count = some (e, t1)) :
    zebra_append_column (.a in_n in_s in_so in_t) in_ix (.a out_n out_s out_so out_t) out_ix
      count = some (e, .a st.n st.s out_so t1) := by
  rw [zebra_append_column_a _ _ _ _ _ _ _ _ _ _ _ hc, hv]
  simp only
  rw [hb]
  simp only
  rw [hr]
  simp only
  rw [ht]

theorem column_append_splits_a (in_n in_s : List Int) (in_so : Int) (in_t : zebra_table_t)
    (ih : table_append_splits in_t) : column_append_splits (.a in_n in_s in_so in_t) := by
  intro out in_rows in_ix out_ix m k h0 hr hm hk hwi hwo hs hrange hcap
  cases out with
  | a out_n out_s out_so out_t =>
    obtain ⟨a, rfl⟩ := Int.eq_ofNat_of_zero_le h0
    obtain ⟨b, rfl⟩ := Int.eq_ofNat_of_zero_le hr
    obtain ⟨m, rfl⟩ := Int.eq_ofNat_of_zero_le hm
    obtain ⟨k, rfl⟩ := Int.eq_ofNat_of_zero_le hk
    rw [column_well_formed_a] at hwi hwo
    rw [same_schema_a] at hs
    simp only [Int.toNat_ofNat] at hwo
    obtain ⟨wi1, wi2, wi3, wi4⟩ := hwi
    obtain ⟨wo1, wo2, wo3, wo4⟩ := hwo
    have awi : array_well_formed in_rows (.a in_n in_s in_so in_t) := ⟨wi1, wi3⟩
    obtain ⟨li1, li2, ci, t_in⟩ := array_well_formed_closed awi
    have hcap2 : b + m + k ≤ out_n.length ∧ b + m + k ≤ out_s.length := by
      simp only [zebra_column_t.capacity] at hcap
      omega
    have e1 : (a : Int) + (m : Int) = ((a + m : Nat) : Int) := by push_cast; rfl
    have e2 : (b : Int) + (m : Int) = ((b + m : Nat) : Int) := by push_cast; rfl
    have e3 : (m : Int) + (k : Int) = ((m + k : Nat) : Int) := by push_cast; rfl
    have hnn : ∀ first len, first + len ≤ in_rows → 0 ≤ range_sum in_n first len :=
      fun first len hl => range_sum_nonneg in_n first len (fun j hj => wi2 _ (by omega))
    have hv1 := value_in_ix_eq ci li2 (show a ≤ in_rows by omega)
    have hv2 := value_in_ix_eq ci li2 (show a + m ≤ in_rows by omega)
    rw [range_sum_add, Nat.zero_add] at hv2
    obtain ⟨s0, hb⟩ := out_base_ok out_s out_so b (by omega)
    have hle : range_sum in_n 0 a + range_sum in_n a m + range_sum in_n (a + m) k ≤
        in_t.row_count := by
      have h1 := range_sum_add in_n 0 a m
      have h2 := range_sum_add in_n 0 (a + m) k
      rw [Nat.zero_add] at h1 h2
      rw [t_in, ← h1, ← h2]
      exact range_sum_le in_n 0 (a + m + k) in_rows (by omega)
        (fun i hi => wi2 i (by omega))
    have hmax := (table_well_formed_row_count wi4).2
    have g0 := hnn 0 a (by omega)
    have g1 := hnn a m (by omega)
    have g2 := hnn (a + m) k (by omega)
    obtain ⟨st1, st2, st12, q1, q2, q12, qn, qs, c1, c2, c12, ln1, ls1, hlast⟩ :=
      array_rows_split in_n out_n out_s a b m k s0 (by omega) (by omega) (by omega)
        (by simp only [int64_range, INT64_MIN, INT64_MAX] at hmax ⊢; omega)
        (by simp only [int64_range, INT64_MIN, INT64_MAX] at hmax ⊢; omega)
        (by simp only [int64_range, INT64_MIN, INT64_MAX] at hmax ⊢; omega)
    obtain ⟨t1, t2, p1, p2, p12⟩ := ih out_t (range_sum in_n 0 a) (range_sum in_n a m)
      (range_sum in_n (a + m) k) (hnn _ _ (by omega)) (hnn _ _ (by omega))
      (hnn _ _ (by omega)) wi4 wo4 hs hle
    have htype : (zebra_column_t.a in_n in_s in_so in_t).type =
        (zebra_column_t.a out_n out_s out_so out_t).type := rfl
    rcases Nat.eq_zero_or_pos m with hm0 | hm0
    · subst hm0
      rcases Nat.eq_zero_or_pos k with hk0 | hk0
      · subst hk0
        have hz := zebra_append_column_zero (.a in_n in_s in_so in_t)
          (.a out_n out_s out_so out_t) (a : Int) (b : Int) htype
        refine ⟨.a out_n out_s out_so out_t, .a out_n out_s out_so out_t, ?_, ?_, ?_⟩
        · simp only [Nat.cast_zero]
          exact hz
        · simp only [Nat.cast_zero, Int.add_zero]
          exact hz
        · simp only [Nat.cast_zero, Int.add_zero]
          exact hz
      · have hzero : range_sum in_n a 0 = 0 := range_sum_zero _ _
        rw [hzero, Int.zero_add] at p12 c12
        simp only [Nat.zero_add] at q12 c12
        rw [← c12] at p12
        have hgo := zebra_append_column_a_eq (by omega) hv1 hb q12 p12
        refine ⟨.a out_n out_s out_so out_t, .a st12.n st12.s out_so t2, ?_, ?_, ?_⟩
        · simp only [Nat.cast_zero]
          exact zebra_append_column_zero _ _ _ _ htype
        · simp only [Nat.cast_zero, Int.add_zero]
          exact hgo
        · simp only [Nat.cast_zero, Int.zero_add]
          exact hgo
    · rcases Nat.eq_zero_or_pos k with hk0 | hk0
      · subst hk0
        rw [← c1] at p1
        have hgo := zebra_append_column_a_eq (by omega) hv1 hb q1 p1
        refine ⟨.a st1.n st1.s out_so t1, .a st1.n st1.s out_so t1, hgo, ?_, ?_⟩
        · simp only [Nat.cast_zero]
          exact zebra_append_column_zero _ _ _ _ rfl
        · simp only [Nat.cast_zero, Int.add_zero]
          exact hgo
      · rw [← c1] at p1
        have hgo1 := zebra_append_column_a_eq (by omega) hv1 hb q1 p1
        have hb2 : out_base st1.s out_so ((b + m : Nat) : Int) =
            some (wrap64 (s0 + range_sum in_n a m)) :=
          out_base_of_getElem? (by omega) (hlast hm0)
        rw [← c2] at p2
        have hgo2 := zebra_append_column_a_eq (by omega) hv2 hb2 q2 p2
        rw [← c12] at p12
        have hgo12 := zebra_append_column_a_eq (by omega) hv1 hb q12 p12
        rw [qn, qs] at hgo12
        refine ⟨.a st1.n st1.s out_so t1, .a st2.n st2.s out_so t2, hgo1, ?_, ?_⟩
        · rw [e1, e2]
          exact hgo2
        · rw [e3]
          exact hgo12
  | _ => unfold same_schema at hs; exact hs.elim

theorem append_splits_both :
    (∀ c, column_append_splits c) ∧ (∀ t, table_append_splits t) := by
  apply column_table_induction
  · exact column_append_splits_b
  · exact column_append_splits_i
  · exact column_append_splits_d
  · exact column_append_splits_a
  · intro tag out in_rows in_ix out_ix m k _ _ _ _ hwi
    rw [column_well_formed] at hwi
    exact hwi.elim
  · exact table_append_splits_of_columns

/-- C17: appending a range in two pieces equals appending it in one.  For a well-formed
source table, a well-formed destination table of the same schema and `in_ix`, `m`,
`k` not negative with `in_ix + m + k` within the source,
`zebra_append_table (in, in_ix, out, m)` followed by
`zebra_append_table (in, in_ix + m, out, k)` succeeds, and so does the single call
`zebra_append_table (in, in_ix, out, m + k)`, with exactly the same destination table:
`row_count`, scalar data, `n`, `s`, `s_offset` and the nested tables at every depth. -/
theorem zebra_append_table_split (in_ out : zebra_table_t) (in_ix m k : Int)
    (h_in : table_well_formed in_) (h_out : table_well_formed out)
    (h_schema : same_schema_table in_ out)
    (h_ix : 0 ≤ in_ix) (h_m : 0 ≤ m) (h_k : 0 ≤ k)
    (h_range : in_ix + m + k ≤ in_.row_count) :
    ∃ out1 out2,
      zebra_append_table in_ in_ix out m = some (.ZEBRA_SUCCESS, out1) ∧
      zebra_append_table in_ (in_ix + m) out1 k = some (.ZEBRA_SUCCESS, out2) ∧
      zebra_append_table in_ in_ix out (m + k) = some (.ZEBRA_SUCCESS, out2) :=
  append_splits_both.2 in_ out in_ix m k h_ix h_m h_k h_in h_out h_schema h_range

/-- Rows 1 and 2 of the table of `attribute_source`, appended onto the table of
`attribute_destination` one after the other or both at once: the same table, whose one
column is `nested_result`. -/
theorem zebra_append_table_split_witness :
    (∃ out1 out2,
      zebra_append_table attribute_source.table 1 attribute_destination.table 1 =
        some (.ZEBRA_SUCCESS, out1) ∧
      zebra_append_table attribute_source.table (1 + 1) out1 1 = some (.ZEBRA_SUCCESS, out2) ∧
      zebra_append_table attribute_source.table 1 attribute_destination.table (1 + 1) =
        some (.ZEBRA_SUCCESS, out2)) ∧
    zebra_append_table attribute_source.table 1 attribute_destination.table (1 + 1) =
      some (.ZEBRA_SUCCESS, .mk 3 1 [nested_result]) :=
  ⟨zebra_append_table_split attribute_source.table attribute_destination.table 1 1 1
    attribute_source_well_formed attribute_destination_well_formed attribute_same_schema
    (by decide) (by decide) (by decide) (by decide), rfl⟩

/-! ## Offsets beyond the range of `int64_t` -/

theorem overflow_source_well_formed : column_well_formed overflow_source 1 := by
  unfold overflow_source
  rw [column_well_formed_a, table_well_formed_mk, columns_well_formed_cons]
  refine ⟨⟨by decide, by decide, fun _ => by decide, fun i h1 h2 => ?_⟩,
    fun i hi => ?_, by decide, by decide, by decide, ⟨?_, ?_⟩, by decide⟩
  · omega
  · interval_cases i; decide
  · rw [column_well_formed]; decide
  · rw [columns_well_formed]; trivial

theorem overflow_destination_well_formed : column_well_formed overflow_destination 1 := by
  unfold overflow_destination
  rw [column_well_formed_a, table_well_formed_mk, columns_well_formed_cons]
  refine ⟨⟨by decide, by decide, fun _ => by decide, fun i h1 h2 => ?_⟩,
    fun i hi => ?_, by decide, by decide, by decide, ⟨?_, ?_⟩, by decide⟩
  · omega
  · interval_cases i; decide
  · rw [column_well_formed]; decide
  · rw [columns_well_formed]; trivial

theorem overflow_same_schema : same_schema overflow_source overflow_destination := by
  unfold overflow_source overflow_destination
  rw [same_schema_a, same_schema_table_mk, same_schema_columns_cons]
  refine ⟨rfl, ?_, ?_⟩
  · rw [same_schema]; trivial
  · rw [same_schema_columns]; trivial

/-- The append at the upper end of `int64_t` returns success; the offset of the new row
is `INT64_MIN`. -/
theorem overflow_append :
    zebra_append_column overflow_source 0 overflow_destination 1 1 =
      some (.ZEBRA_SUCCESS, overflow_result) := rfl

theorem overflow_decode :
    decode_column overflow_result 1 = .array [[.scalar (.int 50)]] ∧
    decode_column overflow_source 0 = .array [[.scalar (.int 70)]] := ⟨rfl, rfl⟩

theorem overflow_decode_ne :
    decode_column overflow_result 1 ≠ decode_column overflow_source 0 := by
  intro h
  rw [overflow_decode.1, overflow_decode.2] at h
  simp at h

/-- C2 as stated is false: `overflow_source` and `overflow_destination` are well-formed
columns of the same schema; after the successful append of the source's row 0 onto the
destination's one row, row 1 of the destination decodes to `[[50]]`, not to the source's
row `[[70]]`: the offset written for the row is `INT64_MIN`. -/
theorem zebra_append_column_decoded_rows_counterexample :
    column_well_formed overflow_source 1 ∧ column_well_formed overflow_destination 1 ∧
    same_schema overflow_source overflow_destination ∧
    zebra_append_column overflow_source 0 overflow_destination 1 1 =
      some (.ZEBRA_SUCCESS, overflow_result) ∧
    decode_column overflow_result (1 + 0) = .array [[.scalar (.int 50)]] ∧
    decode_column overflow_source (0 + 0) = .array [[.scalar (.int 70)]] ∧
    decode_column overflow_result (1 + 0) ≠ decode_column overflow_source (0 + 0) :=
  ⟨overflow_source_well_formed, overflow_destination_well_formed, overflow_same_schema, rfl,
    rfl, rfl, overflow_decode_ne⟩

/-- C12 as stated is false: the attributes over `overflow_source` and
`overflow_destination` have well-formed tables of the same schema and the destination's
metadata arrays hold its one row; `zebra_append_attribute` returns success, and row 1 of
the destination table does not decode to row 0 of the source table. -/
theorem zebra_append_attribute_one_row_counterexample :
    table_well_formed overflow_attribute_source.table ∧
    table_well_formed overflow_attribute_destination.table ∧
    same_schema_table overflow_attribute_source.table overflow_attribute_destination.table ∧
    0 < overflow_attribute_source.table.row_count.toNat ∧
    overflow_attribute_destination.table.row_count.toNat ≤
      overflow_attribute_destination.times.length ∧
    overflow_attribute_destination.table.row_count.toNat ≤
      overflow_attribute_destination.priorities.length ∧
    overflow_attribute_destination.table.row_count.toNat ≤
      overflow_attribute_destination.tombstones.length ∧
    zebra_append_attribute overflow_attribute_source 0 overflow_attribute_destination =
      some (.ZEBRA_SUCCESS, overflow_attribute_result) ∧
    decode_table overflow_attribute_result.table
        overflow_attribute_destination.table.row_count.toNat ≠
      decode_table overflow_attribute_source.table 0 := by
  refine ⟨?_, ?_, ?_, by decide, by decide, by decide, by decide, rfl, ?_⟩
  · show table_well_formed (.mk 1 1 [overflow_source])
    rw [table_well_formed_mk, columns_well_formed_cons]
    exact ⟨by decide, rfl, ⟨overflow_source_well_formed, by rw [columns_well_formed]; trivial⟩,
      by decide⟩
  · show table_well_formed (.mk 1 1 [overflow_destination])
    rw [table_well_formed_mk, columns_well_formed_cons]
    exact ⟨by decide, rfl,
      ⟨overflow_destination_well_formed, by rw [columns_well_formed]; trivial⟩, by decide⟩
  · show same_schema_table (.mk 1 1 [overflow_source]) (.mk 1 1 [overflow_destination])
    rw [same_schema_table_mk, same_schema_columns_cons]
    exact ⟨rfl, overflow_same_schema, by rw [same_schema_columns]; trivial⟩
  · intro h
    have h1 : decode_table overflow_attribute_result.table
        overflow_attribute_destination.table.row_count.toNat =
        [decode_column overflow_result 1] := rfl
    have h2 : decode_table overflow_attribute_source.table 0 =
        [decode_column overflow_source 0] := rfl
    rw [h1, h2] at h
    exact overflow_decode_ne (List.cons.inj h).1

/-- C15 as stated is false: in the successful append of the row of `overflow_source` onto
`overflow_destination`, `base = out.s[0] = INT64_MAX` and `in.n[0] = 1`; the offset
written is `out.s[1] = INT64_MIN`, not `base + in.n[0] = INT64_MAX + 1`. -/
theorem zebra_append_column_offsets_recomputed_counterexample :
    zebra_append_column overflow_source 0 overflow_destination 1 1 =
      some (.ZEBRA_SUCCESS, overflow_result) ∧
    overflow_result.s.getD (1 + 0) 0 = INT64_MIN ∧
    overflow_destination.s.getD (1 - 1) 0 + range_sum overflow_source.n 0 (0 + 1) =
      INT64_MAX + 1 ∧
    overflow_result.s.getD (1 + 0) 0 ≠
      overflow_destination.s.getD (1 - 1) 0 + range_sum overflow_source.n 0 (0 + 1) :=
  ⟨rfl, by decide, by decide, by decide⟩

end Zebra
